import Mathlib

/-!
# cpp-pkg (pacc): configuration merge and dependency resolution

A shallow embedding of `src/Generators/Premake5.cpp` and
`src/PackageSystem/Package.cpp`.

Conventions of the embedding:

* a `std::vector<T>` is a `List T`; `push_back` appends at the end;
* a function that mutates an argument through a reference returns the new value;
* a `fs::path` is the `String` it was built from; the operations of
  `std::filesystem` and of the `fsx` helpers, which are not part of the
  sources, are the fields of `Fs`;
* a `std::map<std::string, Configuration>` is a key-sorted association list
  without repeated keys (`FilterMap`);
* a `std::shared_ptr<Package>` is an index into an arena of packages;
* a call that may throw returns an `Except`; the helpers that `Package.cpp` calls and that are
  not part of the sources are the fields of `Helpers`.
-/

namespace Pacc

/-! ## Access tiers -/

/-- The enumeration `AccessType` of `Premake5.cpp`. -/
inductive AccessType where
  | Private
  | Public
  | Interface
deriving DecidableEq, Repr

/-- The three-way split `AccessSplit<T>`: one `T` per access tier. -/
structure AccessSplit (T : Type) where
  private_ : T
  public_ : T
  interface_ : T
deriving DecidableEq, Repr

/-- `AccessSplitVec<T>`, a split whose three members are vectors. -/
abbrev AccessSplitVec (α : Type) := AccessSplit (List α)

abbrev VecOfStr := List String

abbrev VecOfStrAcc := AccessSplitVec String

/-- The default-constructed split: three empty vectors. -/
def AccessSplitVec.empty {α : Type} : AccessSplitVec α :=
  { private_ := [], public_ := [], interface_ := [] }

/-- The pair of a manifest-declared (`self`) and a resolver-derived (`computed`) value. -/
structure SelfAndComputed (T : Type) where
  self : T
  computed : T
deriving DecidableEq, Repr

def SelfAndComputed.empty {α : Type} : SelfAndComputed (AccessSplitVec α) :=
  { self := AccessSplitVec.empty, computed := AccessSplitVec.empty }

/-- Reading through the reference that `targetByAccessType` returns. -/
def targetByAccessType {T : Type} (accessSplit_ : AccessSplit T) (type_ : AccessType) : T :=
  match type_ with
  | AccessType.Private => accessSplit_.private_
  | AccessType.Public => accessSplit_.public_
  | AccessType.Interface => accessSplit_.interface_

/-- Writing through the reference that `targetByAccessType` returns. -/
def setByAccessType {T : Type} (accessSplit_ : AccessSplit T) (type_ : AccessType) (v : T) :
    AccessSplit T :=
  match type_ with
  | AccessType.Private => { accessSplit_ with private_ := v }
  | AccessType.Public => { accessSplit_ with public_ := v }
  | AccessType.Interface => { accessSplit_ with interface_ := v }

/-- `getAccesses` on an access split: the private, public and interface members, in that order. -/
def getAccesses {T : Type} (v : AccessSplit T) : List T :=
  [v.private_, v.public_, v.interface_]

/-! ## Merging one axis -/

/-- `mergeFields`: without a mapping function (`nullptr`, here `none`) the source range is
inserted at the end of the target; with one, each mapped element is pushed back in turn. -/
def mergeFields {α : Type} (into_ : List α) (from_ : List α) (mapValueFn_ : Option (α → α)) :
    List α :=
  match mapValueFn_ with
  | none => into_ ++ from_
  | some f => from_.foldl (fun acc elem => acc ++ [f elem]) into_

/-- `mergeAccesses`: the target is `into_.computed` at tier `method_`; `forBoth` visits
`from_.computed` and then `from_.self`, and each visit merges the interface and then the
public member into the target. -/
def mergeAccesses {α : Type} (into_ from_ : SelfAndComputed (AccessSplitVec α))
    (method_ : AccessType) (mapValueFn_ : Option (α → α)) : SelfAndComputed (AccessSplitVec α) :=
  let target := targetByAccessType into_.computed method_
  let mergeFieldsTarget := fun (target : List α) (selfOrComputed : AccessSplitVec α) =>
    mergeFields (mergeFields target selfOrComputed.interface_ mapValueFn_)
      selfOrComputed.public_ mapValueFn_
  let forBoth := fun (selfAndComputed : SelfAndComputed (AccessSplitVec α))
      (whatToDo : List α → AccessSplitVec α → List α) (target : List α) =>
    whatToDo (whatToDo target selfAndComputed.computed) selfAndComputed.self
  { into_ with
    computed := setByAccessType into_.computed method_ (forBoth from_ mergeFieldsTarget target) }

/-- The idiom `targetByAccessType(split, tier).push_back(x)`. -/
def pushBackByAccessType {α : Type} (accessSplit_ : AccessSplitVec α) (type_ : AccessType)
    (x : α) : AccessSplitVec α :=
  setByAccessType accessSplit_ type_ (targetByAccessType accessSplit_ type_ ++ [x])

/-! ## Filesystem primitives -/

/-- The operations of `std::filesystem` and of the `fsx` helpers that the sources call and
do not define: `fs::path::is_relative`, `fs::path::parent_path`, `operator/` (`append`),
`fsx::fwd` and `operator<` on paths (`lt`). -/
structure Fs where
  is_relative : String → Bool
  parent_path : String → String
  append : String → String → String
  fwd : String → String
  lt : String → String → Bool

/-- The order `std::less<std::string>` of the keys of a `std::map`: lexicographic on the
characters. It decides the order of `String`. -/
def strLt (a b : String) : Bool := decide (a.data < b.data)

/-! ## Versions and dependencies -/

/-- Modelled from the spec: `Version` is declared outside the sources; the spec describes it
as an ordered, comparable value parsed from a string such as "1.2.0". -/
structure Version where
  major : Nat
  minor : Nat
  patch : Nat
deriving DecidableEq, Repr

/-- Modelled from the spec: the variants of a version requirement. The sources name only
`VersionReq::Any`; the spec lists Any, Exact and range forms. -/
inductive VersionReqType where
  | Any
  | Exact
  | Range
deriving DecidableEq, Repr

/-- Modelled from the spec: `VersionReq`, with the member `type` that `readDependencyAccess`
assigns. A default-constructed requirement is unconstrained. -/
structure VersionReq where
  type : VersionReqType
  version : Version
deriving DecidableEq, Repr

def VersionReq.any : VersionReq := { type := VersionReqType.Any, version := ⟨0, 0, 0⟩ }

/-- `PackagePtr`, a `std::shared_ptr<Package>`: `none` is the null pointer, `some i` points
to the package at index `i` of the arena of shared packages. -/
abbrev PackagePtr := Option Nat

/-- `PackageDependency`, with the fields the sources assign. -/
structure PackageDependency where
  packageName : String
  version : VersionReq
  projects : List String
  downloadLocation : String
  package : PackagePtr
deriving DecidableEq, Repr

/-- `SelfDependency`: the referencing project, the name of the target project and the owning
package. The two raw pointers of the source are kept as the project's name and the package's
root. -/
structure SelfDependency where
  project : String
  depProjName : String
  package : String
deriving DecidableEq, Repr

/-- The tagged variant `Dependency`. -/
inductive Dependency where
  | raw (rawDep : String)
  | self (selfDep : SelfDependency)
  | package (pkgDep : PackageDependency)
deriving DecidableEq, Repr

/-! ## Configurations, projects, packages -/

/-- `Configuration`: the six string axes and the dependency axis, each with a `self` and a
`computed` access split, the file list and the two scalars. The type of `symbolVisibility` is
declared outside the sources and kept as the string it is parsed from. -/
structure Configuration where
  symbolVisibility : String
  moduleDefinitionFile : String
  files : VecOfStr
  defines : SelfAndComputed VecOfStrAcc
  includeFolders : SelfAndComputed VecOfStrAcc
  linkerFolders : SelfAndComputed VecOfStrAcc
  linkedLibraries : SelfAndComputed VecOfStrAcc
  compilerOptions : SelfAndComputed VecOfStrAcc
  linkerOptions : SelfAndComputed VecOfStrAcc
  dependencies : SelfAndComputed (AccessSplitVec Dependency)
deriving DecidableEq, Repr

/-- The default-constructed configuration `{}`: every list empty. -/
def Configuration.empty : Configuration :=
  { symbolVisibility := "Default"
    moduleDefinitionFile := ""
    files := []
    defines := SelfAndComputed.empty
    includeFolders := SelfAndComputed.empty
    linkerFolders := SelfAndComputed.empty
    linkedLibraries := SelfAndComputed.empty
    compilerOptions := SelfAndComputed.empty
    linkerOptions := SelfAndComputed.empty
    dependencies := SelfAndComputed.empty }

/-- Insertion of a key into a key-sorted association list; the value of a key that is
already present is replaced. -/
def insertEntry (k : String) (v : Configuration) :
    List (String × Configuration) → List (String × Configuration)
  | [] => [(k, v)]
  | e :: rest =>
    if strLt k e.1 then (k, v) :: e :: rest
    else if k = e.1 then (k, v) :: rest
    else e :: insertEntry k v rest

/-- The map from filter names to configurations that is the type of `premakeFilters`: kept as
the list of its entries in strictly ascending key order, the order in which a
`std::map<std::string, Configuration>` is iterated. -/
structure FilterMap where
  entries : List (String × Configuration)
  sorted : entries.Pairwise (fun a b => strLt a.1 b.1 = true)
deriving DecidableEq, Repr

/-- The empty map. -/
def FilterMap.empty : FilterMap := ⟨[], List.Pairwise.nil⟩

/-- `m.find(k)`: the mapped configuration, `none` for `end()`. -/
def FilterMap.find (m : FilterMap) (k : String) : Option Configuration :=
  (m.entries.find? (fun e => e.1 = k)).map Prod.snd

/-- The keys in iteration order. -/
def FilterMap.keys (m : FilterMap) : List String := m.entries.map Prod.fst

/-- The assignment `m[k] = v`. -/
def FilterMap.set (m : FilterMap) (k : String) (v : Configuration) : FilterMap :=
  ⟨insertEntry k v m.entries, by
    have lt_iff : ∀ a b : String, strLt a b = true ↔ a < b := by
      intro a b; simp [strLt, String.lt_iff_toList_lt]
    have aux : ∀ (l : List (String × Configuration)) (P : String → Prop),
        P k → (∀ e ∈ l, P e.1) → ∀ e ∈ insertEntry k v l, P e.1 := by
      intro l P hk
      induction l with
      | nil => intro _ e he; simp [insertEntry] at he; subst he; exact hk
      | cons x xs ih =>
        intro hl e he
        simp only [insertEntry] at he
        split at he
        · rcases List.mem_cons.1 he with h | h
          · subst h; exact hk
          · exact hl e h
        · split at he
          · rcases List.mem_cons.1 he with h | h
            · subst h; exact hk
            · exact hl e (List.mem_cons_of_mem _ h)
          · rcases List.mem_cons.1 he with h | h
            · subst h; exact hl _ (List.mem_cons_self _ _)
            · exact ih (fun e he => hl e (List.mem_cons_of_mem _ he)) e h
    have main : ∀ l : List (String × Configuration),
        l.Pairwise (fun a b => strLt a.1 b.1 = true) →
        (insertEntry k v l).Pairwise (fun a b => strLt a.1 b.1 = true) := by
      intro l
      induction l with
      | nil => intro _; simp [insertEntry]
      | cons x xs ih =>
        intro hs
        have hx := (List.pairwise_cons.1 hs).1
        have hxs := (List.pairwise_cons.1 hs).2
        simp only [insertEntry]
        split
        · rename_i hlt
          refine List.pairwise_cons.2 ⟨?_, hs⟩
          intro e he
          rcases List.mem_cons.1 he with h | h
          · subst h; exact hlt
          · exact (lt_iff _ _).2 (lt_trans ((lt_iff _ _).1 hlt) ((lt_iff _ _).1 (hx e h)))
        · split
          · rename_i _ heq
            refine List.pairwise_cons.2 ⟨?_, hxs⟩
            intro e he
            show strLt k e.1 = true
            rw [heq]; exact hx e he
          · rename_i hnlt hne
            refine List.pairwise_cons.2 ⟨?_, ih hxs⟩
            refine aux xs (fun s => strLt x.1 s = true) ?_ hx
            have h1 : ¬ k < x.1 := fun h => hnlt ((lt_iff _ _).2 h)
            exact (lt_iff _ _).2 (lt_of_le_of_ne (not_lt.1 h1) (Ne.symm hne))
    exact main m.entries m.sorted⟩

/-- The precompiled-header descriptor of a project. -/
structure PrecompiledHeader where
  header : String
  source : String
  definition : String
deriving DecidableEq, Repr

/-- `TargetBase`: a configuration with a name and its named filter overlays. -/
structure TargetBase extends Configuration where
  name : String
  premakeFilters : FilterMap
deriving DecidableEq, Repr

/-- The enumeration `Project::Type`. -/
inductive ProjectType where
  | App
  | StaticLib
  | SharedLib
  | Interface
  | Unknown
deriving DecidableEq, Repr

/-- `Project`: a target with its type, language and optional precompiled header. -/
structure Project extends TargetBase where
  type : ProjectType
  language : String
  pch : Option PrecompiledHeader
deriving DecidableEq, Repr

/-- `Package`: name, version, root (the path of the manifest file), optional script file,
startup project and the projects in manifest order. -/
structure Package where
  name : String
  version : Version
  root : String
  scriptFile : String
  startupProject : String
  projects : List Project
deriving DecidableEq, Repr

/-! ## Package.cpp: path prediction and the configuration merger -/

/-- `Package::predictOutputFolder`. -/
def Package.predictOutputFolder (fs : Fs) (this : Package) (_project : Project) : String :=
  fs.append (fs.parent_path this.root) "bin/%\x7bcfg.platform\x7d/%\x7bcfg.buildcfg\x7d"

/-- `Package::resolvePath`. -/
def Package.resolvePath (fs : Fs) (this : Package) (path_ : String) : String :=
  if fs.is_relative path_ then fs.fwd (fs.append (fs.parent_path this.root) path_)
  else path_

/-- `computeConfiguration` with five arguments: the six merges, then the implicit output
folder and library name of a static or shared library. -/
def computeConfiguration (fs : Fs) (into_ : Configuration) (fromPkg_ : Package)
    (fromProject_ : Project) (from_ : Configuration) (mode_ : AccessType) : Configuration :=
  let resolvePath := fun (pathLikeElem : String) => fromPkg_.resolvePath fs pathLikeElem
  let into_ := { into_ with defines := mergeAccesses into_.defines from_.defines mode_ none }
  let into_ := { into_ with
    includeFolders := mergeAccesses into_.includeFolders from_.includeFolders mode_
      (some resolvePath) }
  let into_ := { into_ with
    linkerFolders := mergeAccesses into_.linkerFolders from_.linkerFolders mode_
      (some resolvePath) }
  let into_ := { into_ with
    linkedLibraries := mergeAccesses into_.linkedLibraries from_.linkedLibraries mode_ none }
  let into_ := { into_ with
    compilerOptions := mergeAccesses into_.compilerOptions from_.compilerOptions mode_ none }
  let into_ := { into_ with
    linkerOptions := mergeAccesses into_.linkerOptions from_.linkerOptions mode_ none }
  if fromProject_.type = ProjectType.StaticLib ∨ fromProject_.type = ProjectType.SharedLib then
    let into_ := { into_ with
      linkerFolders := { into_.linkerFolders with
        computed := pushBackByAccessType into_.linkerFolders.computed mode_
          (fs.fwd (fromPkg_.predictOutputFolder fs fromProject_)) } }
    { into_ with
      linkedLibraries := { into_.linkedLibraries with
        computed := pushBackByAccessType into_.linkedLibraries.computed mode_
          fromProject_.name } }
  else into_

/-- Modelled from the spec: the four-argument overload of `computeConfiguration` that
`inheritConfigurationFrom` calls first is declared outside the sources; the spec describes
the call as `computeConfiguration` on the base configuration, that is with the source
project itself as the source configuration. -/
def computeConfigurationBase (fs : Fs) (into_ : Configuration) (fromPkg_ : Package)
    (fromProject_ : Project) (mode_ : AccessType) : Configuration :=
  computeConfiguration fs into_ fromPkg_ fromProject_ fromProject_.toConfiguration mode_

/-- One turn of the filter loop of `inheritConfigurationFrom`, for the entry `it` of the
source project's filters: the receiver's filter is created empty when absent, then merged. -/
def inheritFilter (fs : Fs) (fromPkg_ : Package) (fromProject_ : Project) (mode_ : AccessType)
    (premakeFilters : FilterMap) (it : String × Configuration) : FilterMap :=
  let premakeFilters :=
    if (premakeFilters.find it.1).isNone then premakeFilters.set it.1 Configuration.empty
    else premakeFilters
  match premakeFilters.find it.1 with
  | some cfg =>
    premakeFilters.set it.1 (computeConfiguration fs cfg fromPkg_ fromProject_ it.2 mode_)
  | none => premakeFilters

/-- `TargetBase::inheritConfigurationFrom`. -/
def TargetBase.inheritConfigurationFrom (fs : Fs) (this : TargetBase) (fromPkg_ : Package)
    (fromProject_ : Project) (mode_ : AccessType) : TargetBase :=
  let this :=
    { this with
      toConfiguration :=
        computeConfigurationBase fs this.toConfiguration fromPkg_ fromProject_ mode_ }
  { this with
    premakeFilters :=
      fromProject_.premakeFilters.entries.foldl (inheritFilter fs fromPkg_ fromProject_ mode_)
        this.premakeFilters }

/-- The same call on a project: only its `TargetBase` part is touched. -/
def Project.inheritConfigurationFrom (fs : Fs) (this : Project) (fromPkg_ : Package)
    (fromProject_ : Project) (mode_ : AccessType) : Project :=
  { this with
    toTargetBase := this.toTargetBase.inheritConfigurationFrom fs fromPkg_ fromProject_ mode_ }

/-! ## Premake5.cpp: the registry of loaded packages and the resolver -/

/-- The bisection of `std::lower_bound(first, last, value, comp)` on a random-access range,
with the steps the standard libraries take: while the remaining length is positive, the
middle element is compared by `comp(element, value)`; when true the search continues right
of the middle, otherwise in the left half. The result is the index of the iterator returned;
`xs.length` is `end()`. The first argument of `go` bounds the number of turns. -/
def lower_bound {α β : Type} (comp : α → β → Bool) (xs : List α) (value : β) : Nat :=
  go xs.length 0 xs.length
where
  go : Nat → Nat → Nat → Nat
    | 0, first, _ => first
    | turns + 1, first, len =>
      if len > 0 then
        let half := len / 2
        let middle := first + half
        match xs[middle]? with
        | some e =>
          if comp e value then go turns (middle + 1) (len - half - 1)
          else go turns first half
        | none => first
      else first

/-- The bisection of `std::upper_bound(first, last, value, comp)`: the middle element is
compared by `comp(value, element)`; when true the search continues in the left half,
otherwise right of the middle. -/
def upper_bound {α β : Type} (comp : β → α → Bool) (xs : List α) (value : β) : Nat :=
  go xs.length 0 xs.length
where
  go : Nat → Nat → Nat → Nat
    | 0, first, _ => first
    | turns + 1, first, len =>
      if len > 0 then
        let half := len / 2
        let middle := first + half
        match xs[middle]? with
        | some e =>
          if comp value e then go turns first half
          else go turns (middle + 1) (len - half - 1)
        | none => first
      else first

/-- `v.insert(it, x)` on a vector, with the iterator given as an index. -/
def insertAt {α : Type} (xs : List α) (it : Nat) (x : α) : List α :=
  xs.take it ++ x :: xs.drop it

instance : Inhabited Package :=
  ⟨{ name := "", version := ⟨0, 0, 0⟩, root := "", scriptFile := "", startupProject := "",
     projects := [] }⟩

/-- The state of the generator `Premake5`: the packages owned by shared pointers (`heap`, a
pointer is an index into it), the registry `loadedPackages` of pointers and the queue
`configQueue`. -/
structure Premake5 where
  heap : List Package
  loadedPackages : List Nat
  configQueue : List Dependency
deriving DecidableEq, Repr

/-- A generator that has loaded nothing. -/
def Premake5.empty : Premake5 := { heap := [], loadedPackages := [], configQueue := [] }

/-- The pointee `*e` of a pointer of the registry. -/
def Premake5.deref (this : Premake5) (e : Nat) : Package := this.heap.getD e default

/-- `Premake5::findPackageByRoot`: the pointer found, `none` for `nullptr`. -/
def Premake5.findPackageByRoot (fs : Fs) (this : Premake5) (root_ : String) : PackagePtr :=
  let it := lower_bound (fun e inserted => fs.lt (this.deref e).root inserted)
    this.loadedPackages root_
  match this.loadedPackages[it]? with
  | some e => if (this.deref e).root = root_ then some e else none
  | none => none

/-- `Premake5::wasPackageLoaded`. -/
def Premake5.wasPackageLoaded (fs : Fs) (this : Premake5) (root_ : String) : Bool :=
  let it := lower_bound (fun e inserted => fs.lt (this.deref e).root inserted)
    this.loadedPackages root_
  match this.loadedPackages[it]? with
  | some e => if (this.deref e).root = root_ then true else false
  | none => false

/-- The block "Insert in sorted order" of `Premake5::loadDependencies`: the position is
found by `std::upper_bound` with the comparator `(inserted, e) ↦ e->root < inserted`. -/
def Premake5.insertSorted (fs : Fs) (this : Premake5) (pkgPtr : Nat) : Premake5 :=
  let it := upper_bound (fun inserted e => fs.lt (this.deref e).root inserted)
    this.loadedPackages (this.deref pkgPtr).root
  { this with loadedPackages := insertAt this.loadedPackages it pkgPtr }

/-- `std::make_shared<Package>(std::move(pkg))`: the package gets a place in the arena. -/
def Premake5.makeShared (this : Premake5) (pkg : Package) : Premake5 × Nat :=
  ({ this with heap := this.heap ++ [pkg] }, this.heap.length)

/-- The roots of the registry, in the order of `loadedPackages`. -/
def Premake5.loadedRoots (this : Premake5) : List String :=
  this.loadedPackages.map (fun e => (this.deref e).root)

/-- What surrounds the resolver: the working directory, the data folder of the tool and
`Package::load` on a folder, whose overload for a path is declared outside the sources: it
throws (`none`) or returns a package. -/
structure Env where
  current_path : String
  getPaccDataStorageFolder : String
  load : String → Option Package

/-- How a run of the resolver ends when it does not return: the exception of
`loadPackageByName`, the dereference of the null pointer that `findProject` returns for a
missing project, or recursion deeper than the bound given to the embedding. -/
inductive Error where
  | couldNotFindPackage (name : String)
  | nullProject (name : String)
  | recursionBound
deriving DecidableEq, Repr

/-- `loadPackageByName` of `Premake5.cpp`: the first candidate folder that loads. -/
def loadPackageByName (fs : Fs) (env : Env) (name : String) : Except Error Package :=
  let candidates :=
    [fs.append env.current_path "pacc_packages",
     fs.append env.getPaccDataStorageFolder "packages"]
  match candidates.findSome? (fun c => env.load (fs.append c name)) with
  | some pkg => Except.ok pkg
  | none => Except.error (Error.couldNotFindPackage name)

/-- `Package::findProject`: the first project with the given name. -/
def Package.findProject (this : Package) (name_ : String) : Option Project :=
  this.projects.find? (fun p => p.name = name_)

/-- One turn of the loop over `pkgDep.projects` in `Premake5::loadDependencies`: the four
merges from the remote project into `p`. -/
def mergeRemoteProject (fs : Fs) (pkg : Package) (method : AccessType) (p : Project)
    (remoteProj : Project) : Project :=
  let resolvePath := fun (pathElem : String) =>
    if fs.is_relative pathElem then fs.fwd (fs.append (fs.parent_path pkg.root) pathElem)
    else pathElem
  let p := { p with defines := mergeAccesses p.defines remoteProj.defines method none }
  let p := { p with
    includeFolders := mergeAccesses p.includeFolders remoteProj.includeFolders method
      (some resolvePath) }
  let p := { p with
    linkerFolders := mergeAccesses p.linkerFolders remoteProj.linkerFolders method
      (some resolvePath) }
  { p with
    linkedLibraries := mergeAccesses p.linkedLibraries remoteProj.linkedLibraries method none }

/-- The loop over `pkgDep.projects`. -/
def mergeRemoteProjects (fs : Fs) (pkg : Package) (method : AccessType) :
    Project → List String → Except Error Project
  | p, [] => Except.ok p
  | p, depProjName :: rest =>
    match pkg.findProject depProjName with
    | none => Except.error (Error.nullProject depProjName)
    | some remoteProj =>
      mergeRemoteProjects fs pkg method (mergeRemoteProject fs pkg method p remoteProj) rest

/-- The body of the loop over the dependencies of one tier, for the dependency `dep` of the
project `p`; `recurse` is the recursive call of `loadDependencies`. A raw dependency is
pushed to the computed linked libraries; a package dependency is loaded, skipped when its
root is found in the registry, and otherwise registered, queued, resolved and merged; there
is no case for a self dependency. -/
def loadDependency (fs : Fs) (env : Env)
    (recurse : Premake5 → Package → Except Error (Premake5 × Package)) (method : AccessType)
    (this : Premake5) (p : Project) (dep : Dependency) :
    Except Error (Premake5 × Project × Dependency) :=
  match dep with
  | Dependency.raw rawDep =>
    Except.ok (this,
      { p with
        linkedLibraries := { p.linkedLibraries with
          computed := pushBackByAccessType p.linkedLibraries.computed method rawDep } },
      dep)
  | Dependency.self _ => Except.ok (this, p, dep)
  | Dependency.package pkgDep =>
    match loadPackageByName fs env pkgDep.packageName with
    | Except.error e => Except.error e
    | Except.ok pkg =>
      if this.wasPackageLoaded fs pkg.root then Except.ok (this, p, dep)
      else
        let (this, pkgPtr) := this.makeShared pkg
        let pkgDep := { pkgDep with package := some pkgPtr }
        let this := this.insertSorted fs pkgPtr
        let this := { this with configQueue := this.configQueue ++ [Dependency.package pkgDep] }
        match recurse this pkg with
        | Except.error e => Except.error e
        | Except.ok (this, pkg) =>
          let this := { this with heap := this.heap.set pkgPtr pkg }
          match mergeRemoteProjects fs pkg method p pkgDep.projects with
          | Except.error e => Except.error e
          | Except.ok p => Except.ok (this, p, Dependency.package pkgDep)

/-- The loop over the dependencies of one tier; the dependencies come back as the loop left
them. -/
def loadAccess (step : Premake5 → Project → Dependency →
      Except Error (Premake5 × Project × Dependency)) :
    Premake5 → Project → List Dependency → Except Error (Premake5 × Project × List Dependency)
  | this, p, [] => Except.ok (this, p, [])
  | this, p, dep :: rest =>
    match step this p dep with
    | Except.error e => Except.error e
    | Except.ok (this, p, dep) =>
      match loadAccess step this p rest with
      | Except.error e => Except.error e
      | Except.ok (this, p, rest) => Except.ok (this, p, dep :: rest)

/-- The loop over `getAccesses(p.dependencies.self)`: the private, the public and the
interface dependencies, with `methodIdx` running along. -/
def loadProject (step : AccessType → Premake5 → Project → Dependency →
      Except Error (Premake5 × Project × Dependency))
    (this : Premake5) (p : Project) : Except Error (Premake5 × Project) :=
  match loadAccess (step AccessType.Private) this p p.dependencies.self.private_ with
  | Except.error e => Except.error e
  | Except.ok (this, p, access) =>
    let p := { p with
      dependencies := { p.dependencies with self := { p.dependencies.self with private_ := access } } }
    match loadAccess (step AccessType.Public) this p p.dependencies.self.public_ with
    | Except.error e => Except.error e
    | Except.ok (this, p, access) =>
      let p := { p with
        dependencies := { p.dependencies with self := { p.dependencies.self with public_ := access } } }
      match loadAccess (step AccessType.Interface) this p p.dependencies.self.interface_ with
      | Except.error e => Except.error e
      | Except.ok (this, p, access) =>
        Except.ok (this,
          { p with
            dependencies := { p.dependencies with
              self := { p.dependencies.self with interface_ := access } } })

/-- The loop over `pkg_.projects`. -/
def loadProjects (step : AccessType → Premake5 → Project → Dependency →
      Except Error (Premake5 × Project × Dependency)) :
    Premake5 → List Project → Except Error (Premake5 × List Project)
  | this, [] => Except.ok (this, [])
  | this, p :: rest =>
    match loadProject step this p with
    | Except.error e => Except.error e
    | Except.ok (this, p) =>
      match loadProjects step this rest with
      | Except.error e => Except.error e
      | Except.ok (this, rest) => Except.ok (this, p :: rest)

/-- `Premake5::loadDependencies`. The first argument bounds the depth of the recursion: a
run that would recurse deeper ends in `Error.recursionBound`. -/
def Premake5.loadDependencies (fs : Fs) (env : Env) :
    Nat → Premake5 → Package → Except Error (Premake5 × Package)
  | 0, _, _ => Except.error Error.recursionBound
  | depth + 1, this, pkg_ =>
    match loadProjects (loadDependency fs env (Premake5.loadDependencies fs env depth))
        this pkg_.projects with
    | Except.error e => Except.error e
    | Except.ok (this, projects) => Except.ok (this, { pkg_ with projects := projects })

/-- Registration as the resolver performs it: the package is made shared and its pointer is
inserted into the registry by `insertSorted`. -/
def Premake5.register (fs : Fs) (this : Premake5) (pkg : Package) : Premake5 :=
  (this.makeShared pkg).1.insertSorted fs (this.makeShared pkg).2

/-! ### Premake5.cpp: writing a project -/

/-- `std::tolower` on a character, in the "C" locale: the capital letters A to Z are mapped
to the small ones, every other character to itself. -/
def tolower (c : Char) : Char :=
  if 65 ≤ c.toNat ∧ c.toNat ≤ 90 then Char.ofNat (c.toNat + 32) else c

/-- `compareIgnoreCase`. -/
def compareIgnoreCase (l r : String) : Bool :=
  if l.length ≠ r.length then false
  else (List.zip l.data r.data).all (fun lr => decide (tolower lr.1 = tolower lr.2))

/-- `mapString`: the first entry of the dictionary whose key is `v` up to case; `none` for
`end()`. -/
def mapString {T : Type} (dict_ : List (String × T)) (v : String) : Option (String × T) :=
  dict_.find? (fun it => compareIgnoreCase it.1 v)

/-- `constants::mappings::LangToPremakeLangAndDialect`. -/
def LangToPremakeLangAndDialect : List (String × (String × String)) :=
  [("C89", ("C", "")), ("C90", ("C", "")), ("C95", ("C", "")), ("C99", ("C", "")),
   ("C11", ("C", "")), ("C17", ("C", "")), ("C++98", ("C++", "C++98")),
   ("C++0x", ("C++", "C++11")), ("C++11", ("C++", "C++11")), ("C++1y", ("C++", "C++14")),
   ("C++14", ("C++", "C++14")), ("C++1z", ("C++", "C++17")), ("C++17", ("C++", "C++17"))]

/-- `constants::mappings::AppTypeToPremakeKind`. -/
def AppTypeToPremakeKind : List (String × String) :=
  [("app", "ConsoleApp"), ("static lib", "StaticLib"), ("shared lib", "SharedLib")]

/-- `mapToPremake5Kind`. -/
def mapToPremake5Kind (projectType_ : String) : String :=
  match mapString AppTypeToPremakeKind projectType_ with
  | some it => it.2
  | none => ""

/-- `appendPremake5Lang`. Here and below a function that writes to the `OutputFormatter`
(a class declared outside the sources) is embedded as the list of the texts it passes to
`write`, in order, each with its arguments filled in; the indentation that the formatter puts
in front of a line is not part of the embedding. -/
def appendPremake5Lang (lang_ : String) : List String :=
  match mapString LangToPremakeLangAndDialect lang_ with
  | some it =>
    ["language (\"" ++ it.2.1 ++ "\")\n"] ++
      (if it.2.2 ≠ "" then ["cppdialect (\"" ++ it.2.2 ++ "\")\n"] else [])
  | none => []

/-- `appendStrings`: one line per string, the string in quotes and followed by a comma. -/
def appendStrings (vec_ : VecOfStr) : List String :=
  vec_.map (fun str => "\"" ++ str ++ "\",\n")

/-- `appendStringsWithAccess`, given `getAccesses(acc_)`: the three tiers of an access split,
or the one list of a plain vector. Every list that is not empty is written, followed by an
empty line. -/
def appendStringsWithAccess (accesses : List VecOfStr) : List String :=
  accesses.flatMap (fun acc => if acc.length > 0 then appendStrings acc ++ ["\n"] else [])

/-- `getNumElements` of an access split. -/
def getNumElements (v : VecOfStrAcc) : Nat :=
  v.public_.length + v.private_.length + v.interface_.length

/-- `appendPropWithAccess` for an access split: nothing when all three tiers are empty, and
else the property with the strings of the tiers between braces. -/
def appendPropWithAccess (propName : String) (values_ : VecOfStrAcc) : List String :=
  if getNumElements values_ > 0 then
    [propName ++ " (\x7b\n"] ++ appendStringsWithAccess (getAccesses values_) ++ ["\x7d)\n"]
  else []

/-- `appendPropWithAccess` for a plain vector of strings. -/
def appendPropWithAccessVec (propName : String) (values_ : VecOfStr) : List String :=
  if values_.length > 0 then
    [propName ++ " (\x7b\n"] ++ appendStringsWithAccess [values_] ++ ["\x7d)\n"]
  else []

/-- `appendProject`. In `Premake5.cpp` the member `type` of a project is the string of the
manifest, which `mapToPremake5Kind` maps; `Package.cpp` keeps the parsed type instead, so the
string is an argument here. The computed lists of the four settings are written first, then
the files, then the declared lists. -/
def appendProject (type : String) (project_ : Project) : List String :=
  ["\n", "project(\"" ++ project_.name ++ "\")\n",
    "kind(\"" ++ mapToPremake5Kind type ++ "\")\n"] ++
  (if project_.language ≠ "" then appendPremake5Lang project_.language
    else ["language(\"C++\")\n", "cppdialect(\"C++17\")\n"]) ++
  appendPropWithAccess "defines" project_.defines.computed ++
  appendPropWithAccess "links" project_.linkedLibraries.computed ++
  appendPropWithAccess "includedirs" project_.includeFolders.computed ++
  appendPropWithAccess "libdirs" project_.linkerFolders.computed ++
  appendPropWithAccessVec "files" project_.files ++
  appendPropWithAccess "defines" project_.defines.self ++
  appendPropWithAccess "links" project_.linkedLibraries.self ++
  appendPropWithAccess "includedirs" project_.includeFolders.self ++
  appendPropWithAccess "libdirs" project_.linkerFolders.self

/-! ## Package.cpp: projects of a package, manifests, loading by name -/

/-- The exceptions `PaccException` that `Package.cpp` throws, one constructor per message;
`other` stands for an exception thrown by a helper declared outside the sources. -/
inductive PaccException where
  | couldNotFindPackage (name_ : String)
  | projectDoesNotExist (name_ : String) (package : String)
  | invalidDependenciesField
  | arrayRequired
  | invalidDependencyType
  | invalidType
  | invalidSubfieldType
  | fieldNotFound (fieldName : String)
  | other (what : String)
deriving DecidableEq, Repr

/-- `Package::requireProject`: the project that `findProject` points to, or the exception
"Project ... does not exist in package ..." when `findProject` returns the null pointer. -/
def Package.requireProject (this : Package) (name_ : String) : Except PaccException Project :=
  match this.findProject name_ with
  | none => Except.error (PaccException.projectDoesNotExist name_ this.name)
  | some proj => Except.ok proj

/-- The type tag `json::value_t` of a JSON value, with one tag for the three kinds of
numbers. -/
inductive JsonType where
  | null
  | object
  | array
  | string
  | boolean
  | number
deriving DecidableEq, Repr

/-- A JSON value as the manifest reader sees it. The fields of an object are kept in a list;
a field is looked up by its first occurrence. -/
inductive Json where
  | null
  | boolean (b : Bool)
  | number (n : Int)
  | string (s : String)
  | array (elems : List Json)
  | object (fields : List (String × Json))

/-- `j.type()`. -/
def Json.type : Json → JsonType
  | Json.null => JsonType.null
  | Json.boolean _ => JsonType.boolean
  | Json.number _ => JsonType.number
  | Json.string _ => JsonType.string
  | Json.array _ => JsonType.array
  | Json.object _ => JsonType.object

/-- `j.find(key)`: the field of an object, `none` for `end()`; a value that is no object has
no fields. -/
def Json.find (j : Json) (key : String) : Option Json :=
  match j with
  | Json.object fields => (fields.find? (fun f => f.1 = key)).map Prod.snd
  | _ => none

/-- `j.contains(key)`. -/
def Json.contains (j : Json) (key : String) : Bool := (j.find key).isSome

/-- `j.items()`: the elements of an array, the values of an object, the value itself for a
primitive and nothing for null. -/
def Json.items (j : Json) : List Json :=
  match j with
  | Json.null => []
  | Json.array elems => elems
  | Json.object fields => fields.map Prod.snd
  | _ => [j]

/-- `j.get<std::string>()` on a value known to be a string. -/
def Json.getString (j : Json) : String :=
  match j with
  | Json.string s => s
  | _ => ""

/-- `expect<type>(j)`. -/
def expect (type : JsonType) (j : Json) : Option Json :=
  if j.type = type then some j else none

/-- `expectSub<type>(j, subfieldName)`. -/
def expectSub (type : JsonType) (j : Json) (subfieldName : String) : Option Json :=
  match j.find subfieldName with
  | some it => if it.type = type then some it else none
  | none => none

/-- `require<type>(j)`. -/
def require (type : JsonType) (j : Json) : Except PaccException Json :=
  if j.type = type then Except.ok j else Except.error PaccException.invalidType

/-- `requireSub<type>(j, subfieldName)`. -/
def requireSub (type : JsonType) (j : Json) (subfieldName : String) :
    Except PaccException Json :=
  match j.find subfieldName with
  | some it =>
    if it.type = type then Except.ok it else Except.error PaccException.invalidSubfieldType
  | none => Except.error PaccException.invalidSubfieldType

/-- `selfOrSubfieldOpt`. -/
def selfOrSubfieldOpt (self : Json) (fieldName : String) : Option Json :=
  if fieldName = "" then some self else self.find fieldName

/-- `selfOrSubfieldReq`. -/
def selfOrSubfieldReq (self : Json) (fieldName : String) : Except PaccException Json :=
  match selfOrSubfieldOpt self fieldName with
  | none => Except.error (PaccException.fieldNotFound fieldName)
  | some v => Except.ok v

/-- `selfOrSubfield`: the value found (none for the null pointer), or the exception of
`selfOrSubfieldReq`. -/
def selfOrSubfield (self : Json) (fieldName : String) (required : Bool) :
    Except PaccException (Option Json) :=
  if required then
    match selfOrSubfieldReq self fieldName with
    | Except.error e => Except.error e
    | Except.ok v => Except.ok (some v)
  else Except.ok (selfOrSubfieldOpt self fieldName)

/-- `DownloadLocation`, of which the sources read the members `repository` and `branch`. -/
structure DownloadLocation where
  repository : String
  branch : String
deriving DecidableEq, Repr

/-- The helpers that `Package.cpp` calls and that are declared outside the sources:
`DownloadLocation::parse`, `VersionReq::fromString` (`none` when it throws),
`VersionRequirement::test`, `JsonView::stringFieldOr`, `JsonView::requireType` (the
exception it throws, if any) and `GNUSymbolVisibility::fromString`. -/
structure Helpers where
  parseLocation : String → DownloadLocation
  versionReqFromString : String → Option VersionReq
  versionReqTest : VersionReq → Version → Bool
  stringFieldOr : Json → String → String → String
  requireType : Json → String → JsonType → Option PaccException
  symbolVisibilityFromString : String → Except PaccException String

/-- `startsWith(s, start)`, a helper declared outside the sources: whether the characters of
`start` begin `s`. -/
def startsWith (s start : String) : Bool := start.data.isPrefixOf s.data

/-- `s.substr(pos)`: the string without its first `pos` characters. -/
def substr (s : String) (pos : Nat) : String := ⟨s.data.drop pos⟩

/-- A default-constructed `PackageDependency`. -/
def PackageDependency.empty : PackageDependency :=
  { packageName := "", version := VersionReq.any, projects := [], downloadLocation := "",
    package := none }

/-- The loop over the array `projects` of an object dependency: every element must be a
string and is pushed to the target projects. -/
def readDependencyProjects : List Json → List String → Except PaccException (List String)
  | [], projects => Except.ok projects
  | proj :: rest, projects =>
    match require JsonType.string proj with
    | Except.error e => Except.error e
    | Except.ok projName => readDependencyProjects rest (projects ++ [projName.getString])

/-- The body of the loop of `readDependencyAccess`, for the element `item`: the dependency
that is pushed to the target, or the exception thrown. -/
def readDependency (h : Helpers) (pkg_ : Package) (proj_ : Project) (item : Json) :
    Except PaccException Dependency :=
  match expect JsonType.string item with
  | some rawDep =>
    let depPattern := rawDep.getString
    if startsWith depPattern "file:" then Except.ok (Dependency.raw (substr depPattern 5))
    else if startsWith depPattern "self:" then
      Except.ok (Dependency.self
        { project := proj_.name, depProjName := substr depPattern 5, package := pkg_.root })
    else
      let loc := h.parseLocation depPattern
      let pd := PackageDependency.empty
      let pd := { pd with packageName := loc.repository }
      let pd :=
        match h.versionReqFromString loc.branch with
        | some version => { pd with version := version }
        | none => pd
      let pd := { pd with projects := pd.projects ++ [loc.repository] }
      let pd := { pd with downloadLocation := depPattern }
      Except.ok (Dependency.package pd)
  | none =>
    match expect JsonType.object item with
    | some pkgDep =>
      match requireSub JsonType.string pkgDep "name" with
      | Except.error e => Except.error e
      | Except.ok name =>
        let projects := expectSub JsonType.array pkgDep "projects"
        let version := expectSub JsonType.string pkgDep "version"
        let pd := PackageDependency.empty
        let pd := { pd with packageName := name.getString }
        let pd := { pd with downloadLocation := h.stringFieldOr pkgDep "from" "" }
        let loc := h.parseLocation pd.downloadLocation
        let targets :=
          match projects with
          | some projects => readDependencyProjects projects.items pd.projects
          | none =>
            let originalName :=
              if loc.repository ≠ "" then loc.repository else name.getString
            Except.ok (pd.projects ++ [originalName])
        match targets with
        | Except.error e => Except.error e
        | Except.ok targets =>
          let pd := { pd with projects := targets }
          let pd :=
            match version with
            | some version =>
              match h.versionReqFromString version.getString with
              | some parsed => { pd with version := parsed }
              | none => { pd with version := { pd.version with type := VersionReqType.Any } }
            | none => pd
          Except.ok (Dependency.package pd)
    | none => Except.error PaccException.invalidDependencyType

/-- The loop of `readDependencyAccess` over the elements of the array. -/
def readDependencyItems (h : Helpers) (pkg_ : Package) (proj_ : Project) :
    List Json → List Dependency → Except PaccException (List Dependency)
  | [], target_ => Except.ok target_
  | item :: rest, target_ =>
    match readDependency h pkg_ proj_ item with
    | Except.error e => Except.error e
    | Except.ok dep => readDependencyItems h pkg_ proj_ rest (target_ ++ [dep])

/-- `readDependencyAccess`: the target with one dependency pushed per element of the array
`deps_`, or the exception thrown. -/
def readDependencyAccess (h : Helpers) (pkg_ : Package) (proj_ : Project) (deps_ : Json)
    (target_ : List Dependency) : Except PaccException (List Dependency) :=
  if deps_.type ≠ JsonType.array then Except.error PaccException.arrayRequired
  else readDependencyItems h pkg_ proj_ deps_.items target_

/-- The loop of `loadVecOfStrField` over the elements of an array: every element passes
`requireType` for a string and is pushed as a string; the conversion of an element that is
no string throws. -/
def loadVecOfStrElems (h : Helpers) (elemName : String) :
    List Json → VecOfStr → Except PaccException VecOfStr
  | [], result => Except.ok result
  | elem :: rest, result =>
    match h.requireType elem elemName JsonType.string with
    | some e => Except.error e
    | none =>
      match elem with
      | Json.string s => loadVecOfStrElems h elemName rest (result ++ [s])
      | _ => Except.error (PaccException.other "type_error")

/-- `loadVecOfStrField`. -/
def loadVecOfStrField (h : Helpers) (j : Json) (fieldName : String) (direct : Bool)
    (required : Bool) : Except PaccException VecOfStr :=
  let elemName := fieldName ++ " element"
  match selfOrSubfield j (if direct then "" else fieldName) required with
  | Except.error e => Except.error e
  | Except.ok none => Except.ok []
  | Except.ok (some val) =>
    match val with
    | Json.string s => Except.ok [s]
    | _ =>
      match h.requireType val fieldName JsonType.array with
      | some e => Except.error e
      | none => loadVecOfStrElems h elemName val.items []

/-- `loadVecOfStrAccField`. -/
def loadVecOfStrAccField (h : Helpers) (j : Json) (fieldName : String)
    (defaultAccess_ : AccessType) : Except PaccException VecOfStrAcc :=
  let result : VecOfStrAcc := AccessSplitVec.empty
  match j.find fieldName with
  | none => Except.ok result
  | some it =>
    if it.type = JsonType.array ∨ it.type = JsonType.string then
      match loadVecOfStrField h it fieldName true false with
      | Except.error e => Except.error e
      | Except.ok v => Except.ok (setByAccessType result defaultAccess_ v)
    else
      match loadVecOfStrField h it "private" false false with
      | Except.error e => Except.error e
      | Except.ok private_ =>
        match loadVecOfStrField h it "public" false false with
        | Except.error e => Except.error e
        | Except.ok public_ =>
          match loadVecOfStrField h it "interface" false false with
          | Except.error e => Except.error e
          | Except.ok interface_ =>
            Except.ok { private_ := private_, public_ := public_, interface_ := interface_ }

/-- The part "Load dependencies" of `loadConfigurationFromJSON`: the declared dependencies
of `conf_` after it, or the exception thrown. -/
def loadDependenciesFromJSON (h : Helpers) (pkg_ : Package) (project_ : Project)
    (projSelfDeps : AccessSplitVec Dependency) (root_ : Json) :
    Except PaccException (AccessSplitVec Dependency) :=
  let isInterface := project_.type = ProjectType.Interface
  let defaultAccess := if isInterface then AccessType.Interface else AccessType.Private
  match root_.find "dependencies" with
  | none => Except.ok projSelfDeps
  | some deps =>
    if deps.type = JsonType.array then
      match readDependencyAccess h pkg_ project_ deps
          (targetByAccessType projSelfDeps defaultAccess) with
      | Except.error e => Except.error e
      | Except.ok target_ => Except.ok (setByAccessType projSelfDeps defaultAccess target_)
    else if deps.type = JsonType.object then
      let afterPublic :=
        if isInterface then Except.ok projSelfDeps
        else
          match deps.find "public" with
          | none => Except.ok projSelfDeps
          | some sub =>
            match readDependencyAccess h pkg_ project_ sub projSelfDeps.public_ with
            | Except.error e => Except.error e
            | Except.ok target_ => Except.ok { projSelfDeps with public_ := target_ }
      match afterPublic with
      | Except.error e => Except.error e
      | Except.ok projSelfDeps =>
        let afterPrivate :=
          if isInterface then Except.ok projSelfDeps
          else
            match deps.find "private" with
            | none => Except.ok projSelfDeps
            | some sub =>
              match readDependencyAccess h pkg_ project_ sub projSelfDeps.private_ with
              | Except.error e => Except.error e
              | Except.ok target_ => Except.ok { projSelfDeps with private_ := target_ }
        match afterPrivate with
        | Except.error e => Except.error e
        | Except.ok projSelfDeps =>
          match deps.find "interface" with
          | none => Except.ok projSelfDeps
          | some sub =>
            match readDependencyAccess h pkg_ project_ sub projSelfDeps.interface_ with
            | Except.error e => Except.error e
            | Except.ok target_ => Except.ok { projSelfDeps with interface_ := target_ }
    else Except.error PaccException.invalidDependenciesField

/-- `loadConfigurationFromJSON`: the configuration `conf_` after the call, or the exception
thrown. The two scalars, the files and the declared lists of five axes are read, then the
dependencies. -/
def loadConfigurationFromJSON (h : Helpers) (pkg_ : Package) (project_ : Project)
    (conf_ : Configuration) (root_ : Json) : Except PaccException Configuration :=
  match h.symbolVisibilityFromString (h.stringFieldOr root_ "symbolVisibility" "Default") with
  | Except.error e => Except.error e
  | Except.ok symbolVisibility =>
    let conf_ := { conf_ with symbolVisibility := symbolVisibility }
    let conf_ := { conf_ with
      moduleDefinitionFile := h.stringFieldOr root_ "moduleDefinitionFile" "" }
    let isInterface := project_.type = ProjectType.Interface
    let defaultAccess := if isInterface then AccessType.Interface else AccessType.Private
    match loadVecOfStrField h root_ "files" false false with
    | Except.error e => Except.error e
    | Except.ok files =>
      let conf_ := { conf_ with files := files }
      match loadVecOfStrAccField h root_ "defines" defaultAccess with
      | Except.error e => Except.error e
      | Except.ok defines =>
        let conf_ := { conf_ with defines := { conf_.defines with self := defines } }
        match loadVecOfStrAccField h root_ "includeFolders" defaultAccess with
        | Except.error e => Except.error e
        | Except.ok includeFolders =>
          let conf_ := { conf_ with
            includeFolders := { conf_.includeFolders with self := includeFolders } }
          match loadVecOfStrAccField h root_ "linkerFolders" defaultAccess with
          | Except.error e => Except.error e
          | Except.ok linkerFolders =>
            let conf_ := { conf_ with
              linkerFolders := { conf_.linkerFolders with self := linkerFolders } }
            match loadVecOfStrAccField h root_ "compilerOptions" defaultAccess with
            | Except.error e => Except.error e
            | Except.ok compilerOptions =>
              let conf_ := { conf_ with
                compilerOptions := { conf_.compilerOptions with self := compilerOptions } }
              match loadVecOfStrAccField h root_ "linkerOptions" defaultAccess with
              | Except.error e => Except.error e
              | Except.ok linkerOptions =>
                let conf_ := { conf_ with
                  linkerOptions := { conf_.linkerOptions with self := linkerOptions } }
                match loadDependenciesFromJSON h pkg_ project_ conf_.dependencies.self
                    root_ with
                | Except.error e => Except.error e
                | Except.ok projSelfDeps =>
                  Except.ok { conf_ with
                    dependencies := { conf_.dependencies with self := projSelfDeps } }

/-- The candidate folders of `Package::loadByName`, in the order of the source. -/
def Package.candidates (fs : Fs) (env : Env) : List String :=
  [fs.append env.current_path "pacc_packages",
   fs.append env.current_path "..",
   fs.append env.getPaccDataStorageFolder "packages"]

/-- The loop of `Package::loadByName` over the candidates. The slot `invalidVersion_` is
`none` when the caller passed the null pointer, and otherwise holds the content of the
caller's `UPtr<Package>`. The result is what the call returns or throws, with the slot as the
call leaves it. -/
def Package.loadByNameFrom (fs : Fs) (env : Env) (h : Helpers) (name_ : String)
    (verReq_ : VersionReq) :
    List String → Option (Option Package) →
      Except PaccException Package × Option (Option Package)
  | [], invalidVersion_ =>
    (Except.error (PaccException.couldNotFindPackage name_), invalidVersion_)
  | c :: rest, invalidVersion_ =>
    let pkgFolder := fs.append c name_
    match env.load pkgFolder with
    | none => Package.loadByNameFrom fs env h name_ verReq_ rest invalidVersion_
    | some pkg =>
      if h.versionReqTest verReq_ pkg.version then (Except.ok pkg, invalidVersion_)
      else
        Package.loadByNameFrom fs env h name_ verReq_ rest
          (match invalidVersion_ with
            | some _ => some (some pkg)
            | none => none)

/-- `Package::loadByName`. -/
def Package.loadByName (fs : Fs) (env : Env) (h : Helpers) (name_ : String)
    (verReq_ : VersionReq) (invalidVersion_ : Option (Option Package)) :
    Except PaccException Package × Option (Option Package) :=
  Package.loadByNameFrom fs env h name_ verReq_ (Package.candidates fs env) invalidVersion_

/-! ## Vocabulary of the properties -/

/-- What an axis shows to a dependent, in the order `mergeAccesses` reads it: the computed
interface and public entries, then the declared interface and public entries. -/
def visible {α : Type} (a : SelfAndComputed (AccessSplitVec α)) : List α :=
  a.computed.interface_ ++ a.computed.public_ ++ a.self.interface_ ++ a.self.public_

/-- An axis with its two private lists (declared and computed) emptied. -/
def dropPrivateAxis {α : Type} (a : SelfAndComputed (AccessSplitVec α)) :
    SelfAndComputed (AccessSplitVec α) :=
  { self := { a.self with private_ := [] }, computed := { a.computed with private_ := [] } }

/-- A configuration with the private lists of all seven axes emptied: two configurations
differ only in their private lists exactly when this maps them to the same value. -/
def Configuration.dropPrivate (c : Configuration) : Configuration :=
  { c with
    defines := dropPrivateAxis c.defines
    includeFolders := dropPrivateAxis c.includeFolders
    linkerFolders := dropPrivateAxis c.linkerFolders
    linkedLibraries := dropPrivateAxis c.linkedLibraries
    compilerOptions := dropPrivateAxis c.compilerOptions
    linkerOptions := dropPrivateAxis c.linkerOptions
    dependencies := dropPrivateAxis c.dependencies }

/-- The same map with `f` applied to every mapped configuration. -/
def FilterMap.mapValues (f : Configuration → Configuration) (m : FilterMap) : FilterMap :=
  ⟨m.entries.map (fun e => (e.1, f e.2)), by
    have h := m.sorted
    rw [List.pairwise_map]
    exact h⟩

/-- A project with the private lists of its base configuration and of every filter
emptied. -/
def Project.dropPrivate (p : Project) : Project :=
  { p with
    toTargetBase :=
      { p.toTargetBase with
        toConfiguration := p.toConfiguration.dropPrivate
        premakeFilters := p.premakeFilters.mapValues Configuration.dropPrivate } }

/-- The frame of a merge at tier `T` on one axis: the declared lists and the computed lists
of the other tiers are unchanged, the computed list of tier `T` only grows at its end. -/
def axisFrame {α : Type} (old new : SelfAndComputed (AccessSplitVec α)) (T : AccessType) : Prop :=
  new.self = old.self ∧
  (∀ T', T' ≠ T → targetByAccessType new.computed T' = targetByAccessType old.computed T') ∧
  targetByAccessType old.computed T <+: targetByAccessType new.computed T

/-- The frame of a merge at tier `T` on a configuration. -/
def Configuration.frame (old new : Configuration) (T : AccessType) : Prop :=
  new.symbolVisibility = old.symbolVisibility ∧
  new.moduleDefinitionFile = old.moduleDefinitionFile ∧
  new.files = old.files ∧
  new.dependencies = old.dependencies ∧
  axisFrame old.defines new.defines T ∧
  axisFrame old.includeFolders new.includeFolders T ∧
  axisFrame old.linkerFolders new.linkerFolders T ∧
  axisFrame old.linkedLibraries new.linkedLibraries T ∧
  axisFrame old.compilerOptions new.compilerOptions T ∧
  axisFrame old.linkerOptions new.linkerOptions T

/-- Every list of an axis, declared and computed, at the three tiers. -/
def allLists {α : Type} (a : SelfAndComputed (AccessSplitVec α)) : List α :=
  a.self.private_ ++ a.self.public_ ++ a.self.interface_ ++
    a.computed.private_ ++ a.computed.public_ ++ a.computed.interface_

/-- The raw tokens among the dependencies of one tier, in declaration order. -/
def rawTokens : List Dependency → List String
  | [] => []
  | Dependency.raw rawDep :: rest => rawDep :: rawTokens rest
  | _ :: rest => rawTokens rest

/-- Whether a dependency is a raw token. -/
def Dependency.isRaw : Dependency → Bool
  | Dependency.raw _ => true
  | _ => false

/-- A project all of whose declared dependencies, at the three tiers, are raw tokens. -/
def Project.allRaw (p : Project) : Prop :=
  (∀ d ∈ p.dependencies.self.private_, d.isRaw = true) ∧
  (∀ d ∈ p.dependencies.self.public_, d.isRaw = true) ∧
  (∀ d ∈ p.dependencies.self.interface_, d.isRaw = true)

/-- The project with the raw tokens of each tier appended to its computed linked libraries at
that tier, and nothing else changed. -/
def Project.withRawTokens (p : Project) : Project :=
  { p with
    linkedLibraries := { p.linkedLibraries with
      computed :=
        { private_ := p.linkedLibraries.computed.private_ ++
            rawTokens p.dependencies.self.private_
          public_ := p.linkedLibraries.computed.public_ ++
            rawTokens p.dependencies.self.public_
          interface_ := p.linkedLibraries.computed.interface_ ++
            rawTokens p.dependencies.self.interface_ } } }

/-- The project with the tokens `toks` pushed, in order, to its computed linked libraries at
tier `method`. -/
def Project.pushTokens (p : Project) (method : AccessType) (toks : List String) : Project :=
  { p with
    linkedLibraries := { p.linkedLibraries with
      computed := setByAccessType p.linkedLibraries.computed method
        (targetByAccessType p.linkedLibraries.computed method ++ toks) } }

/-- A malformed element of a dependency array: a value that is neither a string nor an
object, an object without a string "name", or an object whose "projects" array has an
element that is no string. -/
def malformedDependency (item : Json) : Prop :=
  (item.type ≠ JsonType.string ∧ item.type ≠ JsonType.object) ∨
  (item.type = JsonType.object ∧ ∀ name, item.find "name" ≠ some (Json.string name)) ∨
  (item.type = JsonType.object ∧ ∃ ps e, item.find "projects" = some (Json.array ps) ∧
    e ∈ ps ∧ e.type ≠ JsonType.string)

/-- The sorted insertion of `Premake5::loadDependencies` on the list of roots of the
registry. -/
def insertRoots (lt : String → String → Bool) (roots : List String) (r : String) :
    List String :=
  insertAt roots (upper_bound (fun inserted e => lt e inserted) roots r) r

/-- The lookup of `Premake5::wasPackageLoaded` on the list of roots of the registry. -/
def lookupRoots (lt : String → String → Bool) (roots : List String) (r : String) : Bool :=
  match roots[lower_bound (fun e inserted => lt e inserted) roots r]? with
  | some x => decide (x = r)
  | none => false

/-- Every pointer of the registry points into the arena. -/
def Premake5.valid (this : Premake5) : Prop :=
  ∀ e ∈ this.loadedPackages, e < this.heap.length

/-- The relation `lt` is a strict total order on the listed roots. -/
def strictTotalOn (lt : String → String → Bool) (roots : List String) : Prop :=
  (∀ a ∈ roots, lt a a = false) ∧
  (∀ a ∈ roots, ∀ b ∈ roots, ∀ c ∈ roots, lt a b = true → lt b c = true → lt a c = true) ∧
  (∀ a ∈ roots, ∀ b ∈ roots, a ≠ b → lt a b = true ∨ lt b a = true)

/-- A diamond of packages: `A` depends on `B` and on `C`, each of which depends on `D`.
Every package has one project; `toB` and `toC` are the dependencies that the project of `A`
declares, `fromB` and `fromC` the dependency on `D` that the projects of `B` and of `C`
declare. -/
structure Diamond where
  A : Package
  B : Package
  C : Package
  D : Package
  pA : Project
  pB : Project
  pC : Project
  pD : Project
  toB : PackageDependency
  toC : PackageDependency
  fromB : PackageDependency
  fromC : PackageDependency

/-- The diamond is what its name says: the four packages hold the four projects; all
dependencies are public, `A` declares `toB` and `toC`, `B` and `C` declare their dependency
on `D`, and `D` declares none; every dependency names the project of its package; the loader
returns the packages by their names; the roots of `B`, `C` and `D` differ and the order of
paths is a strict total order on them. -/
def Diamond.wellFormed (fs : Fs) (env : Env) (d : Diamond) : Prop :=
  d.A.projects = [d.pA] ∧ d.B.projects = [d.pB] ∧ d.C.projects = [d.pC] ∧
  d.D.projects = [d.pD] ∧
  d.pA.dependencies.self =
    { private_ := []
      public_ := [Dependency.package d.toB, Dependency.package d.toC]
      interface_ := [] } ∧
  d.pB.dependencies.self =
    { private_ := [], public_ := [Dependency.package d.fromB], interface_ := [] } ∧
  d.pC.dependencies.self =
    { private_ := [], public_ := [Dependency.package d.fromC], interface_ := [] } ∧
  d.pD.dependencies.self = { private_ := [], public_ := [], interface_ := [] } ∧
  d.toB.projects = [d.pB.name] ∧ d.toC.projects = [d.pC.name] ∧
  d.fromB.projects = [d.pD.name] ∧ d.fromC.projects = [d.pD.name] ∧
  loadPackageByName fs env d.toB.packageName = Except.ok d.B ∧
  loadPackageByName fs env d.toC.packageName = Except.ok d.C ∧
  loadPackageByName fs env d.fromB.packageName = Except.ok d.D ∧
  loadPackageByName fs env d.fromC.packageName = Except.ok d.D ∧
  d.B.root ≠ d.C.root ∧ d.B.root ≠ d.D.root ∧ d.C.root ≠ d.D.root ∧
  strictTotalOn fs.lt [d.B.root, d.C.root, d.D.root]

/-- The default tier of a project on load: interface for an Interface project, private for
every other. -/
def defaultTier (project_ : Project) : AccessType :=
  if project_.type = ProjectType.Interface then AccessType.Interface else AccessType.Private

/-- The list `v` holds the strings of the manifest value `val`: nothing when the value is
absent, the string itself for a bare string, and else the elements of the value, which are
all strings. -/
def holdsStrings (val : Option Json) (v : VecOfStr) : Prop :=
  match val with
  | none => v = []
  | some (Json.string s) => v = [s]
  | some j => j.items = v.map Json.string

/-- The tiers `v` hold the manifest value `val` of an axis: nothing when the axis is absent;
for a bare string or an array all its strings in the tier `dflt` and nothing in the other
two; for every other value, in each tier the strings that the value names for it. -/
def storedByTiers (dflt : AccessType) (val : Option Json) (v : VecOfStrAcc) : Prop :=
  match val with
  | none => v = AccessSplitVec.empty
  | some it =>
    if it.type = JsonType.array ∨ it.type = JsonType.string then
      holdsStrings (some it) (targetByAccessType v dflt) ∧
      v = setByAccessType AccessSplitVec.empty dflt (targetByAccessType v dflt)
    else
      holdsStrings (it.find "private") v.private_ ∧
      holdsStrings (it.find "public") v.public_ ∧
      holdsStrings (it.find "interface") v.interface_

/-- How one tier of the declared dependencies is read from the object `deps`: left as it
was when the object has no field of the name, and else read by `readDependencyAccess` behind
its old content. -/
def tierReadFrom (h : Helpers) (pkg_ : Package) (project_ : Project) (deps : Json)
    (name : String) (old new : List Dependency) : Prop :=
  match deps.find name with
  | none => new = old
  | some sub => readDependencyAccess h pkg_ project_ sub old = Except.ok new

/-- The packages that satisfy `G` form a dependency graph without cycles, whose depth `rank`
bounds: every package that a package dependency of a project of a package of the graph loads
belongs to the graph again and has a smaller rank. The rank of a package is at least the
length of the longest chain of dependencies that starts from it. -/
def acyclicGraph (fs : Fs) (env : Env) (G : Package → Prop) (rank : Package → Nat) : Prop :=
  ∀ pkg, G pkg → ∀ p ∈ pkg.projects, ∀ pd,
    Dependency.package pd ∈
      p.dependencies.self.private_ ++ p.dependencies.self.public_ ++
        p.dependencies.self.interface_ →
    ∀ pkg', loadPackageByName fs env pd.packageName = Except.ok pkg' →
      G pkg' ∧ rank pkg' < rank pkg

/-- The line that `appendStrings` writes for the value `v`. -/
def quoted (v : String) : String := "\"" ++ v ++ "\",\n"

/-- The interface tier of the declared list that `appendProject` writes under the given
setting: the defines, the linked libraries for "links", the include folders for
"includedirs" and the linker folders for "libdirs". -/
def selfInterfaceOf (p : Project) (setting : String) : VecOfStr :=
  if setting = "defines" then p.defines.self.interface_
  else if setting = "links" then p.linkedLibraries.self.interface_
  else if setting = "includedirs" then p.includeFolders.self.interface_
  else if setting = "libdirs" then p.linkerFolders.self.interface_
  else []

/-- The output `out` holds the value `v` under the setting: a run of consecutive texts of the
output starts with the line that opens the setting and holds the quoted value. -/
def writtenUnder (out : List String) (setting v : String) : Prop :=
  ∃ block, block <:+: out ∧ block.head? = some (setting ++ " (\x7b\n") ∧ quoted v ∈ block

/-! ## Sample data -/

/-- A sample filesystem with POSIX paths: a path is relative unless it starts with a slash,
the parent drops the last component, `append` joins with a slash unless the right operand is
absolute, `fwd` turns backslashes into slashes, paths are ordered as strings. -/
def sampleFs : Fs :=
  { is_relative := fun p => p.data.head? != some '/'
    parent_path := fun p => ⟨((p.data.reverse.dropWhile (fun c => c != '/')).drop 1).reverse⟩
    append := fun a b => if b.data.head? = some '/' then b else a ++ "/" ++ b
    fwd := fun p => ⟨p.data.map (fun c => if c = Char.ofNat 92 then '/' else c)⟩
    lt := strLt }

/-- A project with the given name and type and an otherwise empty configuration. -/
def Project.named (name : String) (type : ProjectType) : Project :=
  { toConfiguration := Configuration.empty
    name := name
    premakeFilters := FilterMap.empty
    type := type
    language := ""
    pch := none }

/-- A package with the given name, root and projects. -/
def Package.named (name : String) (root : String) (projects : List Project) : Package :=
  { name := name
    version := ⟨0, 0, 0⟩
    root := root
    scriptFile := ""
    startupProject := ""
    projects := projects }

/-- A static library "utils" with one declared define at each tier, two interface include
folders (one relative, one absolute) and a public library folder; its declared private define
is `UTILS_INTERNAL`. -/
def sampleUtils : Project :=
  { Project.named "utils" ProjectType.StaticLib with
    defines :=
      { self := { private_ := ["UTILS_INTERNAL"], public_ := ["UTILS_API"], interface_ := ["UTILS_USER"] }
        computed := { private_ := ["ZLIB_INTERNAL"], public_ := [], interface_ := ["ZLIB_USER"] } }
    includeFolders :=
      { self := { private_ := ["src"], public_ := [], interface_ := ["include", "/opt/inc"] }
        computed := AccessSplitVec.empty }
    linkerFolders :=
      { self := { private_ := [], public_ := ["lib"], interface_ := [] }
        computed := AccessSplitVec.empty }
    linkedLibraries :=
      { self := { private_ := ["m"], public_ := ["pthread"], interface_ := [] }
        computed := AccessSplitVec.empty } }

/-- The project `sampleUtils` with other private lists and the same public and interface
lists. -/
def sampleUtilsOtherPrivate : Project :=
  { sampleUtils with
    defines :=
      { self := { sampleUtils.defines.self with private_ := ["OTHER", "MORE"] }
        computed := { sampleUtils.defines.computed with private_ := [] } }
    includeFolders :=
      { self := { sampleUtils.includeFolders.self with private_ := [] }
        computed := sampleUtils.includeFolders.computed } }

/-- The package of `sampleUtils`; its manifest is `/w/utils/cpackage.json`. -/
def sampleUtilsPkg : Package := Package.named "utils" "/w/utils/cpackage.json" [sampleUtils]

/-- An application "main" with an empty configuration. -/
def sampleMain : Project := Project.named "main" ProjectType.App

/-- The overlay of `sampleMathlib` for the debug configuration: one public define. -/
def sampleDebugOverlay : Configuration :=
  { Configuration.empty with
    defines :=
      { self := { private_ := ["MATH_TRACE"], public_ := ["MATH_DEBUG"], interface_ := [] }
        computed := AccessSplitVec.empty } }

/-- A static library "mathlib" with an interface include folder and an overlay for the debug
configuration. -/
def sampleMathlib : Project :=
  { Project.named "mathlib" ProjectType.StaticLib with
    includeFolders :=
      { self := { private_ := [], public_ := [], interface_ := ["include/"] }
        computed := AccessSplitVec.empty }
    premakeFilters := FilterMap.empty.set "configurations:Debug" sampleDebugOverlay }

/-- The package of `sampleMathlib`; its manifest is `/w/mathlib/cpackage.json`. -/
def sampleMathlibPkg : Package :=
  Package.named "mathlib" "/w/mathlib/cpackage.json" [sampleMathlib]

/-- An application "tool" that has overlays of its own for the debug and the release
configuration. -/
def sampleTool : Project :=
  { Project.named "tool" ProjectType.App with
    defines :=
      { self := { private_ := ["TOOL"], public_ := [], interface_ := [] }
        computed := { private_ := ["EARLIER"], public_ := ["SHARED"], interface_ := [] } }
    premakeFilters :=
      (FilterMap.empty.set "configurations:Release"
        { Configuration.empty with files := ["release.cpp"] }).set "configurations:Debug"
        { Configuration.empty with files := ["debug.cpp"] } }

/-- A dependency on all of the package `name`: its single target project has the package's
name. -/
def samplePackageDep (name : String) : Dependency :=
  Dependency.package
    { packageName := name
      version := VersionReq.any
      projects := [name]
      downloadLocation := name
      package := none }

/-- A package `name` below `/w/pacc_packages` with one project of its name, of the given
type, with one public define and the given public dependencies. -/
def samplePackage (name : String) (type : ProjectType) (define : String)
    (deps : List Dependency) : Package :=
  Package.named name ("/w/pacc_packages/" ++ name ++ "/cpackage.json")
    [{ Project.named name type with
       defines :=
         { self := { private_ := [], public_ := [define], interface_ := [] }
           computed := AccessSplitVec.empty }
       dependencies :=
         { self := { private_ := [], public_ := deps, interface_ := [] }
           computed := AccessSplitVec.empty } }]

/-- The diamond of the load-once property: "a" depends on "b" and "c", each of which depends
on "d". -/
def sampleD : Package := samplePackage "d" ProjectType.StaticLib "D_API" []

def sampleB : Package :=
  samplePackage "b" ProjectType.StaticLib "B_API" [samplePackageDep "d"]

def sampleC : Package :=
  samplePackage "c" ProjectType.StaticLib "C_API" [samplePackageDep "d"]

def sampleA : Package :=
  { samplePackage "a" ProjectType.App "A_API" [samplePackageDep "b", samplePackageDep "c"] with
    root := "/w/cpackage.json" }

/-- A working directory `/w` whose folder `pacc_packages` holds the packages "b", "c" and
"d"; nothing else loads. -/
def sampleEnv : Env :=
  { current_path := "/w"
    getPaccDataStorageFolder := "/home/u/.pacc"
    load := fun folder =>
      if folder = "/w/pacc_packages/b" then some sampleB
      else if folder = "/w/pacc_packages/c" then some sampleC
      else if folder = "/w/pacc_packages/d" then some sampleD
      else none }

/-- A package whose only project declares raw dependencies only: "m" and "dl" privately,
"pthread" publicly; its computed private linked libraries already hold "old". -/
def sampleRawPkg : Package :=
  Package.named "raw" "/w/cpackage.json"
    [{ Project.named "raw" ProjectType.App with
       linkedLibraries :=
         { self := AccessSplitVec.empty
           computed := { private_ := ["old"], public_ := [], interface_ := [] } }
       dependencies :=
         { self :=
             { private_ := [Dependency.raw "m", Dependency.raw "dl"]
               public_ := [Dependency.raw "pthread"]
               interface_ := [] }
           computed := AccessSplitVec.empty } }]

/-- A root package with two projects, "x" and "y", each of which depends publicly on the
package "d". -/
def sampleTwoConsumers : Package :=
  Package.named "two" "/w/cpackage.json"
    [{ Project.named "x" ProjectType.App with
       dependencies :=
         { self := { private_ := [], public_ := [samplePackageDep "d"], interface_ := [] }
           computed := AccessSplitVec.empty } },
     { Project.named "y" ProjectType.App with
       dependencies :=
         { self := { private_ := [], public_ := [samplePackageDep "d"], interface_ := [] }
           computed := AccessSplitVec.empty } }]

/-- A root package whose project depends on the project "nope" of the package "d", which
has no project of that name. -/
def sampleMissingProject : Package :=
  Package.named "missing" "/w/cpackage.json"
    [{ Project.named "app" ProjectType.App with
       dependencies :=
         { self :=
             { private_ := []
               public_ :=
                 [Dependency.package
                   { packageName := "d"
                     version := VersionReq.any
                     projects := ["nope"]
                     downloadLocation := "d"
                     package := none }]
               interface_ := [] }
           computed := AccessSplitVec.empty } }]

/-- The digits of a decimal number, read from the left. -/
def sampleParseNat (cs : List Char) : Option Nat :=
  if cs = [] then none
  else cs.foldl (fun acc c =>
    match acc with
    | some n => if c.isDigit then some (10 * n + (c.toNat - 48)) else none
    | none => none) (some 0)

/-- The pieces of a list of characters between the occurrences of `sep`. -/
def sampleSplit (sep : Char) : List Char → List (List Char)
  | [] => [[]]
  | c :: cs =>
    match sampleSplit sep cs with
    | [] => [[]]
    | piece :: pieces => if c = sep then [] :: piece :: pieces else (c :: piece) :: pieces

/-- Sample helpers: a location "repository@branch"; the empty requirement string is the
unconstrained requirement, a string of three numbers separated by dots is an exact
requirement and every other string fails to parse; an exact requirement is met by its own
version; a string field is the string found there; `requireType` throws when the type
differs; every symbol visibility is known. -/
def sampleHelpers : Helpers :=
  { parseLocation := fun s =>
      match sampleSplit '@' s.data with
      | [repository] => { repository := ⟨repository⟩, branch := "" }
      | repository :: branch :: _ => { repository := ⟨repository⟩, branch := ⟨branch⟩ }
      | [] => { repository := "", branch := "" }
    versionReqFromString := fun s =>
      if s = "" then some VersionReq.any
      else
        match (sampleSplit '.' s.data).map sampleParseNat with
        | [some major, some minor, some patch] =>
          some { type := VersionReqType.Exact, version := ⟨major, minor, patch⟩ }
        | _ => none
    versionReqTest := fun req v =>
      match req.type with
      | VersionReqType.Any => true
      | VersionReqType.Exact => decide (req.version = v)
      | VersionReqType.Range => false
    stringFieldOr := fun j field dflt =>
      match j.find field with
      | some (Json.string s) => s
      | _ => dflt
    requireType := fun j _ type =>
      if j.type = type then none else some (PaccException.other "type")
    symbolVisibilityFromString := fun s => Except.ok s }

/-- Two copies of a package "lib": version 1.0.0 in the parent directory of the working
directory, version 2.0.0 in the global packages folder. -/
def sampleLibOld : Package :=
  { Package.named "lib" "/w/../lib/cpackage.json" [Project.named "lib" ProjectType.StaticLib]
    with version := ⟨1, 0, 0⟩ }

def sampleLibNew : Package :=
  { Package.named "lib" "/home/u/.pacc/packages/lib/cpackage.json"
      [Project.named "lib" ProjectType.StaticLib]
    with version := ⟨2, 0, 0⟩ }

/-- A working directory `/w` without a package "lib" in `pacc_packages`; the parent directory
holds `sampleLibOld` and the global packages folder holds `sampleLibNew`. -/
def sampleEnvLib : Env :=
  { current_path := "/w"
    getPaccDataStorageFolder := "/home/u/.pacc"
    load := fun folder =>
      if folder = "/w/../lib" then some sampleLibOld
      else if folder = "/home/u/.pacc/packages/lib" then some sampleLibNew
      else none }

/-- The requirement of exactly the given version. -/
def sampleExact (major minor patch : Nat) : VersionReq :=
  { type := VersionReqType.Exact, version := ⟨major, minor, patch⟩ }

/-- The diamond of the sample packages `sampleA`, `sampleB`, `sampleC` and `sampleD`. -/
def sampleDiamond : Diamond :=
  { A := sampleA, B := sampleB, C := sampleC, D := sampleD
    pA := sampleA.projects.headD sampleMain
    pB := sampleB.projects.headD sampleMain
    pC := sampleC.projects.headD sampleMain
    pD := sampleD.projects.headD sampleMain
    toB :=
      { packageName := "b", version := VersionReq.any, projects := ["b"],
        downloadLocation := "b", package := none }
    toC :=
      { packageName := "c", version := VersionReq.any, projects := ["c"],
        downloadLocation := "c", package := none }
    fromB :=
      { packageName := "d", version := VersionReq.any, projects := ["d"],
        downloadLocation := "d", package := none }
    fromC :=
      { packageName := "d", version := VersionReq.any, projects := ["d"],
        downloadLocation := "d", package := none } }

/-- The diamond in which "b" itself declares the public define `D_API` of "d". -/
def sampleBWithDefineOfD : Package :=
  samplePackage "b" ProjectType.StaticLib "D_API" [samplePackageDep "d"]

def sampleEnvDefineOfD : Env :=
  { current_path := "/w"
    getPaccDataStorageFolder := "/home/u/.pacc"
    load := fun folder =>
      if folder = "/w/pacc_packages/b" then some sampleBWithDefineOfD
      else if folder = "/w/pacc_packages/c" then some sampleC
      else if folder = "/w/pacc_packages/d" then some sampleD
      else none }

/-- Entries of a dependency array: a file, a project of the declaring package, a package given
by a locator with a version, and a package given by an object with a locator. -/
def sampleEntries : List Json :=
  [Json.string "file:m", Json.string "self:core", Json.string "fmt@1.2.3",
    Json.object [("name", Json.string "z"), ("from", Json.string "zlib-ng")]]

/-- An object dependency that names its target projects. -/
def sampleObjectWithProjects : List (String × Json) :=
  [("name", Json.string "boost"), ("from", Json.string "boostorg"),
    ("projects", Json.array [Json.string "asio", Json.string "beast"])]

/-- An object dependency that has a name only. -/
def sampleObjectNameOnly : List (String × Json) :=
  [("name", Json.string "boost"), ("version", Json.string "1.2.3")]

/-- The manifest of an Interface project: defines as an array, an include folder as a bare
string, linker options by tier, and dependencies declared in all three tiers. -/
def sampleInterfaceManifest : Json :=
  Json.object
    [("defines", Json.array [Json.string "A", Json.string "B"]),
     ("includeFolders", Json.string "include"),
     ("linkerOptions",
        Json.object [("public", Json.array [Json.string "-s"]),
          ("interface", Json.string "-t")]),
     ("dependencies",
        Json.object [("public", Json.array [Json.string "fmt"]),
          ("private", Json.array [Json.string "file:m"]),
          ("interface", Json.array [Json.string "self:core"])])]

/-- The configuration that `loadConfigurationFromJSON` leaves for a project of the given type
that is loaded from `sampleInterfaceManifest` into a fresh configuration. -/
def sampleLoaded (type : ProjectType) : Configuration :=
  match loadConfigurationFromJSON sampleHelpers sampleUtilsPkg (Project.named "iface" type)
      Configuration.empty sampleInterfaceManifest with
  | Except.ok conf => conf
  | Except.error _ => Configuration.empty

/-- The packages of the sample diamond: "a", "b", "c" and "d". -/
def sampleGraph (pkg : Package) : Prop :=
  pkg = sampleA ∨ pkg = sampleB ∨ pkg = sampleC ∨ pkg = sampleD

/-- The depth of the sample diamond below a package: 2 below "a", 1 below "b" and "c", and 0
below "d". -/
def sampleRank (pkg : Package) : Nat :=
  if pkg.name = "a" then 2 else if pkg.name = "b" ∨ pkg.name = "c" then 1 else 0

/-- A static library "kit": a public define, a public include folder relative to its
manifest, a public compiler option and an overlay for the debug configuration. -/
def sampleKit : Project :=
  { Project.named "kit" ProjectType.StaticLib with
    defines :=
      { self := { private_ := [], public_ := ["KIT_API"], interface_ := [] }
        computed := AccessSplitVec.empty }
    includeFolders :=
      { self := { private_ := [], public_ := ["include"], interface_ := [] }
        computed := AccessSplitVec.empty }
    compilerOptions :=
      { self := { private_ := [], public_ := ["-fno-rtti"], interface_ := [] }
        computed := AccessSplitVec.empty }
    premakeFilters := FilterMap.empty.set "configurations:Debug" sampleDebugOverlay }

/-- The package of `sampleKit`, below `/w/pacc_packages`. -/
def sampleKitPkg : Package :=
  Package.named "kit" "/w/pacc_packages/kit/cpackage.json" [sampleKit]

/-- A working directory `/w` whose folder `pacc_packages` holds the package "kit". -/
def sampleEnvKit : Env :=
  { current_path := "/w"
    getPaccDataStorageFolder := "/home/u/.pacc"
    load := fun folder => if folder = "/w/pacc_packages/kit" then some sampleKitPkg else none }

/-- An application "app" that depends publicly on the project "kit" of the package "kit". -/
def sampleKitConsumer : Project :=
  { Project.named "app" ProjectType.App with
    dependencies :=
      { self := { private_ := [], public_ := [samplePackageDep "kit"], interface_ := [] }
        computed := AccessSplitVec.empty } }

/-- The root package of `sampleKitConsumer`. -/
def sampleKitConsumerPkg : Package :=
  Package.named "app" "/w/cpackage.json" [sampleKitConsumer]

/-- A static library whose only entry in any list is the define "USERS_ONLY", declared for
the interface tier. -/
def sampleInterfaceOnly : Project :=
  { Project.named "lib" ProjectType.StaticLib with
    defines :=
      { self := { private_ := [], public_ := [], interface_ := ["USERS_ONLY"] }
        computed := AccessSplitVec.empty } }

/-! ## Theorems -/

theorem foldl_push_back {α : Type} (f : α → α) (from_ into_ : List α) :
    from_.foldl (fun acc elem => acc ++ [f elem]) into_ = into_ ++ from_.map f := by
  induction from_ generalizing into_ with
  | nil => simp
  | cons x xs ih => simp [ih]

theorem mergeFields_none {α : Type} (into_ from_ : List α) :
    mergeFields into_ from_ none = into_ ++ from_ := rfl

theorem mergeFields_some {α : Type} (f : α → α) (into_ from_ : List α) :
    mergeFields into_ from_ (some f) = into_ ++ from_.map f :=
  foldl_push_back f from_ into_

theorem target_set_same {T : Type} (a : AccessSplit T) (t : AccessType) (v : T) :
    targetByAccessType (setByAccessType a t v) t = v := by
  cases t <;> rfl

theorem target_set_other {T : Type} (a : AccessSplit T) (t t' : AccessType) (v : T)
    (h : t' ≠ t) : targetByAccessType (setByAccessType a t v) t' = targetByAccessType a t' := by
  cases t <;> cases t' <;> first | rfl | exact absurd rfl h

theorem mergeAccesses_self {α : Type} (into_ from_ : SelfAndComputed (AccessSplitVec α))
    (t : AccessType) (m : Option (α → α)) : (mergeAccesses into_ from_ t m).self = into_.self :=
  rfl

theorem mergeAccesses_target_none {α : Type} (into_ from_ : SelfAndComputed (AccessSplitVec α))
    (t : AccessType) :
    targetByAccessType (mergeAccesses into_ from_ t none).computed t =
      targetByAccessType into_.computed t ++ visible from_ := by
  simp [mergeAccesses, target_set_same, mergeFields_none, visible]

theorem mergeAccesses_target_some {α : Type} (into_ from_ : SelfAndComputed (AccessSplitVec α))
    (t : AccessType) (f : α → α) :
    targetByAccessType (mergeAccesses into_ from_ t (some f)).computed t =
      targetByAccessType into_.computed t ++ (visible from_).map f := by
  simp [mergeAccesses, target_set_same, mergeFields_some, visible]

theorem mergeAccesses_target_other {α : Type} (into_ from_ : SelfAndComputed (AccessSplitVec α))
    (t t' : AccessType) (m : Option (α → α)) (h : t' ≠ t) :
    targetByAccessType (mergeAccesses into_ from_ t m).computed t' =
      targetByAccessType into_.computed t' := by
  simp [mergeAccesses, target_set_other _ _ _ _ h]

/-- C1: for every target axis, source axis, tier `T` and element transform `f`,
`mergeAccesses` leaves the target's computed list at `T` equal to its old content followed by
`f` applied element-wise to the source's computed interface, computed public, declared
interface and declared public entries, in exactly that order; without a transform the
entries are copied as they are. -/
theorem mergeAccesses_appends_visible {α : Type} (target source : SelfAndComputed (AccessSplitVec α))
    (T : AccessType) (f : α → α) :
    targetByAccessType (mergeAccesses target source T (some f)).computed T =
        targetByAccessType target.computed T ++
          (source.computed.interface_ ++ source.computed.public_ ++
            source.self.interface_ ++ source.self.public_).map f ∧
    targetByAccessType (mergeAccesses target source T none).computed T =
        targetByAccessType target.computed T ++
          (source.computed.interface_ ++ source.computed.public_ ++
            source.self.interface_ ++ source.self.public_) :=
  ⟨mergeAccesses_target_some target source T f, mergeAccesses_target_none target source T⟩

/-! ### Field by field description of `computeConfiguration` -/

theorem target_pushBack_same {α : Type} (a : AccessSplitVec α) (t : AccessType) (x : α) :
    targetByAccessType (pushBackByAccessType a t x) t = targetByAccessType a t ++ [x] :=
  target_set_same a t _

theorem target_pushBack_other {α : Type} (a : AccessSplitVec α) (t t' : AccessType) (x : α)
    (h : t' ≠ t) :
    targetByAccessType (pushBackByAccessType a t x) t' = targetByAccessType a t' :=
  target_set_other a t t' _ h

theorem computeConfiguration_defines (fs : Fs) (into_ : Configuration) (K : Package)
    (S : Project) (c : Configuration) (T : AccessType) :
    (computeConfiguration fs into_ K S c T).defines =
      mergeAccesses into_.defines c.defines T none := by
  unfold computeConfiguration; split <;> rfl

theorem computeConfiguration_includeFolders (fs : Fs) (into_ : Configuration) (K : Package)
    (S : Project) (c : Configuration) (T : AccessType) :
    (computeConfiguration fs into_ K S c T).includeFolders =
      mergeAccesses into_.includeFolders c.includeFolders T (some (K.resolvePath fs)) := by
  unfold computeConfiguration; split <;> rfl

theorem computeConfiguration_compilerOptions (fs : Fs) (into_ : Configuration) (K : Package)
    (S : Project) (c : Configuration) (T : AccessType) :
    (computeConfiguration fs into_ K S c T).compilerOptions =
      mergeAccesses into_.compilerOptions c.compilerOptions T none := by
  unfold computeConfiguration; split <;> rfl

theorem computeConfiguration_linkerOptions (fs : Fs) (into_ : Configuration) (K : Package)
    (S : Project) (c : Configuration) (T : AccessType) :
    (computeConfiguration fs into_ K S c T).linkerOptions =
      mergeAccesses into_.linkerOptions c.linkerOptions T none := by
  unfold computeConfiguration; split <;> rfl

theorem computeConfiguration_linkerFolders (fs : Fs) (into_ : Configuration) (K : Package)
    (S : Project) (c : Configuration) (T : AccessType) :
    (computeConfiguration fs into_ K S c T).linkerFolders =
      if S.type = ProjectType.StaticLib ∨ S.type = ProjectType.SharedLib then
        { mergeAccesses into_.linkerFolders c.linkerFolders T (some (K.resolvePath fs)) with
          computed := pushBackByAccessType
            (mergeAccesses into_.linkerFolders c.linkerFolders T
              (some (K.resolvePath fs))).computed T
            (fs.fwd (K.predictOutputFolder fs S)) }
      else mergeAccesses into_.linkerFolders c.linkerFolders T (some (K.resolvePath fs)) := by
  unfold computeConfiguration; split <;> rfl

theorem computeConfiguration_linkedLibraries (fs : Fs) (into_ : Configuration) (K : Package)
    (S : Project) (c : Configuration) (T : AccessType) :
    (computeConfiguration fs into_ K S c T).linkedLibraries =
      if S.type = ProjectType.StaticLib ∨ S.type = ProjectType.SharedLib then
        { mergeAccesses into_.linkedLibraries c.linkedLibraries T none with
          computed := pushBackByAccessType
            (mergeAccesses into_.linkedLibraries c.linkedLibraries T none).computed T S.name }
      else mergeAccesses into_.linkedLibraries c.linkedLibraries T none := by
  unfold computeConfiguration; split <;> rfl

theorem computeConfiguration_rest (fs : Fs) (into_ : Configuration) (K : Package)
    (S : Project) (c : Configuration) (T : AccessType) :
    (computeConfiguration fs into_ K S c T).symbolVisibility = into_.symbolVisibility ∧
    (computeConfiguration fs into_ K S c T).moduleDefinitionFile = into_.moduleDefinitionFile ∧
    (computeConfiguration fs into_ K S c T).files = into_.files ∧
    (computeConfiguration fs into_ K S c T).dependencies = into_.dependencies := by
  unfold computeConfiguration; split <;> exact ⟨rfl, rfl, rfl, rfl⟩

/-! ### Private lists are never read -/

theorem computeConfiguration_dropPrivate (fs : Fs) (into_ : Configuration) (K : Package)
    (S : Project) (c : Configuration) (T : AccessType) :
    computeConfiguration fs into_ K S c T =
      computeConfiguration fs into_ K S.dropPrivate c.dropPrivate T := rfl

theorem inheritFilter_dropPrivate (fs : Fs) (K : Package) (S : Project) (T : AccessType)
    (m : FilterMap) (it : String × Configuration) :
    inheritFilter fs K S T m it =
      inheritFilter fs K S.dropPrivate T m (it.1, it.2.dropPrivate) := rfl

theorem inheritConfigurationFrom_dropPrivate (fs : Fs) (R : TargetBase) (K : Package)
    (S : Project) (T : AccessType) :
    R.inheritConfigurationFrom fs K S T = R.inheritConfigurationFrom fs K S.dropPrivate T := by
  unfold TargetBase.inheritConfigurationFrom
  have h : ∀ (l : List (String × Configuration)) (m : FilterMap),
      l.foldl (inheritFilter fs K S T) m =
        (l.map (fun e => (e.1, e.2.dropPrivate))).foldl
          (inheritFilter fs K S.dropPrivate T) m := by
    intro l
    induction l with
    | nil => intro m; rfl
    | cons e es ih =>
      intro m
      simp only [List.foldl_cons, List.map_cons]
      rw [inheritFilter_dropPrivate, ih]
  simp only [h]
  rfl

/-- C2: private entries never influence a merge. For every receiver, package and tier, two
source projects that differ only in their private lists (declared and computed, on any axis,
in the base configuration and in the filters), and two source configurations that differ
only in their private lists, leave `computeConfiguration` and `inheritConfigurationFrom`
with identical receiver state. -/
theorem private_lists_never_influence_merge (fs : Fs) (R : TargetBase) (into_ : Configuration)
    (K : Package) (T : AccessType) (S₁ S₂ : Project) (c₁ c₂ : Configuration)
    (hS : S₁.dropPrivate = S₂.dropPrivate) (hc : c₁.dropPrivate = c₂.dropPrivate) :
    computeConfiguration fs into_ K S₁ c₁ T = computeConfiguration fs into_ K S₂ c₂ T ∧
    R.inheritConfigurationFrom fs K S₁ T = R.inheritConfigurationFrom fs K S₂ T := by
  constructor
  · rw [computeConfiguration_dropPrivate fs into_ K S₁, computeConfiguration_dropPrivate fs into_ K S₂,
      hS, hc]
  · rw [inheritConfigurationFrom_dropPrivate fs R K S₁, inheritConfigurationFrom_dropPrivate fs R K S₂,
      hS]

/-- Witness of C2: two projects that differ in their private lists only, merged into the
empty configuration and into the application `sampleMain`. -/
theorem private_lists_never_influence_merge_witness :
    sampleUtils ≠ sampleUtilsOtherPrivate ∧
    (computeConfiguration sampleFs Configuration.empty sampleUtilsPkg sampleUtils
        sampleUtils.toConfiguration AccessType.Public =
      computeConfiguration sampleFs Configuration.empty sampleUtilsPkg sampleUtilsOtherPrivate
        sampleUtilsOtherPrivate.toConfiguration AccessType.Public ∧
    sampleMain.toTargetBase.inheritConfigurationFrom sampleFs sampleUtilsPkg sampleUtils
        AccessType.Public =
      sampleMain.toTargetBase.inheritConfigurationFrom sampleFs sampleUtilsPkg
        sampleUtilsOtherPrivate AccessType.Public) :=
  ⟨by decide,
    private_lists_never_influence_merge sampleFs sampleMain.toTargetBase Configuration.empty
      sampleUtilsPkg AccessType.Public sampleUtils sampleUtilsOtherPrivate
      sampleUtils.toConfiguration sampleUtilsOtherPrivate.toConfiguration
      (by decide) (by decide)⟩

/-! ### Implicit link injection and path rewriting -/

/-- C3: when the source project is a static or a shared library, `computeConfiguration`
appends, after the merged entries, exactly one entry to the receiver's computed library
folders at tier `T`, the predicted output folder (the parent directory of the package root
joined with `bin/%{cfg.platform}/%{cfg.buildcfg}`, passed through `fsx::fwd`), and exactly
one entry to its computed linked libraries at `T`, the source project's name; when the
source project is an application or an interface it appends nothing beyond the merged
entries. -/
theorem computeConfiguration_implicit_link (fs : Fs) (into_ : Configuration) (K : Package)
    (S : Project) (c : Configuration) (T : AccessType) :
    ((S.type = ProjectType.StaticLib ∨ S.type = ProjectType.SharedLib) →
      targetByAccessType (computeConfiguration fs into_ K S c T).linkerFolders.computed T =
        targetByAccessType into_.linkerFolders.computed T ++
          (visible c.linkerFolders).map (K.resolvePath fs) ++
          [fs.fwd (fs.append (fs.parent_path K.root)
            "bin/%\x7bcfg.platform\x7d/%\x7bcfg.buildcfg\x7d")] ∧
      targetByAccessType (computeConfiguration fs into_ K S c T).linkedLibraries.computed T =
        targetByAccessType into_.linkedLibraries.computed T ++ visible c.linkedLibraries ++
          [S.name]) ∧
    ((S.type = ProjectType.App ∨ S.type = ProjectType.Interface) →
      targetByAccessType (computeConfiguration fs into_ K S c T).linkerFolders.computed T =
        targetByAccessType into_.linkerFolders.computed T ++
          (visible c.linkerFolders).map (K.resolvePath fs) ∧
      targetByAccessType (computeConfiguration fs into_ K S c T).linkedLibraries.computed T =
        targetByAccessType into_.linkedLibraries.computed T ++ visible c.linkedLibraries) := by
  rw [computeConfiguration_linkerFolders, computeConfiguration_linkedLibraries]
  constructor
  · intro h
    rw [if_pos h, if_pos h]
    simp only [target_pushBack_same, mergeAccesses_target_some, mergeAccesses_target_none,
      Package.predictOutputFolder, and_self]
  · intro h
    have hn : ¬ (S.type = ProjectType.StaticLib ∨ S.type = ProjectType.SharedLib) := by
      rcases h with h | h <;> rw [h] <;> decide
    rw [if_neg hn, if_neg hn]
    exact ⟨mergeAccesses_target_some _ _ _ _, mergeAccesses_target_none _ _ _⟩

/-- Witness of C3: the static library `sampleUtils` and the application `sampleMain` as
sources of a public merge into the empty configuration. -/
theorem computeConfiguration_implicit_link_witness :
    (targetByAccessType (computeConfiguration sampleFs Configuration.empty sampleUtilsPkg
        sampleUtils sampleUtils.toConfiguration AccessType.Public).linkerFolders.computed
        AccessType.Public =
      ["/w/utils/lib", "/w/utils/bin/%\x7bcfg.platform\x7d/%\x7bcfg.buildcfg\x7d"] ∧
    targetByAccessType (computeConfiguration sampleFs Configuration.empty sampleUtilsPkg
        sampleUtils sampleUtils.toConfiguration AccessType.Public).linkedLibraries.computed
        AccessType.Public =
      ["pthread", "utils"]) ∧
    (targetByAccessType (computeConfiguration sampleFs Configuration.empty sampleUtilsPkg
        sampleMain sampleUtils.toConfiguration AccessType.Public).linkerFolders.computed
        AccessType.Public =
      ["/w/utils/lib"] ∧
    targetByAccessType (computeConfiguration sampleFs Configuration.empty sampleUtilsPkg
        sampleMain sampleUtils.toConfiguration AccessType.Public).linkedLibraries.computed
        AccessType.Public =
      ["pthread"]) :=
  ⟨(computeConfiguration_implicit_link sampleFs Configuration.empty sampleUtilsPkg sampleUtils
      sampleUtils.toConfiguration AccessType.Public).1 (Or.inl rfl),
    (computeConfiguration_implicit_link sampleFs Configuration.empty sampleUtilsPkg sampleMain
      sampleUtils.toConfiguration AccessType.Public).2 (Or.inl rfl)⟩

/-- C4: `computeConfiguration` merges all six axes and rewrites paths only on the include
folders and the library folders: every merged element of those two axes is replaced by
`Package::resolvePath` of it, which returns an absolute path unchanged and turns a relative
path into the parent directory of the source package's root joined with it (passed through
`fsx::fwd`); the merged elements of the other four axes are copied verbatim. The only
entries after the merged ones are the two implicit entries of a library. -/
theorem computeConfiguration_six_axes (fs : Fs) (into_ : Configuration) (K : Package)
    (S : Project) (c : Configuration) (T : AccessType) :
    targetByAccessType (computeConfiguration fs into_ K S c T).defines.computed T =
      targetByAccessType into_.defines.computed T ++ visible c.defines ∧
    targetByAccessType (computeConfiguration fs into_ K S c T).includeFolders.computed T =
      targetByAccessType into_.includeFolders.computed T ++
        (visible c.includeFolders).map (K.resolvePath fs) ∧
    targetByAccessType (computeConfiguration fs into_ K S c T).linkerFolders.computed T =
      targetByAccessType into_.linkerFolders.computed T ++
        (visible c.linkerFolders).map (K.resolvePath fs) ++
        (if S.type = ProjectType.StaticLib ∨ S.type = ProjectType.SharedLib then
          [fs.fwd (K.predictOutputFolder fs S)] else []) ∧
    targetByAccessType (computeConfiguration fs into_ K S c T).linkedLibraries.computed T =
      targetByAccessType into_.linkedLibraries.computed T ++ visible c.linkedLibraries ++
        (if S.type = ProjectType.StaticLib ∨ S.type = ProjectType.SharedLib then
          [S.name] else []) ∧
    targetByAccessType (computeConfiguration fs into_ K S c T).compilerOptions.computed T =
      targetByAccessType into_.compilerOptions.computed T ++ visible c.compilerOptions ∧
    targetByAccessType (computeConfiguration fs into_ K S c T).linkerOptions.computed T =
      targetByAccessType into_.linkerOptions.computed T ++ visible c.linkerOptions ∧
    (∀ p : String, K.resolvePath fs p =
      if fs.is_relative p = true then fs.fwd (fs.append (fs.parent_path K.root) p) else p) := by
  rw [computeConfiguration_defines, computeConfiguration_includeFolders,
    computeConfiguration_linkerFolders, computeConfiguration_linkedLibraries,
    computeConfiguration_compilerOptions, computeConfiguration_linkerOptions]
  refine ⟨mergeAccesses_target_none _ _ _, mergeAccesses_target_some _ _ _ _, ?_, ?_,
    mergeAccesses_target_none _ _ _, mergeAccesses_target_none _ _ _, fun p => rfl⟩
  · split
    · simp only [target_pushBack_same, mergeAccesses_target_some]
    · simp only [mergeAccesses_target_some, List.append_nil]
  · split
    · simp only [target_pushBack_same, mergeAccesses_target_none]
    · simp only [mergeAccesses_target_none, List.append_nil]

/-! ### Filter overlays -/

theorem strLt_ne {a b : String} (h : strLt a b = true) : a ≠ b := by
  intro hab
  subst hab
  simp [strLt] at h

theorem FilterMap.keys_distinct (m : FilterMap) :
    m.entries.Pairwise (fun a b => a.1 ≠ b.1) :=
  m.sorted.imp (fun h => strLt_ne h)

theorem find?_insertEntry (k k' : String) (v : Configuration)
    (l : List (String × Configuration)) :
    (insertEntry k v l).find? (fun e => decide (e.1 = k')) =
      if k' = k then some (k, v) else l.find? (fun e => decide (e.1 = k')) := by
  induction l with
  | nil =>
    by_cases h : k' = k
    · simp [insertEntry, h]
    · have h' : ¬ k = k' := fun e => h e.symm
      simp [insertEntry, h, h']
  | cons x xs ih =>
    simp only [insertEntry]
    by_cases h : k' = k
    · subst h
      split
      · simp
      · split
        · simp
        · rename_i _ hne
          have hx : ¬ x.1 = k' := fun e => hne e.symm
          simp [List.find?_cons, hx, ih]
    · have h' : ¬ k = k' := fun e => h e.symm
      split
      · simp [List.find?_cons, h, h']
      · split
        · rename_i _ heq
          have hx : ¬ x.1 = k' := fun e => h' (heq.trans e)
          simp [List.find?_cons, h, h', hx]
        · by_cases hx : x.1 = k'
          · simp [List.find?_cons, h, hx]
          · simp [List.find?_cons, h, hx, ih]

theorem FilterMap.find_set (m : FilterMap) (k k' : String) (v : Configuration) :
    (m.set k v).find k' = if k' = k then some v else m.find k' := by
  unfold FilterMap.find FilterMap.set
  simp only [find?_insertEntry]
  split <;> rfl

theorem FilterMap.mem_keys_iff (m : FilterMap) (k : String) :
    k ∈ m.keys ↔ (m.find k).isSome = true := by
  unfold FilterMap.keys FilterMap.find
  simp only [Option.isSome_map', List.find?_isSome, List.mem_map]
  constructor
  · rintro ⟨e, he, rfl⟩
    exact ⟨e, he, by simp⟩
  · rintro ⟨e, he, h⟩
    exact ⟨e, he, by simpa using h⟩

theorem inheritFilter_find (fs : Fs) (K : Package) (S : Project) (T : AccessType)
    (m : FilterMap) (it : String × Configuration) (k' : String) :
    (inheritFilter fs K S T m it).find k' =
      if k' = it.1 then
        some (computeConfiguration fs ((m.find it.1).getD Configuration.empty) K S it.2 T)
      else m.find k' := by
  unfold inheritFilter
  cases hm : m.find it.1 with
  | none =>
    simp only [Option.isNone_none, if_true, FilterMap.find_set, Option.getD_none]
    by_cases h : k' = it.1
    · simp [h]
    · simp [h]
  | some cfg =>
    simp only [Option.isNone_some, Bool.false_eq_true, if_false, hm, Option.getD_some]
    exact FilterMap.find_set m it.1 k' _

theorem foldl_inheritFilter_find (fs : Fs) (K : Package) (S : Project) (T : AccessType)
    (l : List (String × Configuration)) (hl : l.Pairwise (fun a b => a.1 ≠ b.1))
    (m : FilterMap) (k' : String) :
    (l.foldl (inheritFilter fs K S T) m).find k' =
      match l.find? (fun e => decide (e.1 = k')) with
      | some e =>
        some (computeConfiguration fs ((m.find k').getD Configuration.empty) K S e.2 T)
      | none => m.find k' := by
  induction l generalizing m with
  | nil => rfl
  | cons x xs ih =>
    have hx := (List.pairwise_cons.1 hl).1
    have hxs := (List.pairwise_cons.1 hl).2
    simp only [List.foldl_cons]
    rw [ih hxs]
    by_cases h : x.1 = k'
    · have hnone : xs.find? (fun e => decide (e.1 = k')) = none := by
        rw [List.find?_eq_none]
        intro e he
        have := hx e he
        simpa [← h] using fun e' => this e'.symm
      simp only [hnone, List.find?_cons, h, decide_True]
      rw [inheritFilter_find, ← h]
      simp
    · have hk : ¬ k' = x.1 := fun e => h e.symm
      simp only [List.find?_cons, h, decide_False]
      rw [inheritFilter_find]
      simp only [hk, if_false]

/-- C5: after `R.inheritConfigurationFrom(K, S, T)` the receiver's filter names are exactly
its old filter names united with the filter names of `S`, and for every filter name `F` of
`S` the receiver's filter `F` is `computeConfiguration` applied to the receiver's old filter
`F` (an empty configuration when there was none) with the source configuration
`S.premakeFilters[F]` at tier `T`. -/
theorem inheritConfigurationFrom_filters (fs : Fs) (R : TargetBase) (K : Package)
    (S : Project) (T : AccessType) :
    (∀ n : String, n ∈ (R.inheritConfigurationFrom fs K S T).premakeFilters.keys ↔
      n ∈ R.premakeFilters.keys ∨ n ∈ S.premakeFilters.keys) ∧
    (∀ (F : String) (cfg : Configuration), S.premakeFilters.find F = some cfg →
      (R.inheritConfigurationFrom fs K S T).premakeFilters.find F =
        some (computeConfiguration fs ((R.premakeFilters.find F).getD Configuration.empty)
          K S cfg T)) := by
  have key : ∀ k' : String,
      (R.inheritConfigurationFrom fs K S T).premakeFilters.find k' =
        match S.premakeFilters.entries.find? (fun e => decide (e.1 = k')) with
        | some e =>
          some (computeConfiguration fs ((R.premakeFilters.find k').getD Configuration.empty)
            K S e.2 T)
        | none => R.premakeFilters.find k' := fun k' =>
    foldl_inheritFilter_find fs K S T _ S.premakeFilters.keys_distinct R.premakeFilters k'
  constructor
  · intro n
    rw [FilterMap.mem_keys_iff, FilterMap.mem_keys_iff, FilterMap.mem_keys_iff, key n]
    unfold FilterMap.find
    cases S.premakeFilters.entries.find? (fun e => decide (e.1 = n)) with
    | none => simp
    | some e => simp
  · intro F cfg hF
    rw [key F]
    unfold FilterMap.find at hF
    cases hS : S.premakeFilters.entries.find? (fun e => decide (e.1 = F)) with
    | none => rw [hS] at hF; simp at hF
    | some e =>
      rw [hS] at hF
      simp only [Option.map_some', Option.some.injEq] at hF
      simp only [hF]

/-- Witness of C5: `sampleMathlib` has one overlay, for the debug configuration; the
application `sampleMain` has none and gets it created, the application `sampleTool` has one
and gets it merged. -/
theorem inheritConfigurationFrom_filters_witness :
    (sampleMain.toTargetBase.inheritConfigurationFrom sampleFs sampleMathlibPkg sampleMathlib
        AccessType.Public).premakeFilters.find "configurations:Debug" =
      some (computeConfiguration sampleFs Configuration.empty sampleMathlibPkg sampleMathlib
        sampleDebugOverlay AccessType.Public) ∧
    (sampleTool.toTargetBase.inheritConfigurationFrom sampleFs sampleMathlibPkg sampleMathlib
        AccessType.Public).premakeFilters.find "configurations:Debug" =
      some (computeConfiguration sampleFs { Configuration.empty with files := ["debug.cpp"] }
        sampleMathlibPkg sampleMathlib sampleDebugOverlay AccessType.Public) :=
  ⟨(inheritConfigurationFrom_filters sampleFs sampleMain.toTargetBase sampleMathlibPkg
      sampleMathlib AccessType.Public).2 "configurations:Debug" sampleDebugOverlay (by decide),
    (inheritConfigurationFrom_filters sampleFs sampleTool.toTargetBase sampleMathlibPkg
      sampleMathlib AccessType.Public).2 "configurations:Debug" sampleDebugOverlay (by decide)⟩

/-! ### The frame of a merge -/

theorem axisFrame_mergeAccesses {α : Type} (a b : SelfAndComputed (AccessSplitVec α))
    (T : AccessType) (m : Option (α → α)) : axisFrame a (mergeAccesses a b T m) T := by
  refine ⟨rfl, fun T' h => mergeAccesses_target_other a b T T' m h, ?_⟩
  cases m with
  | none => rw [mergeAccesses_target_none]; exact List.prefix_append _ _
  | some f => rw [mergeAccesses_target_some]; exact List.prefix_append _ _

theorem axisFrame_pushBack {α : Type} (a b : SelfAndComputed (AccessSplitVec α))
    (T : AccessType) (x : α) (h : axisFrame a b T) :
    axisFrame a { b with computed := pushBackByAccessType b.computed T x } T := by
  obtain ⟨h1, h2, h3⟩ := h
  refine ⟨h1, fun T' hT => ?_, ?_⟩
  · show targetByAccessType (pushBackByAccessType b.computed T x) T' = _
    rw [target_pushBack_other _ _ _ _ hT]
    exact h2 T' hT
  · show _ <+: targetByAccessType (pushBackByAccessType b.computed T x) T
    rw [target_pushBack_same]
    exact h3.trans (List.prefix_append _ _)

theorem computeConfiguration_frame (fs : Fs) (into_ : Configuration) (K : Package)
    (S : Project) (c : Configuration) (T : AccessType) :
    Configuration.frame into_ (computeConfiguration fs into_ K S c T) T := by
  obtain ⟨h1, h2, h3, h4⟩ := computeConfiguration_rest fs into_ K S c T
  refine ⟨h1, h2, h3, h4, ?_, ?_, ?_, ?_, ?_, ?_⟩
  · rw [computeConfiguration_defines]; exact axisFrame_mergeAccesses _ _ _ _
  · rw [computeConfiguration_includeFolders]; exact axisFrame_mergeAccesses _ _ _ _
  · rw [computeConfiguration_linkerFolders]
    split
    · exact axisFrame_pushBack _ _ _ _ (axisFrame_mergeAccesses _ _ _ _)
    · exact axisFrame_mergeAccesses _ _ _ _
  · rw [computeConfiguration_linkedLibraries]
    split
    · exact axisFrame_pushBack _ _ _ _ (axisFrame_mergeAccesses _ _ _ _)
    · exact axisFrame_mergeAccesses _ _ _ _
  · rw [computeConfiguration_compilerOptions]; exact axisFrame_mergeAccesses _ _ _ _
  · rw [computeConfiguration_linkerOptions]; exact axisFrame_mergeAccesses _ _ _ _

/-- C6: merging changes only computed state at the requested tier. After
`inheritConfigurationFrom` at tier `T` the receiver's base configuration is what
`computeConfiguration` alone produces from it (the filter loop does not alter it); its
declared lists on every axis, its file list, its scalars, its dependency axis and its
computed lists at the two tiers other than `T` are unchanged and every computed list at `T`
keeps its old content as a prefix (`Configuration.frame`); its name is unchanged; and its
filters whose name is not a filter name of the source project are unchanged. -/
theorem inheritConfigurationFrom_frame (fs : Fs) (R : TargetBase) (K : Package)
    (S : Project) (T : AccessType) :
    (R.inheritConfigurationFrom fs K S T).toConfiguration =
      computeConfigurationBase fs R.toConfiguration K S T ∧
    Configuration.frame R.toConfiguration
      (R.inheritConfigurationFrom fs K S T).toConfiguration T ∧
    (R.inheritConfigurationFrom fs K S T).name = R.name ∧
    (∀ F : String, F ∉ S.premakeFilters.keys →
      (R.inheritConfigurationFrom fs K S T).premakeFilters.find F =
        R.premakeFilters.find F) := by
  refine ⟨rfl, computeConfiguration_frame fs R.toConfiguration K S S.toConfiguration T, rfl, ?_⟩
  intro F hF
  have key := foldl_inheritFilter_find fs K S T _ S.premakeFilters.keys_distinct
    R.premakeFilters F
  have hnone : S.premakeFilters.entries.find? (fun e => decide (e.1 = F)) = none := by
    rw [FilterMap.mem_keys_iff] at hF
    unfold FilterMap.find at hF
    cases h : S.premakeFilters.entries.find? (fun e => decide (e.1 = F)) with
    | none => rfl
    | some e => rw [h] at hF; simp at hF
  rw [hnone] at key
  exact key

/-- Witness of C6: `sampleTool` inherits from `sampleMathlib` at the public tier; its
release overlay, which `sampleMathlib` does not have, and its computed private defines are
what they were. -/
theorem inheritConfigurationFrom_frame_witness :
    (sampleTool.toTargetBase.inheritConfigurationFrom sampleFs sampleMathlibPkg sampleMathlib
        AccessType.Public).premakeFilters.find "configurations:Release" =
      some { Configuration.empty with files := ["release.cpp"] } ∧
    targetByAccessType (sampleTool.toTargetBase.inheritConfigurationFrom sampleFs
        sampleMathlibPkg sampleMathlib AccessType.Public).defines.computed
        AccessType.Private = ["EARLIER"] :=
  ⟨(inheritConfigurationFrom_frame sampleFs sampleTool.toTargetBase sampleMathlibPkg
      sampleMathlib AccessType.Public).2.2.2 "configurations:Release" (by decide),
    (inheritConfigurationFrom_frame sampleFs sampleTool.toTargetBase sampleMathlibPkg
      sampleMathlib AccessType.Public).2.1.2.2.2.2.1.2.1 AccessType.Private (by decide)⟩

/-! ### Two hops: what escapes and what does not -/

theorem Project.inheritConfigurationFrom_defines (fs : Fs) (P : Project) (K : Package)
    (D : Project) (T : AccessType) :
    (P.inheritConfigurationFrom fs K D T).defines =
      mergeAccesses P.defines D.defines T none :=
  computeConfiguration_defines fs P.toConfiguration K D D.toConfiguration T

theorem not_mem_merge_defines {α : Type} (a b : SelfAndComputed (AccessSplitVec α))
    (T₁ : AccessType) (v : α) (hb : v ∉ visible b)
    (ha : ∀ T, v ∉ targetByAccessType a.computed T) :
    ∀ T, v ∉ targetByAccessType (mergeAccesses a b T₁ none).computed T := by
  intro T
  by_cases h : T = T₁
  · subst h
    rw [mergeAccesses_target_none]
    intro hm
    rcases List.mem_append.1 hm with hm | hm
    · exact ha T hm
    · exact hb hm
  · rw [mergeAccesses_target_other _ _ _ _ _ h]
    exact ha T

theorem not_mem_allLists {α : Type} (a : SelfAndComputed (AccessSplitVec α)) (v : α)
    (h : v ∉ allLists a) :
    (∀ T, v ∉ targetByAccessType a.self T) ∧ (∀ T, v ∉ targetByAccessType a.computed T) := by
  simp only [allLists, List.mem_append, not_or] at h
  obtain ⟨⟨⟨⟨⟨h1, h2⟩, h3⟩, h4⟩, h5⟩, h6⟩ := h
  constructor
  · intro T; cases T
    · exact h1
    · exact h2
    · exact h3
  · intro T; cases T
    · exact h4
    · exact h5
    · exact h6

/-- C7: private values do not escape across two hops. For all projects `D`, `P`, `Q` and
tiers `T₁`, `T₂`, when `P` inherits from `D` at `T₁` and then `Q` inherits from the resulting
`P` at `T₂`, a define that occurs in no public or interface list of `D` (declared or
computed) and in no defines list of `P` or `Q` beforehand, hence in `D` at most in its
private defines, occurs in no computed defines list of `P` and in no computed defines list
of `Q` afterwards. -/
theorem private_define_never_escapes (fs : Fs) (D P Q : Project) (K₁ K₂ : Package)
    (T₁ T₂ : AccessType) (v : String)
    (hD : v ∉ visible D.defines) (hP : v ∉ allLists P.defines) (hQ : v ∉ allLists Q.defines) :
    (∀ T, v ∉ targetByAccessType (P.inheritConfigurationFrom fs K₁ D T₁).defines.computed T) ∧
    (∀ T, v ∉ targetByAccessType
      (Q.inheritConfigurationFrom fs K₂ (P.inheritConfigurationFrom fs K₁ D T₁)
        T₂).defines.computed T) := by
  obtain ⟨hPs, hPc⟩ := not_mem_allLists _ _ hP
  obtain ⟨_, hQc⟩ := not_mem_allLists _ _ hQ
  have hP' : ∀ T, v ∉ targetByAccessType
      (P.inheritConfigurationFrom fs K₁ D T₁).defines.computed T := by
    rw [Project.inheritConfigurationFrom_defines]
    exact not_mem_merge_defines _ _ _ _ hD hPc
  refine ⟨hP', ?_⟩
  rw [Project.inheritConfigurationFrom_defines fs Q]
  apply not_mem_merge_defines _ _ _ _ _ hQc
  have hself : (P.inheritConfigurationFrom fs K₁ D T₁).defines.self = P.defines.self := by
    rw [Project.inheritConfigurationFrom_defines]; rfl
  simp only [visible, List.mem_append, not_or, hself]
  exact ⟨⟨⟨hP' AccessType.Interface, hP' AccessType.Public⟩, hPs AccessType.Interface⟩,
    hPs AccessType.Public⟩

/-- Witness of C7: "mathlib" inherits privately from `sampleUtils`, whose private define is
`UTILS_INTERNAL`, and `sampleMain` inherits publicly from the result. -/
theorem private_define_never_escapes_witness :
    "UTILS_INTERNAL" ∈ sampleUtils.defines.self.private_ ∧
    (∀ T, "UTILS_INTERNAL" ∉ targetByAccessType
      (sampleMathlib.inheritConfigurationFrom sampleFs sampleUtilsPkg sampleUtils
        AccessType.Private).defines.computed T) ∧
    (∀ T, "UTILS_INTERNAL" ∉ targetByAccessType
      (sampleMain.inheritConfigurationFrom sampleFs sampleMathlibPkg
        (sampleMathlib.inheritConfigurationFrom sampleFs sampleUtilsPkg sampleUtils
          AccessType.Private) AccessType.Public).defines.computed T) :=
  ⟨by decide,
    private_define_never_escapes sampleFs sampleUtils sampleMathlib sampleMain sampleUtilsPkg
      sampleMathlibPkg AccessType.Private AccessType.Public "UTILS_INTERNAL"
      (by decide) (by decide) (by decide)⟩

/-- C8, as stated, fails: `UTILS_USER` is a declared interface define of `sampleUtils`;
"mathlib" inherits from it at the private tier, so the value lands in the computed private
defines of "mathlib", which no merge reads: after `sampleMain` inherits from "mathlib" at
the public tier its computed public defines do not contain the value. -/
theorem interface_define_lost_behind_private_hop :
    "UTILS_USER" ∈ sampleUtils.defines.self.interface_ ∧
    "UTILS_USER" ∈ targetByAccessType
      (sampleMathlib.inheritConfigurationFrom sampleFs sampleUtilsPkg sampleUtils
        AccessType.Private).defines.computed AccessType.Private ∧
    "UTILS_USER" ∉ targetByAccessType
      (sampleMain.inheritConfigurationFrom sampleFs sampleMathlibPkg
        (sampleMathlib.inheritConfigurationFrom sampleFs sampleUtilsPkg sampleUtils
          AccessType.Private) AccessType.Public).defines.computed AccessType.Public := by
  decide

/-- C8, amended: for all projects `D`, `P`, `Q`, all tiers `T₁`, `T₂` and every value `v` of
the declared interface defines of `D`, after `P` inherits from `D` at `T₁` the value is in
the computed defines of `P` at `T₁`; and when `T₁` is the public or the interface tier, after
`Q` inherits from the resulting `P` at `T₂` the value is in the computed defines of `Q` at
`T₂`. When `T₁` is the private tier the value is in the computed private defines of `P`,
which the step to `Q` does not read: the defines of `Q` after it inherits from the resulting
`P` are the defines `Q` has after inheriting from `P` as it was before `P` inherited from
`D`. -/
theorem interface_define_visible_along_path (fs : Fs) (D P Q : Project) (K₁ K₂ : Package)
    (T₁ T₂ : AccessType) (v : String) (hv : v ∈ D.defines.self.interface_) :
    v ∈ targetByAccessType (P.inheritConfigurationFrom fs K₁ D T₁).defines.computed T₁ ∧
    (T₁ ≠ AccessType.Private →
      v ∈ targetByAccessType
        (Q.inheritConfigurationFrom fs K₂ (P.inheritConfigurationFrom fs K₁ D T₁)
          T₂).defines.computed T₂) ∧
    (T₁ = AccessType.Private →
      (Q.inheritConfigurationFrom fs K₂ (P.inheritConfigurationFrom fs K₁ D T₁) T₂).defines =
        (Q.inheritConfigurationFrom fs K₂ P T₂).defines) := by
  have hvis : v ∈ visible D.defines := by
    simp only [visible, List.mem_append]
    exact Or.inl (Or.inr hv)
  have h1 : v ∈ targetByAccessType
      (P.inheritConfigurationFrom fs K₁ D T₁).defines.computed T₁ := by
    rw [Project.inheritConfigurationFrom_defines, mergeAccesses_target_none]
    exact List.mem_append_right _ hvis
  refine ⟨h1, fun hT => ?_, fun hT => ?_⟩
  · rw [Project.inheritConfigurationFrom_defines fs Q, mergeAccesses_target_none]
    apply List.mem_append_right
    simp only [visible, List.mem_append]
    cases T₁ with
    | Private => exact absurd rfl hT
    | Public => exact Or.inl (Or.inl (Or.inr h1))
    | Interface => exact Or.inl (Or.inl (Or.inl h1))
  · subst hT
    rw [Project.inheritConfigurationFrom_defines fs Q,
      Project.inheritConfigurationFrom_defines fs Q,
      Project.inheritConfigurationFrom_defines fs P]
    simp [mergeAccesses, setByAccessType, targetByAccessType]

/-- Witness of the amended C8: `UTILS_USER` travels from `sampleUtils` through a public
dependency of "mathlib" into `sampleMain`; through a private dependency of "mathlib" it
reaches "mathlib" only, and `sampleMain` gets the defines it gets from "mathlib" alone. -/
theorem interface_define_visible_along_path_witness :
    "UTILS_USER" ∈ targetByAccessType
      (sampleMathlib.inheritConfigurationFrom sampleFs sampleUtilsPkg sampleUtils
        AccessType.Public).defines.computed AccessType.Public ∧
    "UTILS_USER" ∈ targetByAccessType
      (sampleMain.inheritConfigurationFrom sampleFs sampleMathlibPkg
        (sampleMathlib.inheritConfigurationFrom sampleFs sampleUtilsPkg sampleUtils
          AccessType.Public) AccessType.Private).defines.computed AccessType.Private ∧
    (sampleMain.inheritConfigurationFrom sampleFs sampleMathlibPkg
        (sampleMathlib.inheritConfigurationFrom sampleFs sampleUtilsPkg sampleUtils
          AccessType.Private) AccessType.Public).defines =
      (sampleMain.inheritConfigurationFrom sampleFs sampleMathlibPkg sampleMathlib
        AccessType.Public).defines :=
  ⟨(interface_define_visible_along_path sampleFs sampleUtils sampleMathlib sampleMain
      sampleUtilsPkg sampleMathlibPkg AccessType.Public AccessType.Private "UTILS_USER"
      (by decide)).1,
    (interface_define_visible_along_path sampleFs sampleUtils sampleMathlib sampleMain
      sampleUtilsPkg sampleMathlibPkg AccessType.Public AccessType.Private "UTILS_USER"
      (by decide)).2.1 (by decide),
    (interface_define_visible_along_path sampleFs sampleUtils sampleMathlib sampleMain
      sampleUtilsPkg sampleMathlibPkg AccessType.Private AccessType.Public "UTILS_USER"
      (by decide)).2.2 rfl⟩

/-! ### The registry of loaded packages -/

/-- The bound on the turns of `lower_bound` is never reached: with at least `len` turns left
one more turn changes nothing. -/
theorem lower_bound_go_turns {α β : Type} (comp : α → β → Bool) (xs : List α) (value : β)
    (turns first len : Nat) (h : len ≤ turns) :
    lower_bound.go comp xs value turns first len =
      lower_bound.go comp xs value (turns + 1) first len := by
  induction turns generalizing first len with
  | zero =>
    have h0 : len = 0 := Nat.le_zero.1 h
    subst h0
    simp [lower_bound.go]
  | succ t ih =>
    rw [lower_bound.go, lower_bound.go]
    by_cases hl : len > 0
    · simp only [hl, if_true]
      cases xs[first + len / 2]? with
      | none => rfl
      | some e =>
        have h1 : len - len / 2 - 1 ≤ t := by omega
        have h2 : len / 2 ≤ t := by omega
        simp only [ih _ _ h1, ih _ _ h2]
    · simp only [hl, if_false]

/-- The bound on the turns of `upper_bound` is never reached. -/
theorem upper_bound_go_turns {α β : Type} (comp : β → α → Bool) (xs : List α) (value : β)
    (turns first len : Nat) (h : len ≤ turns) :
    upper_bound.go comp xs value turns first len =
      upper_bound.go comp xs value (turns + 1) first len := by
  induction turns generalizing first len with
  | zero =>
    have h0 : len = 0 := Nat.le_zero.1 h
    subst h0
    simp [upper_bound.go]
  | succ t ih =>
    rw [upper_bound.go, upper_bound.go]
    by_cases hl : len > 0
    · simp only [hl, if_true]
      cases xs[first + len / 2]? with
      | none => rfl
      | some e =>
        have h1 : len - len / 2 - 1 ≤ t := by omega
        have h2 : len / 2 ≤ t := by omega
        simp only [ih _ _ h1, ih _ _ h2]
    · simp only [hl, if_false]

/-- C9 fails on the code: the packages with roots `/w/pacc_packages/b/cpackage.json` and
`/w/pacc_packages/d/cpackage.json` are registered in this order into the empty registry.
The insertion, whose comparator tests `e->root < inserted` where `std::upper_bound` expects
`inserted < e->root`, puts "d" before "b"; the lookups, which bisect for an ascending order,
then find neither root. -/
theorem registered_roots_not_found :
    ((Premake5.empty.register sampleFs sampleB).register sampleFs sampleD).loadedRoots =
      ["/w/pacc_packages/d/cpackage.json", "/w/pacc_packages/b/cpackage.json"] ∧
    ((Premake5.empty.register sampleFs sampleB).register sampleFs sampleD).wasPackageLoaded
      sampleFs "/w/pacc_packages/d/cpackage.json" = false ∧
    ((Premake5.empty.register sampleFs sampleB).register sampleFs sampleD).wasPackageLoaded
      sampleFs "/w/pacc_packages/b/cpackage.json" = false ∧
    ((Premake5.empty.register sampleFs sampleB).register sampleFs sampleD).findPackageByRoot
      sampleFs "/w/pacc_packages/d/cpackage.json" = none := by
  decide

/-- C10 fails on the code: the resolver runs on the diamond `sampleA` ("a" depends on "b"
and "c", both depend on "d") from the empty registry. It returns with the root of "d" twice
in the registry and with four packages queued for resolution, "d" among them twice: the
lookup of "d" in the registry of "d", "c", "b" misses it, because the insertion keeps the
registry descending while the lookup bisects for an ascending order, so "d" is registered
and resolved a second time. -/
theorem diamond_registers_twice :
    (Premake5.loadDependencies sampleFs sampleEnv 3 Premake5.empty sampleA).toOption.map
        (fun r => (r.1.loadedRoots, r.1.configQueue.map (fun dep =>
          match dep with
          | Dependency.package pkgDep => pkgDep.packageName
          | _ => ""))) =
      some (["/w/pacc_packages/d/cpackage.json", "/w/pacc_packages/d/cpackage.json",
          "/w/pacc_packages/c/cpackage.json", "/w/pacc_packages/b/cpackage.json"],
        ["b", "d", "c", "d"]) := by
  decide

/-! ### Projects of a package -/

/-- C16: `Package::findProject` returns the first project of the package's project list whose
name equals the given name (every project before it has another name) and nothing exactly
when no project has that name; `Package::requireProject` returns that same project, and it
fails, with the project-does-not-exist error for that name and package, exactly when no
project of the package has that name. -/
theorem findProject_requireProject (K : Package) (name_ : String) :
    (∀ p : Project, K.findProject name_ = some p ↔
      p.name = name_ ∧ ∃ before after, K.projects = before ++ p :: after ∧
        ∀ q ∈ before, q.name ≠ name_) ∧
    (K.findProject name_ = none ↔ ∀ q ∈ K.projects, q.name ≠ name_) ∧
    (∀ p : Project, K.requireProject name_ = Except.ok p ↔ K.findProject name_ = some p) ∧
    ((∃ e, K.requireProject name_ = Except.error e) ↔ ∀ q ∈ K.projects, q.name ≠ name_) ∧
    (∀ e, K.requireProject name_ = Except.error e →
      e = PaccException.projectDoesNotExist name_ K.name) := by
  have hnone : K.findProject name_ = none ↔ ∀ q ∈ K.projects, q.name ≠ name_ := by
    unfold Package.findProject
    simp
  refine ⟨fun p => ?_, hnone, fun p => ?_, ?_, fun e => ?_⟩
  · unfold Package.findProject
    rw [List.find?_eq_some]
    simp
  · unfold Package.requireProject
    cases K.findProject name_ with
    | none => simp
    | some q => simp
  · rw [← hnone]
    unfold Package.requireProject
    cases K.findProject name_ with
    | none => simp
    | some q => simp
  · unfold Package.requireProject
    cases K.findProject name_ with
    | none => intro h; injection h with h; exact h.symm
    | some q => intro h; cases h

/-! ### Raw dependencies -/

theorem set_target_self {T : Type} (a : AccessSplit T) (t : AccessType) :
    setByAccessType a t (targetByAccessType a t) = a := by
  cases t <;> rfl

theorem Project.pushTokens_nil (p : Project) (method : AccessType) :
    p.pushTokens method [] = p := by
  unfold Project.pushTokens
  rw [List.append_nil, set_target_self]

theorem Project.pushTokens_cons (p : Project) (method : AccessType) (tok : String)
    (toks : List String) :
    ({ p with
      linkedLibraries := { p.linkedLibraries with
        computed := pushBackByAccessType p.linkedLibraries.computed method tok } } :
        Project).pushTokens method toks = p.pushTokens method (tok :: toks) := by
  cases method <;> simp [Project.pushTokens, pushBackByAccessType, setByAccessType,
    targetByAccessType]

theorem loadAccess_raw (fs : Fs) (env : Env)
    (recurse : Premake5 → Package → Except Error (Premake5 × Package)) (method : AccessType)
    (this : Premake5) (p : Project) (deps : List Dependency)
    (h : ∀ d ∈ deps, d.isRaw = true) :
    loadAccess (loadDependency fs env recurse method) this p deps =
      Except.ok (this, p.pushTokens method (rawTokens deps), deps) := by
  induction deps generalizing p with
  | nil => simp [loadAccess, rawTokens, Project.pushTokens_nil]
  | cons d rest ih =>
    have hd := h d (List.mem_cons_self _ _)
    have hrest : ∀ d ∈ rest, d.isRaw = true := fun x hx => h x (List.mem_cons_of_mem _ hx)
    cases d with
    | raw rawDep =>
      simp only [loadAccess, loadDependency, rawTokens]
      rw [ih _ hrest, Project.pushTokens_cons]
    | self s => simp [Dependency.isRaw] at hd
    | package pd => simp [Dependency.isRaw] at hd

theorem loadProject_raw (fs : Fs) (env : Env)
    (recurse : Premake5 → Package → Except Error (Premake5 × Package))
    (this : Premake5) (p : Project) (h : p.allRaw) :
    loadProject (loadDependency fs env recurse) this p = Except.ok (this, p.withRawTokens) := by
  obtain ⟨h1, h2, h3⟩ := h
  have hdeps : ∀ (q : Project) (m : AccessType) (t : List String),
      (q.pushTokens m t).dependencies = q.dependencies := fun _ _ _ => rfl
  unfold loadProject
  rw [loadAccess_raw fs env recurse AccessType.Private this p _ h1]
  simp only [hdeps]
  rw [loadAccess_raw fs env recurse AccessType.Public this _ _ h2]
  simp only [hdeps]
  rw [loadAccess_raw fs env recurse AccessType.Interface this _ _ h3]
  rfl

theorem loadProjects_raw (fs : Fs) (env : Env)
    (recurse : Premake5 → Package → Except Error (Premake5 × Package))
    (this : Premake5) (ps : List Project) (h : ∀ p ∈ ps, p.allRaw) :
    loadProjects (loadDependency fs env recurse) this ps =
      Except.ok (this, ps.map Project.withRawTokens) := by
  induction ps with
  | nil => rfl
  | cons p rest ih =>
    simp only [loadProjects]
    rw [loadProject_raw fs env recurse this p (h p (List.mem_cons_self _ _))]
    simp only []
    rw [ih (fun q hq => h q (List.mem_cons_of_mem _ hq))]
    rfl

theorem loadProjects_raw_at (fs : Fs) (env : Env)
    (recurse : Premake5 → Package → Except Error (Premake5 × Package))
    (this this' : Premake5) (ps ps' : List Project)
    (hrun : loadProjects (loadDependency fs env recurse) this ps = Except.ok (this', ps'))
    (i : Nat) (p : Project) (hp : ps[i]? = some p) (h : p.allRaw) :
    ps'[i]? = some p.withRawTokens := by
  induction ps generalizing this ps' i with
  | nil => simp at hp
  | cons q rest ih =>
    simp only [loadProjects] at hrun
    cases hq : loadProject (loadDependency fs env recurse) this q with
    | error e => rw [hq] at hrun; cases hrun
    | ok r =>
      obtain ⟨this1, q'⟩ := r
      rw [hq] at hrun
      simp only [] at hrun
      cases hr : loadProjects (loadDependency fs env recurse) this1 rest with
      | error e => rw [hr] at hrun; cases hrun
      | ok r2 =>
        obtain ⟨this2, rest'⟩ := r2
        rw [hr] at hrun
        simp only [Except.ok.injEq, Prod.mk.injEq] at hrun
        obtain ⟨hthis', hps'⟩ := hrun
        subst hps'
        subst hthis'
        cases i with
        | zero =>
          simp only [List.getElem?_cons_zero, Option.some.injEq] at hp
          subst hp
          rw [loadProject_raw fs env recurse this q h] at hq
          simp only [Except.ok.injEq, Prod.mk.injEq] at hq
          simp [hq.2]
        | succ j =>
          simp only [List.getElem?_cons_succ] at hp ⊢
          exact ih this1 rest' hr j hp

theorem rawTokens_of_allRaw (deps : List Dependency) (h : ∀ d ∈ deps, d.isRaw = true) :
    deps = (rawTokens deps).map Dependency.raw := by
  induction deps with
  | nil => rfl
  | cons d rest ih =>
    have hd := h d (List.mem_cons_self _ _)
    cases d with
    | raw rawDep =>
      simp only [rawTokens, List.map_cons]
      rw [← ih (fun x hx => h x (List.mem_cons_of_mem _ hx))]
    | self s => simp [Dependency.isRaw] at hd
    | package pd => simp [Dependency.isRaw] at hd

/-- C13: for every project whose declared dependencies are all raw tokens, after
`Premake5::loadDependencies` the project's computed linked libraries at each tier equal their
old content followed by exactly the raw tokens declared at that tier, in declaration order,
and nothing else of the project changes. When all projects of the package are such, the run
returns, for every depth bound of at least one, and leaves the generator as it was; in any
run that returns, every such project of the package ends in this state. -/
theorem raw_dependencies_extend_linked_libraries (fs : Fs) (env : Env) (depth : Nat)
    (this : Premake5) (pkg_ : Package) :
    ((∀ p ∈ pkg_.projects, p.allRaw) →
      Premake5.loadDependencies fs env (depth + 1) this pkg_ =
        Except.ok (this, { pkg_ with projects := pkg_.projects.map Project.withRawTokens })) ∧
    (∀ (this' : Premake5) (pkg' : Package),
      Premake5.loadDependencies fs env (depth + 1) this pkg_ = Except.ok (this', pkg') →
      ∀ (i : Nat) (p : Project), pkg_.projects[i]? = some p → p.allRaw →
        pkg'.projects[i]? = some p.withRawTokens) ∧
    (∀ p : Project, p.allRaw →
      (∀ T, targetByAccessType p.dependencies.self T =
        (rawTokens (targetByAccessType p.dependencies.self T)).map Dependency.raw) ∧
      (∀ T, targetByAccessType p.withRawTokens.linkedLibraries.computed T =
        targetByAccessType p.linkedLibraries.computed T ++
          rawTokens (targetByAccessType p.dependencies.self T)) ∧
      p.withRawTokens.linkedLibraries.self = p.linkedLibraries.self ∧
      p.withRawTokens.defines = p.defines ∧
      p.withRawTokens.includeFolders = p.includeFolders ∧
      p.withRawTokens.linkerFolders = p.linkerFolders ∧
      p.withRawTokens.compilerOptions = p.compilerOptions ∧
      p.withRawTokens.linkerOptions = p.linkerOptions ∧
      p.withRawTokens.dependencies = p.dependencies ∧
      p.withRawTokens.files = p.files ∧
      p.withRawTokens.premakeFilters = p.premakeFilters ∧
      p.withRawTokens.name = p.name ∧
      p.withRawTokens.type = p.type) := by
  refine ⟨fun h => ?_, fun this' pkg' hrun i p hp h => ?_, fun p h => ?_⟩
  · simp only [Premake5.loadDependencies]
    rw [loadProjects_raw fs env _ this pkg_.projects h]
  · simp only [Premake5.loadDependencies] at hrun
    cases hr : loadProjects
        (loadDependency fs env (Premake5.loadDependencies fs env depth)) this
        pkg_.projects with
    | error e => rw [hr] at hrun; cases hrun
    | ok r =>
      obtain ⟨this1, ps'⟩ := r
      rw [hr] at hrun
      simp only [Except.ok.injEq, Prod.mk.injEq] at hrun
      obtain ⟨_, hpkg⟩ := hrun
      subst hpkg
      exact loadProjects_raw_at fs env _ this this1 pkg_.projects ps' hr i p hp h
  · obtain ⟨h1, h2, h3⟩ := h
    refine ⟨fun T => ?_, fun T => ?_, rfl, rfl, rfl, rfl, rfl, rfl, rfl, rfl, rfl, rfl, rfl⟩
    · cases T
      · exact rawTokens_of_allRaw _ h1
      · exact rawTokens_of_allRaw _ h2
      · exact rawTokens_of_allRaw _ h3
    · cases T <;> rfl

/-- Witness of C13: the resolver on `sampleRawPkg`. -/
theorem raw_dependencies_extend_linked_libraries_witness :
    (Premake5.loadDependencies sampleFs sampleEnv 1 Premake5.empty sampleRawPkg).toOption.map
        (fun r => (r.1, r.2.projects.map (fun p => p.linkedLibraries.computed))) =
      some (Premake5.empty,
        [{ private_ := ["old", "m", "dl"], public_ := ["pthread"], interface_ := [] }]) := by
  rw [(raw_dependencies_extend_linked_libraries sampleFs sampleEnv 0 Premake5.empty
    sampleRawPkg).1 (by
      intro p hp
      simp only [sampleRawPkg, Package.named, List.mem_singleton] at hp
      subst hp
      simp [Project.allRaw, Dependency.isRaw])]
  decide

/-! ### Dependencies on packages that are already registered, or lack the project -/

/-- C11, amended: when a project's package dependency resolves to a package whose root the
lookup `wasPackageLoaded` finds in the registry, the resolver performs no recursive
resolution of that package and no merge: the generator, the consuming project and the
dependency are left as they were, whatever the recursive call would do. -/
theorem registered_dependency_is_skipped (fs : Fs) (env : Env)
    (recurse : Premake5 → Package → Except Error (Premake5 × Package)) (method : AccessType)
    (this : Premake5) (p : Project) (pkgDep : PackageDependency) (pkg : Package)
    (hload : loadPackageByName fs env pkgDep.packageName = Except.ok pkg)
    (hfound : this.wasPackageLoaded fs pkg.root = true) :
    loadDependency fs env recurse method this p (Dependency.package pkgDep) =
      Except.ok (this, p, Dependency.package pkgDep) := by
  simp only [loadDependency, hload, hfound, if_true]

/-- Witness of the amended C11: the package "d" is registered and found; the dependency of
`sampleMain` on it changes nothing. -/
theorem registered_dependency_is_skipped_witness :
    loadDependency sampleFs sampleEnv (Premake5.loadDependencies sampleFs sampleEnv 1)
        AccessType.Public (Premake5.empty.register sampleFs sampleD) sampleMain
        (samplePackageDep "d") =
      Except.ok (Premake5.empty.register sampleFs sampleD, sampleMain, samplePackageDep "d") :=
  registered_dependency_is_skipped sampleFs sampleEnv _ AccessType.Public
    (Premake5.empty.register sampleFs sampleD) sampleMain _ sampleD rfl (by decide)

/-- C11, as stated, fails: the projects "x" and "y" of `sampleTwoConsumers` both depend
publicly on the package "d", whose project has the public define `D_API`. The resolver
registers and resolves "d" once, for "x", and merges it into "x"; for "y" the root of "d" is
found in the registry and the dependency is skipped, so the computed public defines of "y"
stay empty. -/
theorem second_consumer_gets_no_merge :
    (Premake5.loadDependencies sampleFs sampleEnv 2 Premake5.empty
        sampleTwoConsumers).toOption.map
        (fun r => (r.1.loadedRoots, r.1.configQueue.length,
          r.2.projects.map (fun p => (p.name, p.defines.computed.public_)))) =
      some (["/w/pacc_packages/d/cpackage.json"], 1, [("x", ["D_API"]), ("y", [])]) := by
  decide

/-- C17 fails on the code: the project of `sampleMissingProject` depends on the project
"nope" of the package "d", which has none of that name. `findProject` returns the null
pointer and the resolver dereferences it in the first merge; no exception for a missing
project is thrown. -/
theorem missing_project_is_dereferenced :
    Premake5.loadDependencies sampleFs sampleEnv 2 Premake5.empty sampleMissingProject =
      Except.error (Error.nullProject "nope") ∧
    sampleD.findProject "nope" = none :=
  ⟨rfl, by decide⟩

/-- C20 fails on the code: a registry that holds the root of "b" alone is ascending; the
sorted insertion of "d", whose root is greater, puts it in front, and the insertion of "c"
into the ascending registry of "b" and "d" puts it at the end: neither result is ascending
by root path. -/
theorem sorted_insert_breaks_ascending_order :
    (Premake5.empty.register sampleFs sampleB).loadedRoots.Pairwise
      (fun a b => sampleFs.lt a b = true) ∧
    ((Premake5.empty.register sampleFs sampleB).register sampleFs sampleD).loadedRoots =
      ["/w/pacc_packages/d/cpackage.json", "/w/pacc_packages/b/cpackage.json"] ∧
    ¬ ((Premake5.empty.register sampleFs sampleB).register sampleFs sampleD).loadedRoots.Pairwise
      (fun a b => sampleFs.lt a b = true) ∧
    ({ heap := [sampleB, sampleD], loadedPackages := [0, 1], configQueue := [] } :
      Premake5).loadedRoots.Pairwise (fun a b => sampleFs.lt a b = true) ∧
    (({ heap := [sampleB, sampleD], loadedPackages := [0, 1], configQueue := [] } :
      Premake5).register sampleFs sampleC).loadedRoots =
      ["/w/pacc_packages/b/cpackage.json", "/w/pacc_packages/d/cpackage.json",
        "/w/pacc_packages/c/cpackage.json"] := by
  decide

/-! ### Loading a package by name -/

theorem loadByNameFrom_ok_iff (fs : Fs) (env : Env) (h : Helpers) (name_ : String)
    (verReq_ : VersionReq) (cands : List String) (slot : Option (Option Package))
    (pkg : Package) :
    (Package.loadByNameFrom fs env h name_ verReq_ cands slot).1 = Except.ok pkg ↔
      ∃ before c after, cands = before ++ c :: after ∧
        env.load (fs.append c name_) = some pkg ∧
        h.versionReqTest verReq_ pkg.version = true ∧
        ∀ b ∈ before, ∀ q, env.load (fs.append b name_) = some q →
          h.versionReqTest verReq_ q.version = false := by
  induction cands generalizing slot with
  | nil =>
    simp only [Package.loadByNameFrom]
    constructor
    · intro hc; cases hc
    · rintro ⟨before, c, after, hc, _⟩
      cases before <;> cases hc
  | cons c rest ih =>
    simp only [Package.loadByNameFrom]
    cases hl : env.load (fs.append c name_) with
    | none =>
      simp only []
      rw [ih]
      constructor
      · rintro ⟨before, c', after, hc, h1, h2, h3⟩
        refine ⟨c :: before, c', after, by rw [hc]; rfl, h1, h2, ?_⟩
        intro b hb q hq
        rcases List.mem_cons.1 hb with hb | hb
        · subst hb; rw [hl] at hq; cases hq
        · exact h3 b hb q hq
      · rintro ⟨before, c', after, hc, h1, h2, h3⟩
        cases before with
        | nil =>
          simp only [List.nil_append, List.cons.injEq] at hc
          obtain ⟨hcc, _⟩ := hc
          subst hcc
          rw [hl] at h1; cases h1
        | cons b before' =>
          simp only [List.cons_append, List.cons.injEq] at hc
          obtain ⟨_, hrest⟩ := hc
          exact ⟨before', c', after, hrest, h1, h2,
            fun x hx => h3 x (List.mem_cons_of_mem _ hx)⟩
    | some q =>
      simp only []
      by_cases ht : h.versionReqTest verReq_ q.version = true
      · simp only [ht, if_true]
        constructor
        · intro hc
          simp only [Except.ok.injEq] at hc
          subst hc
          exact ⟨[], c, rest, rfl, hl, ht, fun b hb => by cases hb⟩
        · rintro ⟨before, c', after, hc, h1, h2, h3⟩
          cases before with
          | nil =>
            simp only [List.nil_append, List.cons.injEq] at hc
            obtain ⟨hcc, _⟩ := hc
            subst hcc
            rw [hl] at h1
            simp only [Option.some.injEq] at h1
            rw [h1]
          | cons b before' =>
            simp only [List.cons_append, List.cons.injEq] at hc
            obtain ⟨hcb, _⟩ := hc
            subst hcb
            have := h3 c (List.mem_cons_self _ _) q hl
            rw [ht] at this; cases this
      · have htf : h.versionReqTest verReq_ q.version = false := by
          cases hv : h.versionReqTest verReq_ q.version with
          | true => exact absurd hv ht
          | false => rfl
        simp only [htf, Bool.false_eq_true, if_false]
        rw [ih]
        constructor
        · rintro ⟨before, c', after, hc, h1, h2, h3⟩
          refine ⟨c :: before, c', after, by rw [hc]; rfl, h1, h2, ?_⟩
          intro b hb q' hq'
          rcases List.mem_cons.1 hb with hb | hb
          · subst hb
            rw [hl] at hq'
            simp only [Option.some.injEq] at hq'
            subst hq'
            exact htf
          · exact h3 b hb q' hq'
        · rintro ⟨before, c', after, hc, h1, h2, h3⟩
          cases before with
          | nil =>
            simp only [List.nil_append, List.cons.injEq] at hc
            obtain ⟨hcc, _⟩ := hc
            subst hcc
            rw [hl] at h1
            simp only [Option.some.injEq] at h1
            subst h1
            rw [htf] at h2; cases h2
          | cons b before' =>
            simp only [List.cons_append, List.cons.injEq] at hc
            obtain ⟨_, hrest⟩ := hc
            exact ⟨before', c', after, hrest, h1, h2,
              fun x hx => h3 x (List.mem_cons_of_mem _ hx)⟩

theorem loadByNameFrom_error_iff (fs : Fs) (env : Env) (h : Helpers) (name_ : String)
    (verReq_ : VersionReq) (cands : List String) (slot : Option (Option Package)) :
    ((Package.loadByNameFrom fs env h name_ verReq_ cands slot).1 =
        Except.error (PaccException.couldNotFindPackage name_) ↔
      ∀ c ∈ cands, ∀ q, env.load (fs.append c name_) = some q →
        h.versionReqTest verReq_ q.version = false) ∧
    (∀ e, (Package.loadByNameFrom fs env h name_ verReq_ cands slot).1 = Except.error e →
      e = PaccException.couldNotFindPackage name_) := by
  induction cands generalizing slot with
  | nil =>
    refine ⟨⟨fun _ c hc => (by cases hc), fun _ => rfl⟩, fun e he => ?_⟩
    have he' : (Except.error (PaccException.couldNotFindPackage name_) :
        Except PaccException Package) = Except.error e := he
    injection he' with he'
    exact he'.symm
  | cons c rest ih =>
    simp only [Package.loadByNameFrom]
    cases hl : env.load (fs.append c name_) with
    | none =>
      simp only []
      refine ⟨?_, (ih slot).2⟩
      rw [(ih slot).1]
      constructor
      · intro hr x hx q hq
        rcases List.mem_cons.1 hx with hx | hx
        · subst hx; rw [hl] at hq; cases hq
        · exact hr x hx q hq
      · intro hr x hx q hq
        exact hr x (List.mem_cons_of_mem _ hx) q hq
    | some q =>
      simp only []
      cases ht : h.versionReqTest verReq_ q.version with
      | true =>
        rw [if_pos rfl]
        refine ⟨⟨fun hc => (by cases hc), fun hr => ?_⟩, fun e he => (by cases he)⟩
        have := hr c (List.mem_cons_self _ _) q hl
        rw [ht] at this; cases this
      | false =>
        simp only [Bool.false_eq_true, if_false]
        refine ⟨?_, (ih _).2⟩
        rw [(ih _).1]
        constructor
        · intro hr x hx q' hq'
          rcases List.mem_cons.1 hx with hx | hx
          · subst hx
            rw [hl] at hq'
            simp only [Option.some.injEq] at hq'
            subst hq'
            exact ht
          · exact hr x hx q' hq'
        · intro hr x hx q' hq'
          exact hr x (List.mem_cons_of_mem _ hx) q' hq'

/-- C14: for every package name and version requirement, `Package::loadByName` examines the
candidate folders in the fixed order (`pacc_packages` of the working directory, its parent
directory, the global packages folder) and returns the package of the first candidate that
both loads and whose version satisfies the requirement: every candidate before it either
fails to load, and is skipped, or loads with a version that does not satisfy, and does not
stop the search. Whenever some candidate loads and satisfies, the call returns. -/
theorem loadByName_first_satisfying_candidate (fs : Fs) (env : Env) (h : Helpers)
    (name_ : String) (verReq_ : VersionReq) (slot : Option (Option Package)) :
    Package.candidates fs env =
      [fs.append env.current_path "pacc_packages", fs.append env.current_path "..",
        fs.append env.getPaccDataStorageFolder "packages"] ∧
    (∀ pkg : Package,
      (Package.loadByName fs env h name_ verReq_ slot).1 = Except.ok pkg ↔
        ∃ before c after, Package.candidates fs env = before ++ c :: after ∧
          env.load (fs.append c name_) = some pkg ∧
          h.versionReqTest verReq_ pkg.version = true ∧
          ∀ b ∈ before, ∀ q, env.load (fs.append b name_) = some q →
            h.versionReqTest verReq_ q.version = false) ∧
    ((∃ c ∈ Package.candidates fs env, ∃ q, env.load (fs.append c name_) = some q ∧
        h.versionReqTest verReq_ q.version = true) →
      ∃ pkg, (Package.loadByName fs env h name_ verReq_ slot).1 = Except.ok pkg) := by
  refine ⟨rfl, fun pkg => loadByNameFrom_ok_iff fs env h name_ verReq_ _ slot pkg, ?_⟩
  rintro ⟨c, hc, q, hq, ht⟩
  unfold Package.loadByName
  cases hr : (Package.loadByNameFrom fs env h name_ verReq_ (Package.candidates fs env)
      slot).1 with
  | ok pkg => exact ⟨pkg, rfl⟩
  | error e =>
    have he := (loadByNameFrom_error_iff fs env h name_ verReq_ _ slot).2 e hr
    subst he
    have := (loadByNameFrom_error_iff fs env h name_ verReq_ _ slot).1.1 hr c hc q hq
    rw [ht] at this; cases this

/-- C15, amended: `Package::loadByName` fails exactly when no candidate folder both loads
and has a version that satisfies the requirement, and then with the package-not-found
error; a candidate that loads with a version that does not satisfy does not keep the call
from failing. -/
theorem loadByName_fails_iff_no_satisfying_candidate (fs : Fs) (env : Env) (h : Helpers)
    (name_ : String) (verReq_ : VersionReq) (slot : Option (Option Package)) :
    ((∃ e, (Package.loadByName fs env h name_ verReq_ slot).1 = Except.error e) ↔
      ∀ c ∈ Package.candidates fs env, ∀ q, env.load (fs.append c name_) = some q →
        h.versionReqTest verReq_ q.version = false) ∧
    (∀ e, (Package.loadByName fs env h name_ verReq_ slot).1 = Except.error e →
      e = PaccException.couldNotFindPackage name_) := by
  have key := loadByNameFrom_error_iff fs env h name_ verReq_ (Package.candidates fs env) slot
  refine ⟨⟨?_, fun hr => ⟨_, key.1.2 hr⟩⟩, key.2⟩
  rintro ⟨e, he⟩
  have := key.2 e he
  subst this
  exact key.1.1 he

/-- Witness of C14: "lib" with the requirement of exactly 2.0.0. The first candidate does
not load, the second loads version 1.0.0, the third loads version 2.0.0 and is returned. -/
theorem loadByName_first_satisfying_candidate_witness :
    (Package.loadByName sampleFs sampleEnvLib sampleHelpers "lib" (sampleExact 2 0 0)
      none).1 = Except.ok sampleLibNew :=
  ((loadByName_first_satisfying_candidate sampleFs sampleEnvLib sampleHelpers "lib"
    (sampleExact 2 0 0) none).2.1 sampleLibNew).2
    ⟨["/w/pacc_packages", "/w/.."], "/home/u/.pacc/packages", [], rfl, rfl, rfl, by
      intro b hb q hq
      simp only [List.mem_cons, List.mem_singleton, List.mem_nil_iff, or_false] at hb
      rcases hb with hb | hb
      · subst hb
        have hn : sampleEnvLib.load (sampleFs.append "/w/pacc_packages" "lib") = none := rfl
        rw [hn] at hq
        cases hq
      · subst hb
        have hs : sampleEnvLib.load (sampleFs.append "/w/.." "lib") = some sampleLibOld := rfl
        rw [hs] at hq
        cases hq
        rfl⟩

/-- C15, as stated, fails: with the requirement of exactly 3.0.0 the candidate in the parent
directory loads "lib" (version 1.0.0), and so does the candidate in the global packages
folder (version 2.0.0), yet `Package::loadByName` fails with the package-not-found error. -/
theorem loadByName_fails_although_candidates_load :
    "/w/.." ∈ Package.candidates sampleFs sampleEnvLib ∧
    sampleEnvLib.load (sampleFs.append "/w/.." "lib") = some sampleLibOld ∧
    (Package.loadByName sampleFs sampleEnvLib sampleHelpers "lib" (sampleExact 3 0 0)
      none).1 = Except.error (PaccException.couldNotFindPackage "lib") :=
  ⟨by decide, rfl, rfl⟩

/-- Witness of the amended C15: the failing call for exactly 3.0.0, in which every candidate
that loads has a version that does not satisfy. -/
theorem loadByName_fails_iff_no_satisfying_candidate_witness :
    (Package.loadByName sampleFs sampleEnvLib sampleHelpers "lib" (sampleExact 3 0 0)
      none).1 = Except.error (PaccException.couldNotFindPackage "lib") ∧
    (∀ c ∈ Package.candidates sampleFs sampleEnvLib, ∀ q,
      sampleEnvLib.load (sampleFs.append c "lib") = some q →
        sampleHelpers.versionReqTest (sampleExact 3 0 0) q.version = false) :=
  ⟨rfl,
    (loadByName_fails_iff_no_satisfying_candidate sampleFs sampleEnvLib sampleHelpers "lib"
      (sampleExact 3 0 0) none).1.1 ⟨_, rfl⟩⟩

/-! ### Reading dependencies from the manifest -/

theorem readDependencyProjects_strings (ps : List Json) (acc : List String)
    (hps : ∀ e ∈ ps, e.type = JsonType.string) :
    readDependencyProjects ps acc = Except.ok (acc ++ ps.map Json.getString) := by
  induction ps generalizing acc with
  | nil => simp [readDependencyProjects]
  | cons e rest ih =>
    have he := hps e (List.mem_cons_self _ _)
    simp only [readDependencyProjects, require, he, if_true]
    rw [ih _ (fun x hx => hps x (List.mem_cons_of_mem _ hx))]
    simp

theorem readDependencyAccess_singleton (h : Helpers) (pkg_ : Package) (proj_ : Project)
    (item : Json) (dep : Dependency) (target_ : List Dependency)
    (hitem : readDependency h pkg_ proj_ item = Except.ok dep) :
    readDependencyAccess h pkg_ proj_ (Json.array [item]) target_ =
      Except.ok (target_ ++ [dep]) := by
  simp [readDependencyAccess, Json.type, Json.items, readDependencyItems, hitem]

/-- C18: a malformed version-requirement string never fails a dependency declaration. For a
string entry that is neither a "file:" nor a "self:" entry and whose branch part fails to
parse as a requirement, and for an object entry with a string "name", with well-formed
"projects" if any, and with a "version" string that fails to parse, `readDependencyAccess`
raises no error and pushes a package dependency whose version requirement is of the
unconstrained type `Any`. -/
theorem malformed_requirement_becomes_any (h : Helpers) (pkg_ : Package) (proj_ : Project) :
    (∀ s : String, startsWith s "file:" = false → startsWith s "self:" = false →
      h.versionReqFromString (h.parseLocation s).branch = none →
      ∃ pd : PackageDependency, pd.version.type = VersionReqType.Any ∧
        readDependency h pkg_ proj_ (Json.string s) = Except.ok (Dependency.package pd) ∧
        ∀ target_, readDependencyAccess h pkg_ proj_ (Json.array [Json.string s]) target_ =
          Except.ok (target_ ++ [Dependency.package pd])) ∧
    (∀ (fields : List (String × Json)) (name v : String),
      (Json.object fields).find "name" = some (Json.string name) →
      (Json.object fields).find "version" = some (Json.string v) →
      h.versionReqFromString v = none →
      (∀ ps, (Json.object fields).find "projects" = some (Json.array ps) →
        ∀ e ∈ ps, e.type = JsonType.string) →
      ∃ pd : PackageDependency, pd.version.type = VersionReqType.Any ∧
        readDependency h pkg_ proj_ (Json.object fields) = Except.ok (Dependency.package pd) ∧
        ∀ target_, readDependencyAccess h pkg_ proj_ (Json.array [Json.object fields])
            target_ = Except.ok (target_ ++ [Dependency.package pd])) := by
  constructor
  · intro s hfile hself hparse
    have hitem : readDependency h pkg_ proj_ (Json.string s) =
        Except.ok (Dependency.package
          { PackageDependency.empty with
            packageName := (h.parseLocation s).repository
            projects := PackageDependency.empty.projects ++ [(h.parseLocation s).repository]
            downloadLocation := s }) := by
      simp [readDependency, expect, Json.type, Json.getString, hfile, hself, hparse]
    exact ⟨_, rfl, hitem, fun target_ =>
      readDependencyAccess_singleton h pkg_ proj_ _ _ target_ hitem⟩
  · intro fields name v hname hversion hparse hprojects
    have hexp1 : expect JsonType.string (Json.object fields) = none := by
      simp [expect, Json.type]
    have hexp2 : expect JsonType.object (Json.object fields) = some (Json.object fields) := by
      simp [expect, Json.type]
    have hreq : requireSub JsonType.string (Json.object fields) "name" =
        Except.ok (Json.string name) := by
      simp [requireSub, hname, Json.type]
    have hver : expectSub JsonType.string (Json.object fields) "version" =
        some (Json.string v) := by
      simp [expectSub, hversion, Json.type]
    have hitem : ∃ targets : List String,
        readDependency h pkg_ proj_ (Json.object fields) =
          Except.ok (Dependency.package
            { PackageDependency.empty with
              packageName := name
              downloadLocation := h.stringFieldOr (Json.object fields) "from" ""
              projects := targets
              version := { PackageDependency.empty.version with type := VersionReqType.Any } }) := by
      unfold readDependency
      simp only [hexp1, hexp2, hreq, hver, Json.getString, hparse]
      cases hp : expectSub JsonType.array (Json.object fields) "projects" with
      | none => exact ⟨_, rfl⟩
      | some projects =>
        have hfind : ∃ ps, (Json.object fields).find "projects" = some (Json.array ps) ∧
            projects = Json.array ps := by
          unfold expectSub at hp
          cases hf : (Json.object fields).find "projects" with
          | none => rw [hf] at hp; cases hp
          | some it =>
            rw [hf] at hp
            simp only [] at hp
            cases it with
            | array ps =>
              simp only [Json.type, if_true, Option.some.injEq] at hp
              exact ⟨ps, rfl, hp.symm⟩
            | null => simp [Json.type] at hp
            | boolean b => simp [Json.type] at hp
            | number n => simp [Json.type] at hp
            | string s => simp [Json.type] at hp
            | object fs => simp [Json.type] at hp
        obtain ⟨ps, hps, hproj⟩ := hfind
        subst hproj
        simp only [Json.items]
        rw [readDependencyProjects_strings ps _ (hprojects ps hps)]
        exact ⟨_, rfl⟩
    obtain ⟨targets, hitem⟩ := hitem
    exact ⟨_, rfl, hitem, fun target_ =>
      readDependencyAccess_singleton h pkg_ proj_ _ _ target_ hitem⟩

/-- Witness of C18: the string entry "utils@newest" and the object entry with the name
"utils" and the version "newest"; "newest" does not parse as a requirement. -/
theorem malformed_requirement_becomes_any_witness :
    (∃ pd : PackageDependency, pd.version.type = VersionReqType.Any ∧
      readDependency sampleHelpers sampleUtilsPkg sampleMain (Json.string "utils@newest") =
        Except.ok (Dependency.package pd) ∧
      ∀ target_, readDependencyAccess sampleHelpers sampleUtilsPkg sampleMain
          (Json.array [Json.string "utils@newest"]) target_ =
        Except.ok (target_ ++ [Dependency.package pd])) ∧
    (∃ pd : PackageDependency, pd.version.type = VersionReqType.Any ∧
      readDependency sampleHelpers sampleUtilsPkg sampleMain
          (Json.object [("name", Json.string "utils"), ("version", Json.string "newest")]) =
        Except.ok (Dependency.package pd) ∧
      ∀ target_, readDependencyAccess sampleHelpers sampleUtilsPkg sampleMain
          (Json.array
            [Json.object [("name", Json.string "utils"), ("version", Json.string "newest")]])
          target_ =
        Except.ok (target_ ++ [Dependency.package pd])) :=
  ⟨(malformed_requirement_becomes_any sampleHelpers sampleUtilsPkg sampleMain).1
      "utils@newest" (by decide) (by decide) (by decide),
    (malformed_requirement_becomes_any sampleHelpers sampleUtilsPkg sampleMain).2
      [("name", Json.string "utils"), ("version", Json.string "newest")] "utils" "newest"
      rfl rfl (by decide) (fun ps hps => by simp [Json.find] at hps)⟩

theorem readDependencyProjects_error (ps : List Json) (acc : List String) (e : Json)
    (he : e ∈ ps) (hty : e.type ≠ JsonType.string) :
    ∃ x, readDependencyProjects ps acc = Except.error x := by
  induction ps generalizing acc with
  | nil => cases he
  | cons p rest ih =>
    simp only [readDependencyProjects, require]
    by_cases hp : p.type = JsonType.string
    · simp only [hp, if_true]
      rcases List.mem_cons.1 he with h1 | h1
      · subst h1; exact absurd hp hty
      · exact ih _ h1
    · simp only [hp, if_false]
      exact ⟨_, rfl⟩

theorem readDependency_malformed (h : Helpers) (pkg_ : Package) (proj_ : Project)
    (item : Json) (hbad : malformedDependency item) :
    ∃ x, readDependency h pkg_ proj_ item = Except.error x := by
  unfold readDependency
  rcases hbad with ⟨h1, h2⟩ | ⟨h1, h2⟩ | ⟨h1, ps, e, hps, he, hty⟩
  · simp only [expect, h1, h2, if_false]
    exact ⟨_, rfl⟩
  · have hs : item.type ≠ JsonType.string := by rw [h1]; decide
    simp only [expect, hs, h1, if_false, if_true, requireSub]
    cases hf : item.find "name" with
    | none => exact ⟨_, rfl⟩
    | some it =>
      simp only []
      by_cases hi : it.type = JsonType.string
      · cases it with
        | string s => exact absurd hf (h2 s)
        | null => simp [Json.type] at hi
        | boolean b => simp [Json.type] at hi
        | number n => simp [Json.type] at hi
        | array a => simp [Json.type] at hi
        | object o => simp [Json.type] at hi
      · simp only [hi, if_false]
        exact ⟨_, rfl⟩
  · have hs : item.type ≠ JsonType.string := by rw [h1]; decide
    simp only [expect, hs, h1, if_false, if_true]
    cases hr : requireSub JsonType.string item "name" with
    | error x => exact ⟨_, rfl⟩
    | ok name =>
      simp only [expectSub, hps, Json.type, if_true, Json.items]
      obtain ⟨x, hx⟩ := readDependencyProjects_error ps PackageDependency.empty.projects e he hty
      rw [hx]
      exact ⟨_, rfl⟩

theorem readDependencyItems_error (h : Helpers) (pkg_ : Package) (proj_ : Project)
    (items : List Json) (target_ : List Dependency) (item : Json) (hmem : item ∈ items)
    (hitem : ∃ x, readDependency h pkg_ proj_ item = Except.error x) :
    ∃ x, readDependencyItems h pkg_ proj_ items target_ = Except.error x := by
  induction items generalizing target_ with
  | nil => cases hmem
  | cons i rest ih =>
    simp only [readDependencyItems]
    cases hi : readDependency h pkg_ proj_ i with
    | error x => exact ⟨_, rfl⟩
    | ok dep =>
      simp only []
      rcases List.mem_cons.1 hmem with h1 | h1
      · subst h1
        obtain ⟨x, hx⟩ := hitem
        rw [hx] at hi
        cases hi
      · exact ih _ h1

theorem loadDependenciesFromJSON_invalid (h : Helpers) (pkg_ : Package) (project_ : Project)
    (projSelfDeps : AccessSplitVec Dependency) (root_ deps : Json)
    (hfind : root_.find "dependencies" = some deps) (h1 : deps.type ≠ JsonType.array)
    (h2 : deps.type ≠ JsonType.object) :
    loadDependenciesFromJSON h pkg_ project_ projSelfDeps root_ =
      Except.error PaccException.invalidDependenciesField := by
  simp only [loadDependenciesFromJSON, hfind, h1, h2, if_false]

/-- C19: malformed dependency shapes are fatal. `readDependencyAccess` throws when its input
is no array; it throws when some element of the array is neither a string nor an object, is
an object without a string "name", or is an object whose "projects" array has an element
that is no string; `loadConfigurationFromJSON` throws when the "dependencies" field is
neither an array nor an object. In each case the call ends in an exception and returns no
dependency list or configuration. -/
theorem malformed_dependencies_are_fatal (h : Helpers) (pkg_ : Package) (proj_ : Project) :
    (∀ (deps_ : Json) (target_ : List Dependency), deps_.type ≠ JsonType.array →
      readDependencyAccess h pkg_ proj_ deps_ target_ =
        Except.error PaccException.arrayRequired) ∧
    (∀ (items : List Json) (target_ : List Dependency) (item : Json), item ∈ items →
      malformedDependency item →
      ∃ x, readDependencyAccess h pkg_ proj_ (Json.array items) target_ = Except.error x) ∧
    (∀ item : Json, item.type ≠ JsonType.string → item.type ≠ JsonType.object →
      readDependency h pkg_ proj_ item = Except.error PaccException.invalidDependencyType) ∧
    (∀ (conf_ : Configuration) (root_ deps : Json),
      root_.find "dependencies" = some deps → deps.type ≠ JsonType.array →
      deps.type ≠ JsonType.object →
      ∃ x, loadConfigurationFromJSON h pkg_ proj_ conf_ root_ = Except.error x) := by
  refine ⟨fun deps_ target_ hty => ?_, fun items target_ item hmem hbad => ?_,
    fun item h1 h2 => ?_, fun conf_ root_ deps hfind h1 h2 => ?_⟩
  · simp only [readDependencyAccess, hty, ne_eq, not_false_eq_true, if_true]
  · simp only [readDependencyAccess, Json.type, ne_eq, not_true_eq_false, if_false, Json.items]
    exact readDependencyItems_error h pkg_ proj_ items target_ item hmem
      (readDependency_malformed h pkg_ proj_ item hbad)
  · simp only [readDependency, expect, h1, h2, if_false]
  · unfold loadConfigurationFromJSON
    cases h.symbolVisibilityFromString (h.stringFieldOr root_ "symbolVisibility" "Default") with
    | error x => exact ⟨_, rfl⟩
    | ok v0 =>
      simp only []
      cases loadVecOfStrField h root_ "files" false false with
      | error x => exact ⟨_, rfl⟩
      | ok v1 =>
        simp only []
        cases loadVecOfStrAccField h root_ "defines"
            (if proj_.type = ProjectType.Interface then AccessType.Interface
              else AccessType.Private) with
        | error x => exact ⟨_, rfl⟩
        | ok v2 =>
          simp only []
          cases loadVecOfStrAccField h root_ "includeFolders"
              (if proj_.type = ProjectType.Interface then AccessType.Interface
                else AccessType.Private) with
          | error x => exact ⟨_, rfl⟩
          | ok v3 =>
            simp only []
            cases loadVecOfStrAccField h root_ "linkerFolders"
                (if proj_.type = ProjectType.Interface then AccessType.Interface
                  else AccessType.Private) with
            | error x => exact ⟨_, rfl⟩
            | ok v4 =>
              simp only []
              cases loadVecOfStrAccField h root_ "compilerOptions"
                  (if proj_.type = ProjectType.Interface then AccessType.Interface
                    else AccessType.Private) with
              | error x => exact ⟨_, rfl⟩
              | ok v5 =>
                simp only []
                cases loadVecOfStrAccField h root_ "linkerOptions"
                    (if proj_.type = ProjectType.Interface then AccessType.Interface
                      else AccessType.Private) with
                | error x => exact ⟨_, rfl⟩
                | ok v6 =>
                  simp only []
                  rw [loadDependenciesFromJSON_invalid h pkg_ proj_ _ root_ deps hfind h1 h2]
                  exact ⟨_, rfl⟩

/-- Witness of C19: a string where the dependency array is expected; an array with a number
as second element; an array whose object has a "projects" array with a number; and a project
whose "dependencies" field is a string. -/
theorem malformed_dependencies_are_fatal_witness :
    readDependencyAccess sampleHelpers sampleUtilsPkg sampleMain (Json.string "utils") [] =
      Except.error PaccException.arrayRequired ∧
    (∃ x, readDependencyAccess sampleHelpers sampleUtilsPkg sampleMain
      (Json.array [Json.string "utils", Json.number 3]) [] = Except.error x) ∧
    (∃ x, readDependencyAccess sampleHelpers sampleUtilsPkg sampleMain
      (Json.array [Json.object [("name", Json.string "utils"),
        ("projects", Json.array [Json.string "utils", Json.number 3])]]) [] =
        Except.error x) ∧
    readDependency sampleHelpers sampleUtilsPkg sampleMain (Json.number 3) =
      Except.error PaccException.invalidDependencyType ∧
    (∃ x, loadConfigurationFromJSON sampleHelpers sampleUtilsPkg sampleMain
      Configuration.empty (Json.object [("dependencies", Json.string "utils")]) =
        Except.error x) :=
  ⟨(malformed_dependencies_are_fatal sampleHelpers sampleUtilsPkg sampleMain).1 _ _
      (by decide),
    (malformed_dependencies_are_fatal sampleHelpers sampleUtilsPkg sampleMain).2.1 _ _
      (Json.number 3) (List.mem_cons_of_mem _ (List.mem_cons_self _ _))
      (Or.inl ⟨by decide, by decide⟩),
    (malformed_dependencies_are_fatal sampleHelpers sampleUtilsPkg sampleMain).2.1 _ _
      (Json.object [("name", Json.string "utils"),
        ("projects", Json.array [Json.string "utils", Json.number 3])])
      (List.mem_cons_self _ _)
      (Or.inr (Or.inr ⟨by decide, [Json.string "utils", Json.number 3], Json.number 3, rfl,
        List.mem_cons_of_mem _ (List.mem_cons_self _ _), by decide⟩)),
    (malformed_dependencies_are_fatal sampleHelpers sampleUtilsPkg sampleMain).2.2.1 _
      (by decide) (by decide),
    (malformed_dependencies_are_fatal sampleHelpers sampleUtilsPkg sampleMain).2.2.2
      Configuration.empty _ (Json.string "utils") rfl (by decide) (by decide)⟩

/-! ### The registry seen as a list of roots -/

theorem lower_bound_go_map {α β γ : Type} (f : α → γ) (comp : γ → β → Bool) (xs : List α)
    (value : β) (turns first len : Nat) :
    lower_bound.go (fun a v => comp (f a) v) xs value turns first len =
      lower_bound.go comp (xs.map f) value turns first len := by
  induction turns generalizing first len with
  | zero => simp [lower_bound.go]
  | succ t ih =>
    rw [lower_bound.go, lower_bound.go]
    by_cases hl : len > 0
    · simp only [hl, if_true, List.getElem?_map]
      cases xs[first + len / 2]? with
      | none => rfl
      | some e => simp only [Option.map_some', ih]
    · simp only [hl, if_false]

theorem upper_bound_go_map {α β γ : Type} (f : α → γ) (comp : β → γ → Bool) (xs : List α)
    (value : β) (turns first len : Nat) :
    upper_bound.go (fun v a => comp v (f a)) xs value turns first len =
      upper_bound.go comp (xs.map f) value turns first len := by
  induction turns generalizing first len with
  | zero => simp [upper_bound.go]
  | succ t ih =>
    rw [upper_bound.go, upper_bound.go]
    by_cases hl : len > 0
    · simp only [hl, if_true, List.getElem?_map]
      cases xs[first + len / 2]? with
      | none => rfl
      | some e => simp only [Option.map_some', ih]
    · simp only [hl, if_false]

theorem wasPackageLoaded_eq_lookupRoots (fs : Fs) (g : Premake5) (r : String) :
    g.wasPackageLoaded fs r = lookupRoots fs.lt g.loadedRoots r := by
  unfold Premake5.wasPackageLoaded lookupRoots Premake5.loadedRoots lower_bound
  rw [lower_bound_go_map (fun e => (g.deref e).root) (fun e inserted => fs.lt e inserted)]
  simp only [List.length_map, List.getElem?_map]
  cases g.loadedPackages[lower_bound.go (fun e inserted => fs.lt e inserted)
      (List.map (fun e => (g.deref e).root) g.loadedPackages) r g.loadedPackages.length 0
      g.loadedPackages.length]? with
  | none => rfl
  | some e =>
    simp only [Option.map_some']
    by_cases h : (g.deref e).root = r
    · simp [h]
    · simp [h]

theorem insertAt_map {α β : Type} (f : α → β) (xs : List α) (i : Nat) (x : α) :
    (insertAt xs i x).map f = insertAt (xs.map f) i (f x) := by
  simp [insertAt, List.map_take, List.map_drop]

theorem mem_insertAt {α : Type} (xs : List α) (i : Nat) (x y : α) :
    y ∈ insertAt xs i x ↔ y = x ∨ y ∈ xs := by
  unfold insertAt
  rw [List.mem_append, List.mem_cons]
  constructor
  · rintro (h | h | h)
    · exact Or.inr (List.mem_of_mem_take h)
    · exact Or.inl h
    · exact Or.inr (List.mem_of_mem_drop h)
  · rintro (h | h)
    · exact Or.inr (Or.inl h)
    · rw [← List.take_append_drop i xs, List.mem_append] at h
      rcases h with h | h
      · exact Or.inl h
      · exact Or.inr (Or.inr h)

theorem mem_insertRoots (lt : String → String → Bool) (roots : List String) (r x : String) :
    x ∈ insertRoots lt roots r ↔ x = r ∨ x ∈ roots :=
  mem_insertAt roots _ r x

theorem loadedRoots_insertSorted (fs : Fs) (g : Premake5) (pkgPtr : Nat) :
    (g.insertSorted fs pkgPtr).loadedRoots =
      (insertAt g.loadedPackages
        (upper_bound (fun inserted e => fs.lt e inserted) g.loadedRoots (g.deref pkgPtr).root)
        pkgPtr).map (fun e => (g.deref e).root) := by
  unfold Premake5.insertSorted Premake5.loadedRoots upper_bound
  rw [upper_bound_go_map (fun e => (g.deref e).root) (fun inserted e => fs.lt e inserted)]
  simp only [List.length_map]
  rfl

theorem loadedRoots_insertSorted_eq (fs : Fs) (g : Premake5) (pkgPtr : Nat) :
    (g.insertSorted fs pkgPtr).loadedRoots =
      insertRoots fs.lt g.loadedRoots (g.deref pkgPtr).root := by
  rw [loadedRoots_insertSorted, insertAt_map]
  rfl

theorem lookupRoots_of_not_mem (lt : String → String → Bool) (roots : List String)
    (r : String) (h : r ∉ roots) : lookupRoots lt roots r = false := by
  unfold lookupRoots
  cases hx : roots[lower_bound (fun e inserted => lt e inserted) roots r]? with
  | none => rfl
  | some x =>
    have hmem : x ∈ roots := List.getElem?_mem hx
    have hne : x ≠ r := fun e => h (e ▸ hmem)
    simp [hne]

theorem lookup_misses_among_three (lt : String → String → Bool) (rB rC rD : String)
    (hBD : rB ≠ rD) (hCD : rC ≠ rD) (hlt : strictTotalOn lt [rB, rC, rD]) :
    lookupRoots lt (insertRoots lt (insertRoots lt (insertRoots lt [] rB) rD) rC) rD =
      false := by
  obtain ⟨hirr, htrans, htot⟩ := hlt
  have mC : rC ∈ [rB, rC, rD] := by simp
  have mD : rD ∈ [rB, rC, rD] := by simp
  have hDD := hirr rD mD
  have hd : lt rC rD = !lt rD rC := by
    cases c : lt rD rC with
    | true =>
      cases hyx : lt rC rD with
      | false => rfl
      | true =>
        have := htrans rD mD rC mC rD mD c hyx
        rw [hDD] at this
        cases this
    | false =>
      rcases htot rC mC rD mD hCD with h | h
      · simpa using h
      · rw [c] at h; cases h
  cases a : lt rB rD <;> cases b : lt rB rC <;> cases c : lt rD rC <;>
    simp [insertRoots, upper_bound, upper_bound.go, insertAt, lookupRoots, lower_bound,
      lower_bound.go, a, b, c, hd, hDD, hBD, hCD, Ne.symm hBD, Ne.symm hCD]

/-! ### The state of the generator along a run -/

theorem deref_append_left (g : Premake5) (pkg : Package) (e : Nat) (he : e < g.heap.length) :
    ({ g with heap := g.heap ++ [pkg] } : Premake5).deref e = g.deref e := by
  simp [Premake5.deref, List.getD_eq_getElem?_getD, List.getElem?_append_left he]

theorem deref_append_new (g : Premake5) (pkg : Package) :
    ({ g with heap := g.heap ++ [pkg] } : Premake5).deref g.heap.length = pkg := by
  simp [Premake5.deref, List.getD_eq_getElem?_getD]

theorem loadedRoots_append (g : Premake5) (pkg : Package) (hg : g.valid) :
    ({ g with heap := g.heap ++ [pkg] } : Premake5).loadedRoots = g.loadedRoots := by
  unfold Premake5.loadedRoots
  apply List.map_congr_left
  intro e he
  rw [deref_append_left g pkg e (hg e he)]

/-- The state in which the recursive call for a newly loaded package starts: the package is
in the arena, its pointer in the registry and its dependency in the queue. -/
theorem registration_state (fs : Fs) (g : Premake5) (pkg : Package) (dep : Dependency)
    (hg : g.valid) :
    ({ (g.makeShared pkg).1.insertSorted fs (g.makeShared pkg).2 with
        configQueue :=
          ((g.makeShared pkg).1.insertSorted fs (g.makeShared pkg).2).configQueue ++ [dep] } :
      Premake5).valid ∧
    ({ (g.makeShared pkg).1.insertSorted fs (g.makeShared pkg).2 with
        configQueue :=
          ((g.makeShared pkg).1.insertSorted fs (g.makeShared pkg).2).configQueue ++ [dep] } :
      Premake5).loadedRoots = insertRoots fs.lt g.loadedRoots pkg.root ∧
    ({ (g.makeShared pkg).1.insertSorted fs (g.makeShared pkg).2 with
        configQueue :=
          ((g.makeShared pkg).1.insertSorted fs (g.makeShared pkg).2).configQueue ++ [dep] } :
      Premake5).heap = g.heap ++ [pkg] := by
  refine ⟨?_, ?_, rfl⟩
  · intro e he
    have he' : e ∈ insertAt g.loadedPackages
        (upper_bound (fun inserted e => fs.lt ((g.makeShared pkg).1.deref e).root inserted)
          g.loadedPackages ((g.makeShared pkg).1.deref (g.makeShared pkg).2).root)
        g.heap.length := he
    rw [mem_insertAt] at he'
    show e < (g.heap ++ [pkg]).length
    rw [List.length_append, List.length_singleton]
    rcases he' with h | h
    · omega
    · have := hg e h
      omega
  · show ((g.makeShared pkg).1.insertSorted fs (g.makeShared pkg).2).loadedRoots = _
    rw [loadedRoots_insertSorted_eq]
    have h1 : (g.makeShared pkg).1.loadedRoots = g.loadedRoots := loadedRoots_append g pkg hg
    have h2 : (g.makeShared pkg).1.deref (g.makeShared pkg).2 = pkg := deref_append_new g pkg
    rw [h1, h2]

/-- Writing a resolved package back to its place in the arena keeps the registry as it is,
when the root of the package is the root that was there. -/
theorem resolved_state (g : Premake5) (ptr : Nat) (pkg' : Package) (hg : g.valid)
    (hroot : pkg'.root = (g.deref ptr).root) :
    ({ g with heap := g.heap.set ptr pkg' } : Premake5).valid ∧
    ({ g with heap := g.heap.set ptr pkg' } : Premake5).loadedRoots = g.loadedRoots ∧
    (∀ e, (({ g with heap := g.heap.set ptr pkg' } : Premake5).deref e).root =
      (g.deref e).root) ∧
    ({ g with heap := g.heap.set ptr pkg' } : Premake5).heap.length = g.heap.length := by
  have hderef : ∀ e, (({ g with heap := g.heap.set ptr pkg' } : Premake5).deref e).root =
      (g.deref e).root := by
    intro e
    simp only [Premake5.deref, List.getD_eq_getElem?_getD, List.getElem?_set]
    by_cases h : ptr = e
    · subst h
      by_cases hl : ptr < g.heap.length
      · simp only [if_true, hl]
        simp only [Premake5.deref, List.getD_eq_getElem?_getD] at hroot
        simpa using hroot
      · simp only [if_true, hl, if_false]
        rw [List.getElem?_eq_none (Nat.le_of_not_lt hl)]
    · simp only [h, if_false]
  refine ⟨?_, ?_, hderef, by simp⟩
  · intro e he
    show e < (g.heap.set ptr pkg').length
    rw [List.length_set]
    exact hg e he
  · unfold Premake5.loadedRoots
    apply List.map_congr_left
    intro e _
    exact hderef e

/-! ### One step of the resolver on a package that the lookup does not find -/

theorem loadDependency_fresh (fs : Fs) (env : Env)
    (recurse : Premake5 → Package → Except Error (Premake5 × Package)) (method : AccessType)
    (g : Premake5) (p : Project) (pkgDep : PackageDependency) (pkg : Package)
    (g' : Premake5) (pkg' : Package) (p' : Project)
    (hload : loadPackageByName fs env pkgDep.packageName = Except.ok pkg)
    (hmiss : g.wasPackageLoaded fs pkg.root = false)
    (hrec : recurse
        { (g.makeShared pkg).1.insertSorted fs (g.makeShared pkg).2 with
          configQueue :=
            ((g.makeShared pkg).1.insertSorted fs (g.makeShared pkg).2).configQueue ++
              [Dependency.package { pkgDep with package := some (g.makeShared pkg).2 }] }
        pkg = Except.ok (g', pkg'))
    (hmerge : mergeRemoteProjects fs pkg' method p pkgDep.projects = Except.ok p') :
    loadDependency fs env recurse method g p (Dependency.package pkgDep) =
      Except.ok ({ g' with heap := g'.heap.set g.heap.length pkg' }, p',
        Dependency.package { pkgDep with package := some g.heap.length }) := by
  simp only [loadDependency, hload, hmiss, Bool.false_eq_true, if_false]
  rw [hrec]
  simp only [hmerge]
  rfl

theorem mergeRemoteProjects_single (fs : Fs) (pkg : Package) (method : AccessType)
    (p remoteProj : Project) (name : String)
    (hfind : pkg.findProject name = some remoteProj) :
    mergeRemoteProjects fs pkg method p [name] =
      Except.ok (mergeRemoteProject fs pkg method p remoteProj) := by
  simp only [mergeRemoteProjects, hfind]

theorem mergeRemoteProject_defines (fs : Fs) (pkg : Package) (method : AccessType)
    (p remoteProj : Project) :
    (mergeRemoteProject fs pkg method p remoteProj).defines =
      mergeAccesses p.defines remoteProj.defines method none := rfl

theorem mergeRemoteProject_dependencies (fs : Fs) (pkg : Package) (method : AccessType)
    (p remoteProj : Project) :
    (mergeRemoteProject fs pkg method p remoteProj).dependencies = p.dependencies := rfl

theorem mergeRemoteProject_name (fs : Fs) (pkg : Package) (method : AccessType)
    (p remoteProj : Project) :
    (mergeRemoteProject fs pkg method p remoteProj).name = p.name := rfl

theorem loadDependencies_raw (fs : Fs) (env : Env) (depth : Nat) (g : Premake5)
    (pkg_ : Package) (h : ∀ p ∈ pkg_.projects, p.allRaw) :
    Premake5.loadDependencies fs env (depth + 1) g pkg_ =
      Except.ok (g, { pkg_ with projects := pkg_.projects.map Project.withRawTokens }) := by
  simp only [Premake5.loadDependencies]
  rw [loadProjects_raw fs env _ g pkg_.projects h]

/-- A dependency on a package without package dependencies of its own, which the lookup
does not find: the package is registered and its target project merged. -/
theorem loadDependency_leaf (fs : Fs) (env : Env) (depth : Nat) (method : AccessType)
    (g : Premake5) (p : Project) (dD : PackageDependency) (D : Package) (pD : Project)
    (hg : g.valid) (hload : loadPackageByName fs env dD.packageName = Except.ok D)
    (hmiss : lookupRoots fs.lt g.loadedRoots D.root = false)
    (hD : D.projects = [pD]) (hraw : pD.allRaw) (hproj : dD.projects = [pD.name]) :
    ∃ g' dep', loadDependency fs env (Premake5.loadDependencies fs env (depth + 1)) method g p
        (Dependency.package dD) =
        Except.ok (g', mergeRemoteProject fs D method p pD.withRawTokens, dep') ∧
      g'.valid ∧ g'.loadedRoots = insertRoots fs.lt g.loadedRoots D.root ∧
      g.heap.length < g'.heap.length ∧
      ∀ e, e < g.heap.length → (g'.deref e).root = (g.deref e).root := by
  have hallraw : ∀ q ∈ D.projects, q.allRaw := by
    intro q hq
    rw [hD, List.mem_singleton] at hq
    rw [hq]
    exact hraw
  obtain ⟨hv, hr, hh⟩ := registration_state fs g D
    (Dependency.package { dD with package := some (g.makeShared D).2 }) hg
  have hset := resolved_state _ g.heap.length
    { D with projects := D.projects.map Project.withRawTokens } hv (by
      rw [Premake5.deref, hh]
      simp [List.getD_eq_getElem?_getD])
  refine ⟨_, _, loadDependency_fresh fs env _ method g p dD D _ _ _ hload
    (by rw [wasPackageLoaded_eq_lookupRoots]; exact hmiss)
    (loadDependencies_raw fs env depth _ D hallraw) ?_, hset.1, ?_, ?_, ?_⟩
  · rw [hproj]
    have hfind : ({ D with projects := D.projects.map Project.withRawTokens } :
        Package).findProject pD.name = some pD.withRawTokens := by
      simp [Package.findProject, hD, Project.withRawTokens]
    rw [mergeRemoteProjects_single fs _ method p _ _ hfind]
    rfl
  · rw [hset.2.1, hr]
  · rw [hset.2.2.2, hh, List.length_append, List.length_singleton]
    omega
  · intro e he
    rw [hset.2.2.1 e]
    have := deref_append_left g D e he
    simp only [Premake5.deref] at this ⊢
    rw [hh]
    exact congrArg Package.root this

theorem Project.eta_private (p : Project) (l : List Dependency)
    (h : p.dependencies.self.private_ = l) :
    ({ p with
      dependencies := { p.dependencies with
        self := { p.dependencies.self with private_ := l } } } : Project) = p := by
  subst h
  rfl

/-- The loop over the tiers for a project that declares public dependencies only. -/
theorem loadProject_public_only
    (step : AccessType → Premake5 → Project → Dependency →
      Except Error (Premake5 × Project × Dependency))
    (g g' : Premake5) (p p' : Project) (deps' : List Dependency)
    (hpriv : p.dependencies.self.private_ = [])
    (hint : p.dependencies.self.interface_ = [])
    (hrun : loadAccess (step AccessType.Public) g p p.dependencies.self.public_ =
      Except.ok (g', p', deps'))
    (hkeep : p'.dependencies = p.dependencies) :
    loadProject step g p =
      Except.ok (g', { p' with
        dependencies := { p'.dependencies with
          self := { p'.dependencies.self with public_ := deps' } } }) := by
  unfold loadProject
  rw [hpriv]
  simp only [loadAccess]
  rw [Project.eta_private p [] hpriv, hrun]
  simp only []
  have hi : p'.dependencies.self.interface_ = [] := by rw [hkeep]; exact hint
  rw [hi]
  simp only [loadAccess]

/-- The resolution of a package whose single project depends publicly on one package
without package dependencies, which the lookup does not find. -/
theorem loadDependencies_over_leaf (fs : Fs) (env : Env) (depth : Nat) (g : Premake5)
    (B D : Package) (pB pD : Project) (dD : PackageDependency)
    (hg : g.valid) (hB : B.projects = [pB])
    (hBdeps : pB.dependencies.self =
      { private_ := [], public_ := [Dependency.package dD], interface_ := [] })
    (hload : loadPackageByName fs env dD.packageName = Except.ok D)
    (hmiss : lookupRoots fs.lt g.loadedRoots D.root = false)
    (hD : D.projects = [pD]) (hraw : pD.allRaw) (hproj : dD.projects = [pD.name]) :
    ∃ g' pB', Premake5.loadDependencies fs env (depth + 2) g B =
        Except.ok (g', { B with projects := [pB'] }) ∧
      pB'.defines = mergeAccesses pB.defines pD.defines AccessType.Public none ∧
      pB'.name = pB.name ∧
      g'.valid ∧ g'.loadedRoots = insertRoots fs.lt g.loadedRoots D.root ∧
      g.heap.length < g'.heap.length ∧
      ∀ e, e < g.heap.length → (g'.deref e).root = (g.deref e).root := by
  obtain ⟨g', dep', hstep, hv, hr, hlen, hpres⟩ :=
    loadDependency_leaf fs env depth AccessType.Public g pB dD D pD hg hload hmiss hD hraw hproj
  have hpriv : pB.dependencies.self.private_ = [] := by rw [hBdeps]
  have hint : pB.dependencies.self.interface_ = [] := by rw [hBdeps]
  have hpub : pB.dependencies.self.public_ = [Dependency.package dD] := by rw [hBdeps]
  have hrun : loadAccess
      (loadDependency fs env (Premake5.loadDependencies fs env (depth + 1)) AccessType.Public)
      g pB pB.dependencies.self.public_ =
      Except.ok (g', mergeRemoteProject fs D AccessType.Public pB pD.withRawTokens, [dep']) := by
    rw [hpub]
    simp only [loadAccess, hstep]
  have hproject := loadProject_public_only
    (loadDependency fs env (Premake5.loadDependencies fs env (depth + 1))) g g' pB _ _
    hpriv hint hrun rfl
  have hres : Premake5.loadDependencies fs env (depth + 2) g B =
      Except.ok (g', { B with
        projects :=
          [{ mergeRemoteProject fs D AccessType.Public pB pD.withRawTokens with
             dependencies :=
               { (mergeRemoteProject fs D AccessType.Public pB pD.withRawTokens).dependencies
                 with
                 self :=
                   { (mergeRemoteProject fs D AccessType.Public pB
                       pD.withRawTokens).dependencies.self with public_ := [dep'] } } }] }) := by
    rw [Premake5.loadDependencies, hB]
    simp only [loadProjects, hproject]
  exact ⟨g', _, hres, rfl, rfl, hv, hr, hlen, hpres⟩

/-- A dependency on a package whose single project depends publicly on one package without
package dependencies; the lookup finds neither of the two. -/
theorem loadDependency_over_leaf (fs : Fs) (env : Env) (depth : Nat) (method : AccessType)
    (g : Premake5) (p : Project) (B D : Package) (pB pD : Project)
    (dB dD : PackageDependency) (hg : g.valid)
    (hloadB : loadPackageByName fs env dB.packageName = Except.ok B)
    (hmissB : lookupRoots fs.lt g.loadedRoots B.root = false)
    (hB : B.projects = [pB])
    (hBdeps : pB.dependencies.self =
      { private_ := [], public_ := [Dependency.package dD], interface_ := [] })
    (hprojB : dB.projects = [pB.name])
    (hloadD : loadPackageByName fs env dD.packageName = Except.ok D)
    (hmissD : lookupRoots fs.lt (insertRoots fs.lt g.loadedRoots B.root) D.root = false)
    (hD : D.projects = [pD]) (hraw : pD.allRaw) (hprojD : dD.projects = [pD.name]) :
    ∃ g' p' dep', loadDependency fs env (Premake5.loadDependencies fs env (depth + 2)) method
        g p (Dependency.package dB) = Except.ok (g', p', dep') ∧
      p'.defines = mergeAccesses p.defines
        (mergeAccesses pB.defines pD.defines AccessType.Public none) method none ∧
      p'.dependencies = p.dependencies ∧
      g'.valid ∧
      g'.loadedRoots = insertRoots fs.lt (insertRoots fs.lt g.loadedRoots B.root) D.root := by
  obtain ⟨hv, hr, hh⟩ := registration_state fs g B
    (Dependency.package { dB with package := some (g.makeShared B).2 }) hg
  obtain ⟨g2, pB', hrec, hdef, hname, hv2, hr2, hlen2, hpres2⟩ :=
    loadDependencies_over_leaf fs env depth _ B D pB pD dD hv hB hBdeps hloadD
      (by rw [hr]; exact hmissD) hD hraw hprojD
  have hfind : ({ B with projects := [pB'] } : Package).findProject pB.name = some pB' := by
    simp [Package.findProject, hname]
  have hstep := loadDependency_fresh fs env _ method g p dB B g2 { B with projects := [pB'] }
    _ hloadB (by rw [wasPackageLoaded_eq_lookupRoots]; exact hmissB) hrec
    (by rw [hprojB]; exact mergeRemoteProjects_single fs _ method p pB' pB.name hfind)
  have hptr : g.heap.length < (g.heap ++ [B]).length := by
    rw [List.length_append, List.length_singleton]; omega
  have hset := resolved_state g2 g.heap.length { B with projects := [pB'] } hv2 (by
    rw [hpres2 g.heap.length (by rw [hh]; exact hptr)]
    show B.root = ((g.heap ++ [B]).getD g.heap.length default).root
    simp [List.getD_eq_getElem?_getD])
  refine ⟨_, _, _, hstep, ?_, rfl, hset.1, ?_⟩
  · rw [mergeRemoteProject_defines, hdef]
  · rw [hset.2.1, hr2, hr]

/-! ### The diamond -/

theorem count_visible_merge (a b : SelfAndComputed VecOfStrAcc) (v : String) :
    List.count v (visible (mergeAccesses a b AccessType.Public none)) =
      List.count v (visible a) + List.count v (visible b) := by
  simp only [visible, mergeAccesses, setByAccessType, targetByAccessType, mergeFields,
    List.count_append]
  omega

/-- The diamond on this code: for a diamond `A → B`, `A → C`, `B → D`, `C → D` of
single-project packages with all dependencies public, resolved from the empty registry with
a depth bound of at least three, the run returns and the computed public defines of the
project of `A` are their old content followed by the visible defines of the resolved `B` and
of the resolved `C`, each of which holds the visible defines of `D`: the lookup of `D` under
`C` misses among the three registered roots, so `D` is merged under `C` as it was under `B`.
Hence every define occurs there as often as before, plus as often as in the visible defines
of `B` and of `C`, plus twice as often as in the visible defines of `D`. The other defines
lists of `A` are unchanged. -/
theorem diamond_defines_arrive_twice (fs : Fs) (env : Env) (depth : Nat) (d : Diamond)
    (h : d.wellFormed fs env) :
    ∃ g pA', Premake5.loadDependencies fs env (depth + 3) Premake5.empty d.A =
        Except.ok (g, { d.A with projects := [pA'] }) ∧
      pA'.defines.computed.public_ =
        d.pA.defines.computed.public_ ++
          visible (mergeAccesses d.pB.defines d.pD.defines AccessType.Public none) ++
          visible (mergeAccesses d.pC.defines d.pD.defines AccessType.Public none) ∧
      pA'.defines.computed.private_ = d.pA.defines.computed.private_ ∧
      pA'.defines.computed.interface_ = d.pA.defines.computed.interface_ ∧
      pA'.defines.self = d.pA.defines.self ∧
      (∀ v, List.count v pA'.defines.computed.public_ =
        List.count v d.pA.defines.computed.public_ + List.count v (visible d.pB.defines) +
          List.count v (visible d.pC.defines) + 2 * List.count v (visible d.pD.defines)) ∧
      (∀ v, v ∉ d.pA.defines.computed.public_ → v ∉ visible d.pB.defines →
        v ∉ visible d.pC.defines →
        List.count v pA'.defines.computed.public_ =
          2 * List.count v (visible d.pD.defines)) := by
  obtain ⟨hA, hB, hC, hD, hAdeps, hBdeps, hCdeps, hDdeps, htoB, htoC, hfromB, hfromC,
    hloadB, hloadC, hloadBD, hloadCD, hBC, hBD, hCD, hlt⟩ := h
  have hraw : d.pD.allRaw := by
    simp [Project.allRaw, hDdeps]
  have hempty : Premake5.empty.valid := fun e he => by cases he
  have hroots0 : Premake5.empty.loadedRoots = [] := rfl
  obtain ⟨g1, p1, dep1, hstep1, hdef1, hkeep1, hv1, hr1⟩ :=
    loadDependency_over_leaf fs env depth AccessType.Public Premake5.empty d.pA d.B d.D d.pB
      d.pD d.toB d.fromB hempty hloadB
      (lookupRoots_of_not_mem _ _ _ (by rw [hroots0]; exact List.not_mem_nil _))
      hB hBdeps htoB hloadBD
      (lookupRoots_of_not_mem _ _ _ (by
        rw [hroots0, mem_insertRoots]
        rintro (h | h)
        · exact hBD h.symm
        · cases h))
      hD hraw hfromB
  rw [hroots0] at hr1
  obtain ⟨g2, p2, dep2, hstep2, hdef2, hkeep2, hv2, hr2⟩ :=
    loadDependency_over_leaf fs env depth AccessType.Public g1 p1 d.C d.D d.pC
      d.pD d.toC d.fromC hv1 hloadC
      (lookupRoots_of_not_mem _ _ _ (by
        rw [hr1, mem_insertRoots, mem_insertRoots]
        rintro (h | h | h)
        · exact hCD h
        · exact hBC h.symm
        · cases h))
      hC hCdeps htoC hloadCD
      (by rw [hr1]; exact lookup_misses_among_three fs.lt _ _ _ hBD hCD hlt)
      hD hraw hfromC
  have hpriv : d.pA.dependencies.self.private_ = [] := by rw [hAdeps]
  have hint : d.pA.dependencies.self.interface_ = [] := by rw [hAdeps]
  have hpub : d.pA.dependencies.self.public_ =
      [Dependency.package d.toB, Dependency.package d.toC] := by rw [hAdeps]
  have hrun : loadAccess
      (loadDependency fs env (Premake5.loadDependencies fs env (depth + 2)) AccessType.Public)
      Premake5.empty d.pA d.pA.dependencies.self.public_ =
      Except.ok (g2, p2, [dep1, dep2]) := by
    rw [hpub]
    simp only [loadAccess, hstep1, hstep2]
  have hproject := loadProject_public_only
    (loadDependency fs env (Premake5.loadDependencies fs env (depth + 2))) Premake5.empty g2
    d.pA p2 _ hpriv hint hrun (by rw [hkeep2, hkeep1])
  have hres : Premake5.loadDependencies fs env (depth + 3) Premake5.empty d.A =
      Except.ok (g2, { d.A with
        projects :=
          [{ p2 with
             dependencies := { p2.dependencies with
               self := { p2.dependencies.self with public_ := [dep1, dep2] } } }] }) := by
    rw [Premake5.loadDependencies, hA]
    simp only [loadProjects, hproject]
  have hdefines : p2.defines =
      mergeAccesses
        (mergeAccesses d.pA.defines
          (mergeAccesses d.pB.defines d.pD.defines AccessType.Public none)
          AccessType.Public none)
        (mergeAccesses d.pC.defines d.pD.defines AccessType.Public none)
        AccessType.Public none := by
    rw [hdef2, hdef1]
  have hpublic : p2.defines.computed.public_ =
      d.pA.defines.computed.public_ ++
        visible (mergeAccesses d.pB.defines d.pD.defines AccessType.Public none) ++
        visible (mergeAccesses d.pC.defines d.pD.defines AccessType.Public none) := by
    rw [hdefines]
    show targetByAccessType _ AccessType.Public = _
    rw [mergeAccesses_target_none, mergeAccesses_target_none]
    rfl
  have hcount : ∀ v, List.count v p2.defines.computed.public_ =
      List.count v d.pA.defines.computed.public_ + List.count v (visible d.pB.defines) +
        List.count v (visible d.pC.defines) + 2 * List.count v (visible d.pD.defines) := by
    intro v
    rw [hpublic, List.count_append, List.count_append, count_visible_merge,
      count_visible_merge]
    omega
  refine ⟨g2, _, hres, hpublic, ?_, ?_, ?_, hcount, ?_⟩
  · show p2.defines.computed.private_ = _
    rw [hdefines]; rfl
  · show p2.defines.computed.interface_ = _
    rw [hdefines]; rfl
  · show p2.defines.self = _
    rw [hdefines]; rfl
  · intro v h1 h2 h3
    have := hcount v
    rw [List.count_eq_zero_of_not_mem h1, List.count_eq_zero_of_not_mem h2,
      List.count_eq_zero_of_not_mem h3] at this
    simpa using this

/-- The sample diamond, in which `D_API` is the one visible define of "d" and occurs in no
defines list of "a", "b" or "c": after the run it occurs twice in the computed public
defines of "a". -/
theorem diamond_defines_arrive_twice_sample :
    ∃ g pA', Premake5.loadDependencies sampleFs sampleEnv 3 Premake5.empty sampleA =
        Except.ok (g, { sampleA with projects := [pA'] }) ∧
      List.count "D_API" pA'.defines.computed.public_ = 2 := by
  obtain ⟨g, pA', hres, _, _, _, _, _, hcount⟩ :=
    diamond_defines_arrive_twice sampleFs sampleEnv 0 sampleDiamond
      ⟨rfl, rfl, rfl, rfl, rfl, rfl, rfl, rfl, rfl, rfl, rfl, rfl, rfl, rfl, rfl, rfl,
        by decide, by decide, by decide, by unfold strictTotalOn; decide⟩
  exact ⟨g, pA', hres, by rw [hcount "D_API" (by decide) (by decide) (by decide)]; decide⟩

/-- Nothing is deduplicated: in the diamond in which "b" itself declares the public define
`D_API` of "d", that define occurs once in the visible defines of "d" and three times in the
computed public defines of "a" after the run: once through "d" and once of its own in the
visible defines of "b", and once through "c". -/
theorem diamond_define_also_declared_on_the_path :
    List.count "D_API" (visible (sampleD.projects.headD sampleMain).defines) = 1 ∧
    (Premake5.loadDependencies sampleFs sampleEnvDefineOfD 3 Premake5.empty
        sampleA).toOption.map
        (fun r => r.2.projects.map (fun p => p.defines.computed.public_)) =
      some [["D_API", "D_API", "D_API", "C_API"]] := by
  decide

theorem getLast?_cons_eq {α : Type} (x : α) (l : List α) :
    (x :: l).getLast? = some (l.getLast?.getD x) := by
  cases l with
  | nil => rfl
  | cons y ys =>
    rw [List.getLast?_cons_cons]
    cases h : (y :: ys).getLast? with
    | none => simp at h
    | some z => rfl

theorem loadByNameFrom_slot (fs : Fs) (env : Env) (h : Helpers) (name_ : String)
    (verReq_ : VersionReq) (cands : List String) (old : Option Package) :
    (Package.loadByNameFrom fs env h name_ verReq_ cands (some old)).2 =
      some ((((cands.filterMap (fun c => env.load (fs.append c name_))).takeWhile
        (fun pkg => !h.versionReqTest verReq_ pkg.version)).getLast?.map some).getD old) := by
  induction cands generalizing old with
  | nil => rfl
  | cons c rest ih =>
    simp only [Package.loadByNameFrom]
    cases hl : env.load (fs.append c name_) with
    | none =>
      simp only [List.filterMap_cons, hl]
      exact ih old
    | some q =>
      simp only [List.filterMap_cons, hl]
      cases ht : h.versionReqTest verReq_ q.version with
      | true =>
        simp [List.takeWhile_cons, ht]
      | false =>
        simp only [Bool.false_eq_true, if_false, List.takeWhile_cons, ht, Bool.not_false,
          if_true]
        rw [ih (some q), getLast?_cons_eq]
        cases ((rest.filterMap (fun c => env.load (fs.append c name_))).takeWhile
            (fun pkg => !h.versionReqTest verReq_ pkg.version)).getLast? with
        | none => rfl
        | some z => rfl

theorem loadByNameFrom_no_slot (fs : Fs) (env : Env) (h : Helpers) (name_ : String)
    (verReq_ : VersionReq) (cands : List String) :
    (Package.loadByNameFrom fs env h name_ verReq_ cands none).2 = none := by
  induction cands with
  | nil => rfl
  | cons c rest ih =>
    simp only [Package.loadByNameFrom]
    cases env.load (fs.append c name_) with
    | none => exact ih
    | some q =>
      simp only []
      cases h.versionReqTest verReq_ q.version with
      | true => rfl
      | false => simpa using ih

/-- C21: diagnostic retention in `Package::loadByName`. The candidates examined are those up
to the first one that loads and satisfies the requirement; the packages they load, in order
and without that satisfying one, are the mismatches. When a slot is supplied, after the call
(whether it returns or throws) the slot holds the last of these mismatches, and it holds what
it held before when there is none; without a slot there is nothing to hold. -/
theorem loadByName_keeps_last_mismatch (fs : Fs) (env : Env) (h : Helpers) (name_ : String)
    (verReq_ : VersionReq) (old : Option Package) :
    (Package.loadByName fs env h name_ verReq_ (some old)).2 =
      some (((((Package.candidates fs env).filterMap
          (fun c => env.load (fs.append c name_))).takeWhile
        (fun pkg => !h.versionReqTest verReq_ pkg.version)).getLast?.map some).getD old) ∧
    (Package.loadByName fs env h name_ verReq_ none).2 = none :=
  ⟨loadByNameFrom_slot fs env h name_ verReq_ _ old,
    loadByNameFrom_no_slot fs env h name_ verReq_ _⟩

/-! ### Entries of a dependency array -/

theorem startsWith_append (p x : String) : startsWith (p ++ x) p = true := by
  simp [startsWith, String.data_append, List.isPrefixOf_iff_prefix]

theorem substr_append (p x : String) : substr (p ++ x) p.data.length = x := by
  simp [substr, String.data_append]

theorem readDependency_file (h : Helpers) (pkg_ : Package) (proj_ : Project) (x : String) :
    readDependency h pkg_ proj_ (Json.string ("file:" ++ x)) = Except.ok (Dependency.raw x) := by
  have h1 := startsWith_append "file:" x
  have h2 : substr ("file:" ++ x) 5 = x := substr_append "file:" x
  simp [readDependency, expect, Json.type, Json.getString, h1, h2]

theorem startsWith_self_not_file (x : String) : startsWith ("self:" ++ x) "file:" = false := by
  simp [startsWith, String.data_append, List.isPrefixOf]

theorem readDependency_self (h : Helpers) (pkg_ : Package) (proj_ : Project) (x : String) :
    readDependency h pkg_ proj_ (Json.string ("self:" ++ x)) =
      Except.ok (Dependency.self
        { project := proj_.name, depProjName := x, package := pkg_.root }) := by
  have h0 := startsWith_self_not_file x
  have h1 := startsWith_append "self:" x
  have h2 : substr ("self:" ++ x) 5 = x := substr_append "self:" x
  simp [readDependency, expect, Json.type, Json.getString, h0, h1, h2]

theorem readDependency_other_string (h : Helpers) (pkg_ : Package) (proj_ : Project)
    (s : String) (hfile : startsWith s "file:" = false) (hself : startsWith s "self:" = false) :
    ∃ pd, readDependency h pkg_ proj_ (Json.string s) = Except.ok (Dependency.package pd) ∧
      pd.packageName = (h.parseLocation s).repository ∧
      pd.projects = [(h.parseLocation s).repository] ∧ pd.downloadLocation = s := by
  simp only [readDependency, expect, Json.type, if_true, Json.getString, hfile, hself,
    Bool.false_eq_true, if_false]
  cases h.versionReqFromString (h.parseLocation s).branch with
  | none => exact ⟨_, rfl, rfl, rfl, rfl⟩
  | some v => exact ⟨_, rfl, rfl, rfl, rfl⟩

theorem find_name_string (item : Json)
    (hname : ¬ ∀ name, item.find "name" ≠ some (Json.string name)) :
    ∃ name, requireSub JsonType.string item "name" = Except.ok (Json.string name) := by
  push_neg at hname
  obtain ⟨name, hn⟩ := hname
  exact ⟨name, by simp [requireSub, hn, Json.type]⟩

theorem readDependency_object (h : Helpers) (pkg_ : Package) (proj_ : Project) (item : Json)
    (name : String) (hobj : item.type = JsonType.object)
    (hname : requireSub JsonType.string item "name" = Except.ok (Json.string name))
    (targets : List String)
    (htargets :
      (match expectSub JsonType.array item "projects" with
        | some projects => readDependencyProjects projects.items []
        | none =>
          Except.ok [if (h.parseLocation (h.stringFieldOr item "from" "")).repository ≠ ""
            then (h.parseLocation (h.stringFieldOr item "from" "")).repository
            else name]) = Except.ok targets) :
    ∃ pd, readDependency h pkg_ proj_ item = Except.ok (Dependency.package pd) ∧
      pd.packageName = name ∧ pd.projects = targets := by
  have hs : item.type ≠ JsonType.string := by rw [hobj]; decide
  have hg : (Json.string name).getString = name := rfl
  simp only [readDependency, expect, hs, hobj, if_false, if_true, hname, hg,
    PackageDependency.empty, List.nil_append]
  rw [htargets]
  simp only []
  cases expectSub JsonType.string item "version" with
  | none => exact ⟨_, rfl, rfl, rfl⟩
  | some v =>
    simp only []
    cases h.versionReqFromString v.getString with
    | none => exact ⟨_, rfl, rfl, rfl⟩
    | some r => exact ⟨_, rfl, rfl, rfl⟩

theorem readDependency_valid (h : Helpers) (pkg_ : Package) (proj_ : Project) (item : Json)
    (hvalid : ¬ malformedDependency item) :
    ∃ dep, readDependency h pkg_ proj_ item = Except.ok dep := by
  simp only [malformedDependency, not_or] at hvalid
  obtain ⟨h1, h2, h3⟩ := hvalid
  by_cases hstr : item.type = JsonType.string
  · cases item with
    | string s =>
      by_cases hf : startsWith s "file:" = true
      · exact ⟨Dependency.raw (substr s 5),
          by simp [readDependency, expect, Json.type, Json.getString, hf]⟩
      · by_cases hsf : startsWith s "self:" = true
        · exact ⟨Dependency.self
            { project := proj_.name, depProjName := substr s 5, package := pkg_.root },
            by simp [readDependency, expect, Json.type, Json.getString, hf, hsf]⟩
        · obtain ⟨pd, hpd, _⟩ := readDependency_other_string h pkg_ proj_ s
            (by simpa using hf) (by simpa using hsf)
          exact ⟨_, hpd⟩
    | null => simp [Json.type] at hstr
    | boolean b => simp [Json.type] at hstr
    | number n => simp [Json.type] at hstr
    | array a => simp [Json.type] at hstr
    | object o => simp [Json.type] at hstr
  · have hobj : item.type = JsonType.object := by
      by_contra hne
      exact h1 ⟨hstr, hne⟩
    obtain ⟨name, hname⟩ := find_name_string item (fun hall => h2 ⟨hobj, hall⟩)
    cases hp : expectSub JsonType.array item "projects" with
    | none =>
      obtain ⟨pd, hpd, _⟩ := readDependency_object h pkg_ proj_ item name hobj hname _
        (by rw [hp])
      exact ⟨_, hpd⟩
    | some projects =>
      have hfind : item.find "projects" = some projects ∧ projects.type = JsonType.array := by
        unfold expectSub at hp
        cases hf : item.find "projects" with
        | none => rw [hf] at hp; cases hp
        | some it =>
          rw [hf] at hp
          by_cases hty : it.type = JsonType.array
          · simp only [hty, if_true, Option.some.injEq] at hp
            subst hp
            exact ⟨rfl, hty⟩
          · simp [hty] at hp
      cases projects with
      | array ps =>
        have hall : ∀ e ∈ ps, e.type = JsonType.string := by
          intro e he
          by_contra hne
          exact h3 ⟨hobj, ps, e, hfind.1, he, hne⟩
        obtain ⟨pd, hpd, _⟩ := readDependency_object h pkg_ proj_ item name hobj hname
          ([] ++ ps.map Json.getString)
          (by rw [hp]; exact readDependencyProjects_strings ps [] hall)
        exact ⟨_, hpd⟩
      | null => simp [Json.type] at hfind
      | boolean b => simp [Json.type] at hfind
      | number n => simp [Json.type] at hfind
      | string s => simp [Json.type] at hfind
      | object o => simp [Json.type] at hfind

theorem readDependencyItems_valid (h : Helpers) (pkg_ : Package) (proj_ : Project)
    (items : List Json) (target_ : List Dependency)
    (hvalid : ∀ item ∈ items, ∃ dep, readDependency h pkg_ proj_ item = Except.ok dep) :
    ∃ deps, readDependencyItems h pkg_ proj_ items target_ = Except.ok (target_ ++ deps) ∧
      List.Forall₂ (fun item dep => readDependency h pkg_ proj_ item = Except.ok dep)
        items deps := by
  induction items generalizing target_ with
  | nil => exact ⟨[], by simp [readDependencyItems], List.Forall₂.nil⟩
  | cons item rest ih =>
    obtain ⟨dep, hdep⟩ := hvalid item (List.mem_cons_self _ _)
    obtain ⟨deps, hrun, hall⟩ := ih (target_ ++ [dep])
      (fun x hx => hvalid x (List.mem_cons_of_mem _ hx))
    refine ⟨dep :: deps, ?_, List.Forall₂.cons hdep hall⟩
    simp only [readDependencyItems, hdep]
    rw [hrun]
    simp

/-- C25: `readDependencyAccess` on an array of valid entries (none of them malformed: each is
a string, or an object with a string "name" whose "projects", when an array, holds strings
only) returns the target list followed by exactly one dependency per entry, in array order,
each the dependency read from its entry. A string "file:X" is read as Raw(X), a string
"self:X" as a Self dependency with target project name X of the declaring project and
package, and every other string as a Package dependency named after the repository parsed
from the string, with that repository as its single target project. -/
theorem readDependencyAccess_one_dependency_per_entry (h : Helpers) (pkg_ : Package)
    (proj_ : Project) (items : List Json) (target_ : List Dependency)
    (hvalid : ∀ item ∈ items, ¬ malformedDependency item) :
    (∃ deps, readDependencyAccess h pkg_ proj_ (Json.array items) target_ =
        Except.ok (target_ ++ deps) ∧
      List.Forall₂ (fun item dep => readDependency h pkg_ proj_ item = Except.ok dep)
        items deps) ∧
    (∀ x, readDependency h pkg_ proj_ (Json.string ("file:" ++ x)) =
      Except.ok (Dependency.raw x)) ∧
    (∀ x, readDependency h pkg_ proj_ (Json.string ("self:" ++ x)) =
      Except.ok (Dependency.self
        { project := proj_.name, depProjName := x, package := pkg_.root })) ∧
    (∀ s, startsWith s "file:" = false → startsWith s "self:" = false →
      ∃ pd, readDependency h pkg_ proj_ (Json.string s) = Except.ok (Dependency.package pd) ∧
        pd.packageName = (h.parseLocation s).repository ∧
        pd.projects = [(h.parseLocation s).repository] ∧ pd.downloadLocation = s) := by
  refine ⟨?_, readDependency_file h pkg_ proj_, readDependency_self h pkg_ proj_,
    readDependency_other_string h pkg_ proj_⟩
  obtain ⟨deps, hrun, hall⟩ := readDependencyItems_valid h pkg_ proj_ items target_
    (fun item hi => readDependency_valid h pkg_ proj_ item (hvalid item hi))
  exact ⟨deps, by simpa [readDependencyAccess, Json.type, Json.items] using hrun, hall⟩
/-- Witness of C25: an array with a file, a project of the declaring package, a locator and
an object, read behind one dependency that the target already holds. -/
theorem readDependencyAccess_one_dependency_per_entry_witness :
    (∃ deps, readDependencyAccess sampleHelpers sampleUtilsPkg sampleMain
        (Json.array sampleEntries) [Dependency.raw "rt"] =
        Except.ok ([Dependency.raw "rt"] ++ deps) ∧
      List.Forall₂
        (fun item dep => readDependency sampleHelpers sampleUtilsPkg sampleMain item =
          Except.ok dep) sampleEntries deps) ∧
    readDependencyAccess sampleHelpers sampleUtilsPkg sampleMain
        (Json.array sampleEntries) [Dependency.raw "rt"] =
      Except.ok [Dependency.raw "rt", Dependency.raw "m",
        Dependency.self
          { project := "main", depProjName := "core", package := sampleUtilsPkg.root },
        Dependency.package
          { packageName := "fmt",
            version := { type := VersionReqType.Exact, version := ⟨1, 2, 3⟩ },
            projects := ["fmt"], downloadLocation := "fmt@1.2.3", package := none },
        Dependency.package
          { packageName := "z", version := VersionReq.any, projects := ["zlib-ng"],
            downloadLocation := "zlib-ng", package := none }] :=
  ⟨(readDependencyAccess_one_dependency_per_entry sampleHelpers sampleUtilsPkg sampleMain
      sampleEntries [Dependency.raw "rt"] (by
        intro item hi
        simp only [sampleEntries, List.mem_cons, List.mem_singleton, List.not_mem_nil,
          or_false] at hi
        rcases hi with rfl | rfl | rfl | rfl
        · simp [malformedDependency, Json.type]
        · simp [malformedDependency, Json.type]
        · simp [malformedDependency, Json.type]
        · simp [malformedDependency, Json.type, Json.find])).1,
    rfl⟩

/-! ### Target projects of an object dependency -/

theorem readDependencyProjects_length (ps : List Json) (acc targets : List String)
    (hrun : readDependencyProjects ps acc = Except.ok targets) :
    targets.length = acc.length + ps.length := by
  induction ps generalizing acc with
  | nil =>
    simp only [readDependencyProjects, Except.ok.injEq] at hrun
    simp [hrun]
  | cons e rest ih =>
    simp only [readDependencyProjects] at hrun
    cases hr : require JsonType.string e with
    | error x => rw [hr] at hrun; cases hrun
    | ok v =>
      rw [hr] at hrun
      have := ih _ hrun
      simp at this
      simp [this]
      omega

theorem expectSub_some (type : JsonType) (item it : Json) (name : String)
    (hp : expectSub type item name = some it) : item.find name = some it ∧ it.type = type := by
  unfold expectSub at hp
  cases hf : item.find name with
  | none => rw [hf] at hp; cases hp
  | some x =>
    rw [hf] at hp
    by_cases hty : x.type = type
    · simp only [hty, if_true, Option.some.injEq] at hp
      subst hp
      exact ⟨rfl, hty⟩
    · simp [hty] at hp

theorem readDependency_no_targets (h : Helpers) (pkg_ : Package) (proj_ : Project)
    (item : Json) (pd : PackageDependency)
    (hrun : readDependency h pkg_ proj_ item = Except.ok (Dependency.package pd))
    (hempty : pd.projects = []) : item.find "projects" = some (Json.array []) := by
  by_cases hstr : item.type = JsonType.string
  · exfalso
    cases item with
    | string s =>
      by_cases hf : startsWith s "file:" = true
      · simp [readDependency, expect, Json.type, Json.getString, hf] at hrun
      · by_cases hsf : startsWith s "self:" = true
        · simp [readDependency, expect, Json.type, Json.getString, hf, hsf] at hrun
        · obtain ⟨pd', hpd, _, hprojects, _⟩ := readDependency_other_string h pkg_ proj_ s
            (by simpa using hf) (by simpa using hsf)
          rw [hpd] at hrun
          simp only [Except.ok.injEq, Dependency.package.injEq] at hrun
          subst hrun
          rw [hprojects] at hempty
          cases hempty
    | null => simp [Json.type] at hstr
    | boolean b => simp [Json.type] at hstr
    | number n => simp [Json.type] at hstr
    | array a => simp [Json.type] at hstr
    | object o => simp [Json.type] at hstr
  · by_cases hobj : item.type = JsonType.object
    · cases hname : requireSub JsonType.string item "name" with
      | error x =>
        simp [readDependency, expect, hstr, hobj, hname] at hrun
      | ok nm =>
        have hnm : ∃ name, nm = Json.string name := by
          unfold requireSub at hname
          cases hf : item.find "name" with
          | none => rw [hf] at hname; cases hname
          | some x =>
            rw [hf] at hname
            by_cases hty : x.type = JsonType.string
            · simp only [hty, if_true, Except.ok.injEq] at hname
              subst hname
              cases x with
              | string s => exact ⟨s, rfl⟩
              | null => simp [Json.type] at hty
              | boolean b => simp [Json.type] at hty
              | number n => simp [Json.type] at hty
              | array a => simp [Json.type] at hty
              | object o => simp [Json.type] at hty
            · simp [hty] at hname
        obtain ⟨name, rfl⟩ := hnm
        cases hp : expectSub JsonType.array item "projects" with
        | none =>
          exfalso
          obtain ⟨pd', hpd, _, hprojects⟩ := readDependency_object h pkg_ proj_ item name hobj
            hname _ (by rw [hp])
          rw [hpd] at hrun
          simp only [Except.ok.injEq, Dependency.package.injEq] at hrun
          subst hrun
          rw [hprojects] at hempty
          cases hempty
        | some projects =>
          obtain ⟨hfind, hty⟩ := expectSub_some _ _ _ _ hp
          cases ht : readDependencyProjects projects.items [] with
          | error x =>
            exfalso
            have hg : (Json.string name).getString = name := rfl
            simp only [readDependency, expect, hstr, hobj, if_false, if_true, hname, hg, hp,
              PackageDependency.empty, ht] at hrun
            cases hrun
          | ok targets =>
            obtain ⟨pd', hpd, _, hprojects⟩ := readDependency_object h pkg_ proj_ item name
              hobj hname targets (by rw [hp]; exact ht)
            rw [hpd] at hrun
            simp only [Except.ok.injEq, Dependency.package.injEq] at hrun
            subst hrun
            rw [hempty] at hprojects
            subst hprojects
            have hlen := readDependencyProjects_length _ _ _ ht
            cases projects with
            | array ps =>
              simp only [Json.items, List.length_nil, Nat.zero_add] at hlen
              have : ps = [] := List.length_eq_zero.mp hlen.symm
              rw [hfind, this]
            | null => simp [Json.type] at hty
            | boolean b => simp [Json.type] at hty
            | number n => simp [Json.type] at hty
            | string s => simp [Json.type] at hty
            | object o => simp [Json.type] at hty
    · exfalso
      simp [readDependency, expect, hstr, hobj] at hrun

/-- C27: target projects of an object dependency with a string "name". When the entry has a
"projects" array of strings, the target project names of the dependency read from it are
exactly those strings in order; when it has no "projects" array, the target list is the single
name equal to the repository of the "from" locator if that is non-empty and the "name"
otherwise. And whatever the entry, a package dependency that was read has an empty target
list only when "projects" is the empty array. -/
theorem object_dependency_target_projects (h : Helpers) (pkg_ : Package) (proj_ : Project)
    (fields : List (String × Json)) (name : String)
    (hname : (Json.object fields).find "name" = some (Json.string name)) :
    (∀ ps, (Json.object fields).find "projects" = some (Json.array ps) →
      (∀ e ∈ ps, e.type = JsonType.string) →
      ∃ pd, readDependency h pkg_ proj_ (Json.object fields) =
          Except.ok (Dependency.package pd) ∧
        pd.projects = ps.map Json.getString) ∧
    (expectSub JsonType.array (Json.object fields) "projects" = none →
      ∃ pd, readDependency h pkg_ proj_ (Json.object fields) =
          Except.ok (Dependency.package pd) ∧
        pd.projects =
          [if (h.parseLocation (h.stringFieldOr (Json.object fields) "from" "")).repository ≠ ""
            then (h.parseLocation (h.stringFieldOr (Json.object fields) "from" "")).repository
            else name]) ∧
    (∀ item pd, readDependency h pkg_ proj_ item = Except.ok (Dependency.package pd) →
      pd.projects = [] → item.find "projects" = some (Json.array [])) := by
  have hreq : requireSub JsonType.string (Json.object fields) "name" =
      Except.ok (Json.string name) := by
    simp [requireSub, hname, Json.type]
  refine ⟨?_, ?_, readDependency_no_targets h pkg_ proj_⟩
  · intro ps hps hall
    have hp : expectSub JsonType.array (Json.object fields) "projects" =
        some (Json.array ps) := by
      simp [expectSub, hps, Json.type]
    obtain ⟨pd, hpd, _, hprojects⟩ := readDependency_object h pkg_ proj_ (Json.object fields)
      name rfl hreq ([] ++ ps.map Json.getString)
      (by rw [hp]; exact readDependencyProjects_strings ps [] hall)
    exact ⟨pd, hpd, by simpa using hprojects⟩
  · intro hp
    obtain ⟨pd, hpd, _, hprojects⟩ := readDependency_object h pkg_ proj_ (Json.object fields)
      name rfl hreq _ (by rw [hp])
    exact ⟨pd, hpd, hprojects⟩

/-- Witness of C27: an object with two target projects, and an object with a name only, whose
single target is the name because the locator is empty. -/
theorem object_dependency_target_projects_witness :
    (∃ pd, readDependency sampleHelpers sampleUtilsPkg sampleMain
        (Json.object sampleObjectWithProjects) = Except.ok (Dependency.package pd) ∧
      pd.projects = ["asio", "beast"]) ∧
    (∃ pd, readDependency sampleHelpers sampleUtilsPkg sampleMain
        (Json.object sampleObjectNameOnly) = Except.ok (Dependency.package pd) ∧
      pd.projects = ["boost"]) :=
  ⟨(object_dependency_target_projects sampleHelpers sampleUtilsPkg sampleMain
      sampleObjectWithProjects "boost" rfl).1 [Json.string "asio", Json.string "beast"] rfl
      (by
        intro e he
        simp only [List.mem_cons, List.mem_singleton, List.not_mem_nil, or_false] at he
        rcases he with rfl | rfl <;> rfl),
    (object_dependency_target_projects sampleHelpers sampleUtilsPkg sampleMain
      sampleObjectNameOnly "boost" rfl).2.1 rfl⟩

/-! ### Default visibility on load -/

theorem loadVecOfStrElems_ok (h : Helpers) (elemName : String) (elems : List Json)
    (acc v : VecOfStr) (hrun : loadVecOfStrElems h elemName elems acc = Except.ok v) :
    ∃ l, v = acc ++ l ∧ elems = l.map Json.string := by
  induction elems generalizing acc with
  | nil =>
    simp only [loadVecOfStrElems, Except.ok.injEq] at hrun
    exact ⟨[], by simp [hrun], rfl⟩
  | cons e rest ih =>
    simp only [loadVecOfStrElems] at hrun
    cases hr : h.requireType e elemName JsonType.string with
    | some x => rw [hr] at hrun; cases hrun
    | none =>
      rw [hr] at hrun
      cases e with
      | string s =>
        obtain ⟨l, hv, hl⟩ := ih _ hrun
        exact ⟨s :: l, by simp [hv], by simp [hl]⟩
      | null => cases hrun
      | boolean b => cases hrun
      | number n => cases hrun
      | array a => cases hrun
      | object o => cases hrun

theorem loadVecOfStrField_value (h : Helpers) (j val : Json) (fieldName : String)
    (direct : Bool) (v : VecOfStr)
    (hval : selfOrSubfield j (if direct then "" else fieldName) false = Except.ok (some val))
    (hrun : loadVecOfStrField h j fieldName direct false = Except.ok v) :
    holdsStrings (some val) v := by
  simp only [loadVecOfStrField, hval] at hrun
  cases val with
  | string s =>
    simp only [Except.ok.injEq] at hrun
    exact hrun.symm
  | null =>
    simp only [] at hrun
    cases hr : h.requireType Json.null fieldName JsonType.array with
    | some x => rw [hr] at hrun; cases hrun
    | none =>
      rw [hr] at hrun
      obtain ⟨l, hv, hl⟩ := loadVecOfStrElems_ok _ _ _ _ _ hrun
      simp only [List.nil_append] at hv
      subst hv
      exact hl
  | boolean b =>
    simp only [] at hrun
    cases hr : h.requireType (Json.boolean b) fieldName JsonType.array with
    | some x => rw [hr] at hrun; cases hrun
    | none =>
      rw [hr] at hrun
      obtain ⟨l, hv, hl⟩ := loadVecOfStrElems_ok _ _ _ _ _ hrun
      simp only [List.nil_append] at hv
      subst hv
      exact hl
  | number n =>
    simp only [] at hrun
    cases hr : h.requireType (Json.number n) fieldName JsonType.array with
    | some x => rw [hr] at hrun; cases hrun
    | none =>
      rw [hr] at hrun
      obtain ⟨l, hv, hl⟩ := loadVecOfStrElems_ok _ _ _ _ _ hrun
      simp only [List.nil_append] at hv
      subst hv
      exact hl
  | array a =>
    simp only [] at hrun
    cases hr : h.requireType (Json.array a) fieldName JsonType.array with
    | some x => rw [hr] at hrun; cases hrun
    | none =>
      rw [hr] at hrun
      obtain ⟨l, hv, hl⟩ := loadVecOfStrElems_ok _ _ _ _ _ hrun
      simp only [List.nil_append] at hv
      subst hv
      exact hl
  | object o =>
    simp only [] at hrun
    cases hr : h.requireType (Json.object o) fieldName JsonType.array with
    | some x => rw [hr] at hrun; cases hrun
    | none =>
      rw [hr] at hrun
      obtain ⟨l, hv, hl⟩ := loadVecOfStrElems_ok _ _ _ _ _ hrun
      simp only [List.nil_append] at hv
      subst hv
      exact hl

theorem loadVecOfStrField_direct (h : Helpers) (it : Json) (fieldName : String) (v : VecOfStr)
    (hrun : loadVecOfStrField h it fieldName true false = Except.ok v) :
    holdsStrings (some it) v :=
  loadVecOfStrField_value h it it fieldName true v (by simp [selfOrSubfield, selfOrSubfieldOpt])
    hrun

theorem loadVecOfStrField_sub (h : Helpers) (it : Json) (fieldName : String) (v : VecOfStr)
    (hne : fieldName ≠ "")
    (hrun : loadVecOfStrField h it fieldName false false = Except.ok v) :
    holdsStrings (it.find fieldName) v := by
  cases hf : it.find fieldName with
  | none =>
    have hval : selfOrSubfield it (if false = true then "" else fieldName) false =
        Except.ok none := by
      simp [selfOrSubfield, selfOrSubfieldOpt, hne, hf]
    simp only [loadVecOfStrField, hval, Except.ok.injEq] at hrun
    exact hrun.symm
  | some val =>
    exact loadVecOfStrField_value h it val fieldName false v
      (by simp [selfOrSubfield, selfOrSubfieldOpt, hne, hf]) hrun

theorem loadVecOfStrAccField_ok (h : Helpers) (j : Json) (fieldName : String)
    (dflt : AccessType) (v : VecOfStrAcc)
    (hrun : loadVecOfStrAccField h j fieldName dflt = Except.ok v) :
    storedByTiers dflt (j.find fieldName) v := by
  unfold loadVecOfStrAccField at hrun
  cases hf : j.find fieldName with
  | none =>
    rw [hf] at hrun
    simp only [Except.ok.injEq] at hrun
    exact hrun.symm
  | some it =>
    rw [hf] at hrun
    simp only [storedByTiers]
    by_cases hty : it.type = JsonType.array ∨ it.type = JsonType.string
    · simp only [hty, if_true] at hrun ⊢
      cases hl : loadVecOfStrField h it fieldName true false with
      | error x => rw [hl] at hrun; cases hrun
      | ok l =>
        rw [hl] at hrun
        simp only [Except.ok.injEq] at hrun
        subst hrun
        have := loadVecOfStrField_direct h it fieldName l hl
        cases dflt <;> exact ⟨this, rfl⟩
    · simp only [hty, if_false] at hrun ⊢
      cases h1 : loadVecOfStrField h it "private" false false with
      | error x => rw [h1] at hrun; cases hrun
      | ok a =>
        rw [h1] at hrun
        cases h2 : loadVecOfStrField h it "public" false false with
        | error x => rw [h2] at hrun; cases hrun
        | ok b =>
          rw [h2] at hrun
          cases h3 : loadVecOfStrField h it "interface" false false with
          | error x => rw [h3] at hrun; cases hrun
          | ok c =>
            rw [h3] at hrun
            simp only [Except.ok.injEq] at hrun
            subst hrun
            exact ⟨loadVecOfStrField_sub h it _ a (by decide) h1,
              loadVecOfStrField_sub h it _ b (by decide) h2,
              loadVecOfStrField_sub h it _ c (by decide) h3⟩

theorem loadDependenciesFromJSON_interface (h : Helpers) (pkg_ : Package) (project_ : Project)
    (d d' : AccessSplitVec Dependency) (root_ : Json)
    (hiface : project_.type = ProjectType.Interface)
    (hrun : loadDependenciesFromJSON h pkg_ project_ d root_ = Except.ok d') :
    d'.private_ = d.private_ ∧ d'.public_ = d.public_ := by
  unfold loadDependenciesFromJSON at hrun
  simp only [hiface, if_true] at hrun
  cases hf : root_.find "dependencies" with
  | none =>
    rw [hf] at hrun
    simp only [Except.ok.injEq] at hrun
    subst hrun
    exact ⟨rfl, rfl⟩
  | some deps =>
    rw [hf] at hrun
    simp only [] at hrun
    by_cases harr : deps.type = JsonType.array
    · simp only [harr, if_true] at hrun
      cases hr : readDependencyAccess h pkg_ project_ deps
          (targetByAccessType d AccessType.Interface) with
      | error x => rw [hr] at hrun; cases hrun
      | ok t =>
        rw [hr] at hrun
        simp only [Except.ok.injEq] at hrun
        subst hrun
        exact ⟨rfl, rfl⟩
    · simp only [harr, if_false] at hrun
      by_cases hobj : deps.type = JsonType.object
      · simp only [hobj, if_true] at hrun
        cases hi : deps.find "interface" with
        | none =>
          rw [hi] at hrun
          simp only [Except.ok.injEq] at hrun
          subst hrun
          exact ⟨rfl, rfl⟩
        | some sub =>
          rw [hi] at hrun
          simp only [] at hrun
          cases hr : readDependencyAccess h pkg_ project_ sub d.interface_ with
          | error x => rw [hr] at hrun; cases hrun
          | ok t =>
            rw [hr] at hrun
            simp only [Except.ok.injEq] at hrun
            subst hrun
            exact ⟨rfl, rfl⟩
      · simp only [hobj, if_false] at hrun
        cases hrun

theorem loadDependenciesFromJSON_array (h : Helpers) (pkg_ : Package) (project_ : Project)
    (d d' : AccessSplitVec Dependency) (root_ deps : Json)
    (hf : root_.find "dependencies" = some deps) (harr : deps.type = JsonType.array)
    (hrun : loadDependenciesFromJSON h pkg_ project_ d root_ = Except.ok d') :
    readDependencyAccess h pkg_ project_ deps (targetByAccessType d (defaultTier project_)) =
      Except.ok (targetByAccessType d' (defaultTier project_)) ∧
    d' = setByAccessType d (defaultTier project_)
      (targetByAccessType d' (defaultTier project_)) := by
  unfold loadDependenciesFromJSON at hrun
  rw [hf] at hrun
  simp only [harr, if_true] at hrun
  unfold defaultTier
  cases hr : readDependencyAccess h pkg_ project_ deps
      (targetByAccessType d
        (if project_.type = ProjectType.Interface then AccessType.Interface
          else AccessType.Private)) with
  | error x => rw [hr] at hrun; cases hrun
  | ok t =>
    rw [hr] at hrun
    simp only [Except.ok.injEq] at hrun
    subst hrun
    split <;> exact ⟨rfl, rfl⟩

theorem loadDependenciesFromJSON_object (h : Helpers) (pkg_ : Package) (project_ : Project)
    (d d' : AccessSplitVec Dependency) (root_ deps : Json)
    (hf : root_.find "dependencies" = some deps) (hobj : deps.type = JsonType.object)
    (hother : project_.type ≠ ProjectType.Interface)
    (hrun : loadDependenciesFromJSON h pkg_ project_ d root_ = Except.ok d') :
    tierReadFrom h pkg_ project_ deps "public" d.public_ d'.public_ ∧
    tierReadFrom h pkg_ project_ deps "private" d.private_ d'.private_ ∧
    tierReadFrom h pkg_ project_ deps "interface" d.interface_ d'.interface_ := by
  have harr : ¬ (JsonType.object = JsonType.array) := by decide
  unfold loadDependenciesFromJSON at hrun
  rw [hf] at hrun
  simp only [hobj, harr, hother, if_true, if_false] at hrun
  unfold tierReadFrom
  cases h1 : deps.find "public" with
  | none =>
    rw [h1] at hrun
    simp only [] at hrun
    cases h2 : deps.find "private" with
    | none =>
      rw [h2] at hrun
      simp only [] at hrun
      cases h3 : deps.find "interface" with
      | none =>
        rw [h3] at hrun
        simp only [Except.ok.injEq] at hrun
        subst hrun
        exact ⟨rfl, rfl, rfl⟩
      | some s3 =>
        rw [h3] at hrun
        simp only [] at hrun
        cases r3 : readDependencyAccess h pkg_ project_ s3 d.interface_ with
        | error x => rw [r3] at hrun; cases hrun
        | ok t3 =>
          rw [r3] at hrun
          simp only [Except.ok.injEq] at hrun
          subst hrun
          exact ⟨rfl, rfl, r3⟩
    | some s2 =>
      rw [h2] at hrun
      simp only [] at hrun
      cases r2 : readDependencyAccess h pkg_ project_ s2 d.private_ with
      | error x => rw [r2] at hrun; cases hrun
      | ok t2 =>
        rw [r2] at hrun
        simp only [] at hrun
        cases h3 : deps.find "interface" with
        | none =>
          rw [h3] at hrun
          simp only [Except.ok.injEq] at hrun
          subst hrun
          exact ⟨rfl, r2, rfl⟩
        | some s3 =>
          rw [h3] at hrun
          simp only [] at hrun
          cases r3 : readDependencyAccess h pkg_ project_ s3 d.interface_ with
          | error x => rw [r3] at hrun; cases hrun
          | ok t3 =>
            rw [r3] at hrun
            simp only [Except.ok.injEq] at hrun
            subst hrun
            exact ⟨rfl, r2, r3⟩
  | some s1 =>
    rw [h1] at hrun
    simp only [] at hrun
    cases r1 : readDependencyAccess h pkg_ project_ s1 d.public_ with
    | error x => rw [r1] at hrun; cases hrun
    | ok t1 =>
      rw [r1] at hrun
      simp only [] at hrun
      cases h2 : deps.find "private" with
      | none =>
        rw [h2] at hrun
        simp only [] at hrun
        cases h3 : deps.find "interface" with
        | none =>
          rw [h3] at hrun
          simp only [Except.ok.injEq] at hrun
          subst hrun
          exact ⟨r1, rfl, rfl⟩
        | some s3 =>
          rw [h3] at hrun
          simp only [] at hrun
          cases r3 : readDependencyAccess h pkg_ project_ s3 d.interface_ with
          | error x => rw [r3] at hrun; cases hrun
          | ok t3 =>
            rw [r3] at hrun
            simp only [Except.ok.injEq] at hrun
            subst hrun
            exact ⟨r1, rfl, r3⟩
      | some s2 =>
        rw [h2] at hrun
        simp only [] at hrun
        cases r2 : readDependencyAccess h pkg_ project_ s2 d.private_ with
        | error x => rw [r2] at hrun; cases hrun
        | ok t2 =>
          rw [r2] at hrun
          simp only [] at hrun
          cases h3 : deps.find "interface" with
          | none =>
            rw [h3] at hrun
            simp only [Except.ok.injEq] at hrun
            subst hrun
            exact ⟨r1, r2, rfl⟩
          | some s3 =>
            rw [h3] at hrun
            simp only [] at hrun
            cases r3 : readDependencyAccess h pkg_ project_ s3 d.interface_ with
            | error x => rw [r3] at hrun; cases hrun
            | ok t3 =>
              rw [r3] at hrun
              simp only [Except.ok.injEq] at hrun
              subst hrun
              exact ⟨r1, r2, r3⟩

theorem loadConfigurationFromJSON_ok (h : Helpers) (pkg_ : Package) (project_ : Project)
    (conf_ conf' : Configuration) (root_ : Json)
    (hload : loadConfigurationFromJSON h pkg_ project_ conf_ root_ = Except.ok conf') :
    loadVecOfStrAccField h root_ "defines" (defaultTier project_) =
      Except.ok conf'.defines.self ∧
    loadVecOfStrAccField h root_ "includeFolders" (defaultTier project_) =
      Except.ok conf'.includeFolders.self ∧
    loadVecOfStrAccField h root_ "linkerFolders" (defaultTier project_) =
      Except.ok conf'.linkerFolders.self ∧
    loadVecOfStrAccField h root_ "compilerOptions" (defaultTier project_) =
      Except.ok conf'.compilerOptions.self ∧
    loadVecOfStrAccField h root_ "linkerOptions" (defaultTier project_) =
      Except.ok conf'.linkerOptions.self ∧
    loadDependenciesFromJSON h pkg_ project_ conf_.dependencies.self root_ =
      Except.ok conf'.dependencies.self ∧
    conf'.linkedLibraries = conf_.linkedLibraries := by
  unfold loadConfigurationFromJSON at hload
  cases h0 : h.symbolVisibilityFromString (h.stringFieldOr root_ "symbolVisibility" "Default") with
  | error x => rw [h0] at hload; cases hload
  | ok sv =>
  rw [h0] at hload
  simp only [] at hload
  cases hfiles : loadVecOfStrField h root_ "files" false false with
  | error x => rw [hfiles] at hload; cases hload
  | ok files =>
  rw [hfiles] at hload
  simp only [] at hload
  unfold defaultTier
  cases h1 : loadVecOfStrAccField h root_ "defines"
      (if project_.type = ProjectType.Interface then AccessType.Interface
        else AccessType.Private) with
  | error x => rw [h1] at hload; cases hload
  | ok v1 =>
  rw [h1] at hload
  simp only [] at hload
  cases h2 : loadVecOfStrAccField h root_ "includeFolders"
      (if project_.type = ProjectType.Interface then AccessType.Interface
        else AccessType.Private) with
  | error x => rw [h2] at hload; cases hload
  | ok v2 =>
  rw [h2] at hload
  simp only [] at hload
  cases h3 : loadVecOfStrAccField h root_ "linkerFolders"
      (if project_.type = ProjectType.Interface then AccessType.Interface
        else AccessType.Private) with
  | error x => rw [h3] at hload; cases hload
  | ok v3 =>
  rw [h3] at hload
  simp only [] at hload
  cases h4 : loadVecOfStrAccField h root_ "compilerOptions"
      (if project_.type = ProjectType.Interface then AccessType.Interface
        else AccessType.Private) with
  | error x => rw [h4] at hload; cases hload
  | ok v4 =>
  rw [h4] at hload
  simp only [] at hload
  cases h5 : loadVecOfStrAccField h root_ "linkerOptions"
      (if project_.type = ProjectType.Interface then AccessType.Interface
        else AccessType.Private) with
  | error x => rw [h5] at hload; cases hload
  | ok v5 =>
  rw [h5] at hload
  simp only [] at hload
  cases h6 : loadDependenciesFromJSON h pkg_ project_ conf_.dependencies.self root_ with
  | error x => rw [h6] at hload; cases hload
  | ok d =>
  rw [h6] at hload
  simp only [Except.ok.injEq] at hload
  subst hload
  exact ⟨rfl, rfl, rfl, rfl, rfl, rfl, rfl⟩

/-- C26: default visibility on load. When `loadConfigurationFromJSON` returns, each of the
five list axes it reads (defines, includeFolders, linkerFolders, compilerOptions,
linkerOptions) holds its manifest value by tiers: a bare string or an array entirely in the
interface tier when the project is an Interface project and entirely in the private tier
otherwise, the other two tiers empty; every other value in the private, public and interface
tiers that it names. The linked libraries are not read from the manifest. Dependencies given
as an array are read into that same default tier, behind its old content, the other two
tiers left as they were; given as an object they are read, for a project that is no
Interface project, into the tiers the object names. And for an Interface project the private
and public tiers of the declared dependencies are left as they were, so they are empty after
loading into a configuration whose declared dependencies were empty, whatever the manifest
declares. -/
theorem default_visibility_on_load (h : Helpers) (pkg_ : Package) (project_ : Project)
    (conf_ conf' : Configuration) (root_ : Json)
    (hload : loadConfigurationFromJSON h pkg_ project_ conf_ root_ = Except.ok conf') :
    storedByTiers (defaultTier project_) (root_.find "defines") conf'.defines.self ∧
    storedByTiers (defaultTier project_) (root_.find "includeFolders")
      conf'.includeFolders.self ∧
    storedByTiers (defaultTier project_) (root_.find "linkerFolders")
      conf'.linkerFolders.self ∧
    storedByTiers (defaultTier project_) (root_.find "compilerOptions")
      conf'.compilerOptions.self ∧
    storedByTiers (defaultTier project_) (root_.find "linkerOptions")
      conf'.linkerOptions.self ∧
    conf'.linkedLibraries = conf_.linkedLibraries ∧
    (∀ deps, root_.find "dependencies" = some deps → deps.type = JsonType.array →
      readDependencyAccess h pkg_ project_ deps
          (targetByAccessType conf_.dependencies.self (defaultTier project_)) =
        Except.ok (targetByAccessType conf'.dependencies.self (defaultTier project_)) ∧
      conf'.dependencies.self = setByAccessType conf_.dependencies.self (defaultTier project_)
        (targetByAccessType conf'.dependencies.self (defaultTier project_))) ∧
    (∀ deps, root_.find "dependencies" = some deps → deps.type = JsonType.object →
      project_.type ≠ ProjectType.Interface →
      tierReadFrom h pkg_ project_ deps "public" conf_.dependencies.self.public_
        conf'.dependencies.self.public_ ∧
      tierReadFrom h pkg_ project_ deps "private" conf_.dependencies.self.private_
        conf'.dependencies.self.private_ ∧
      tierReadFrom h pkg_ project_ deps "interface" conf_.dependencies.self.interface_
        conf'.dependencies.self.interface_) ∧
    (project_.type = ProjectType.Interface →
      conf'.dependencies.self.private_ = conf_.dependencies.self.private_ ∧
      conf'.dependencies.self.public_ = conf_.dependencies.self.public_) ∧
    (project_.type = ProjectType.Interface →
      conf_.dependencies.self.private_ = [] → conf_.dependencies.self.public_ = [] →
      conf'.dependencies.self.private_ = [] ∧ conf'.dependencies.self.public_ = []) := by
  obtain ⟨h1, h2, h3, h4, h5, h6, h7⟩ := loadConfigurationFromJSON_ok h pkg_ project_ conf_
    conf' root_ hload
  refine ⟨loadVecOfStrAccField_ok _ _ _ _ _ h1, loadVecOfStrAccField_ok _ _ _ _ _ h2,
    loadVecOfStrAccField_ok _ _ _ _ _ h3, loadVecOfStrAccField_ok _ _ _ _ _ h4,
    loadVecOfStrAccField_ok _ _ _ _ _ h5, h7, ?_, ?_, ?_, ?_⟩
  · intro deps hf harr
    exact loadDependenciesFromJSON_array h pkg_ project_ _ _ root_ deps hf harr h6
  · intro deps hf hobj hother
    exact loadDependenciesFromJSON_object h pkg_ project_ _ _ root_ deps hf hobj hother h6
  · intro hiface
    exact loadDependenciesFromJSON_interface h pkg_ project_ _ _ root_ hiface h6
  · intro hiface hpriv hpub
    obtain ⟨ha, hb⟩ := loadDependenciesFromJSON_interface h pkg_ project_ _ _ root_ hiface h6
    exact ⟨ha.trans hpriv, hb.trans hpub⟩

/-- Witness of C26: the sample manifest loaded for an Interface project, and what the load
leaves: the array and the bare string in the interface tier, the linker options in the tiers
the manifest names, and of the dependencies only the one declared for the interface tier.
For a static library the array is in the private tier and all three dependencies are kept. -/
theorem default_visibility_on_load_witness :
    (storedByTiers AccessType.Interface (sampleInterfaceManifest.find "defines")
        (sampleLoaded ProjectType.Interface).defines.self ∧
      (sampleLoaded ProjectType.Interface).dependencies.self.private_ = [] ∧
      (sampleLoaded ProjectType.Interface).dependencies.self.public_ = []) ∧
    (sampleLoaded ProjectType.Interface).defines.self =
      { private_ := [], public_ := [], interface_ := ["A", "B"] } ∧
    (sampleLoaded ProjectType.Interface).includeFolders.self =
      { private_ := [], public_ := [], interface_ := ["include"] } ∧
    (sampleLoaded ProjectType.Interface).linkerOptions.self =
      { private_ := [], public_ := ["-s"], interface_ := ["-t"] } ∧
    (sampleLoaded ProjectType.Interface).dependencies.self.interface_ =
      [Dependency.self
        { project := "iface", depProjName := "core", package := sampleUtilsPkg.root }] ∧
    (sampleLoaded ProjectType.StaticLib).defines.self =
      { private_ := ["A", "B"], public_ := [], interface_ := [] } ∧
    (sampleLoaded ProjectType.StaticLib).dependencies.self.private_ = [Dependency.raw "m"] :=
  ⟨⟨(default_visibility_on_load sampleHelpers sampleUtilsPkg
        (Project.named "iface" ProjectType.Interface) Configuration.empty
        (sampleLoaded ProjectType.Interface) sampleInterfaceManifest rfl).1,
      (default_visibility_on_load sampleHelpers sampleUtilsPkg
        (Project.named "iface" ProjectType.Interface) Configuration.empty
        (sampleLoaded ProjectType.Interface) sampleInterfaceManifest rfl).2.2.2.2.2.2.2.2.2
        rfl rfl rfl⟩,
    by decide, by decide, by decide, by decide, by decide, by decide⟩

/-! ### Termination of the resolver on a graph without cycles -/

theorem mergeRemoteProjects_dependencies (fs : Fs) (pkg : Package) (method : AccessType)
    (names : List String) (p q : Project)
    (hrun : mergeRemoteProjects fs pkg method p names = Except.ok q) :
    q.dependencies = p.dependencies := by
  induction names generalizing p with
  | nil =>
    simp only [mergeRemoteProjects, Except.ok.injEq] at hrun
    rw [← hrun]
  | cons n rest ih =>
    simp only [mergeRemoteProjects] at hrun
    cases hf : pkg.findProject n with
    | none => rw [hf] at hrun; cases hrun
    | some r =>
      rw [hf] at hrun
      exact (ih _ hrun).trans (mergeRemoteProject_dependencies fs pkg method p r)

theorem mergeRemoteProjects_error (fs : Fs) (pkg : Package) (method : AccessType)
    (names : List String) (p : Project) :
    mergeRemoteProjects fs pkg method p names ≠ Except.error Error.recursionBound := by
  induction names generalizing p with
  | nil => simp [mergeRemoteProjects]
  | cons n rest ih =>
    simp only [mergeRemoteProjects]
    cases pkg.findProject n with
    | none => simp
    | some r => exact ih _

theorem loadPackageByName_error (fs : Fs) (env : Env) (name : String) :
    loadPackageByName fs env name ≠ Except.error Error.recursionBound := by
  unfold loadPackageByName
  simp only []
  split <;> simp

theorem loadDependency_dependencies (fs : Fs) (env : Env)
    (recurse : Premake5 → Package → Except Error (Premake5 × Package)) (method : AccessType)
    (this : Premake5) (p : Project) (dep : Dependency) (t : Premake5) (q : Project)
    (d : Dependency)
    (hrun : loadDependency fs env recurse method this p dep = Except.ok (t, q, d)) :
    q.dependencies = p.dependencies := by
  cases dep with
  | raw r =>
    simp only [loadDependency, Except.ok.injEq, Prod.mk.injEq] at hrun
    rw [← hrun.2.1]
  | self s =>
    simp only [loadDependency, Except.ok.injEq, Prod.mk.injEq] at hrun
    rw [← hrun.2.1]
  | package pd =>
    simp only [loadDependency] at hrun
    cases hl : loadPackageByName fs env pd.packageName with
    | error e => rw [hl] at hrun; cases hrun
    | ok pkg =>
      rw [hl] at hrun
      simp only [] at hrun
      by_cases hw : this.wasPackageLoaded fs pkg.root = true
      · simp only [hw, if_true, Except.ok.injEq, Prod.mk.injEq] at hrun
        rw [← hrun.2.1]
      · simp only [hw, Bool.false_eq_true, if_false] at hrun
        split at hrun
        · cases hrun
        · split at hrun
          · cases hrun
          · rename_i hm
            simp only [Except.ok.injEq, Prod.mk.injEq] at hrun
            rw [← hrun.2.1]
            exact mergeRemoteProjects_dependencies _ _ _ _ _ _ hm

theorem loadDependency_congr (fs : Fs) (env : Env)
    (r1 r2 : Premake5 → Package → Except Error (Premake5 × Package)) (dep : Dependency)
    (hrec : ∀ pd pkg, dep = Dependency.package pd →
      loadPackageByName fs env pd.packageName = Except.ok pkg →
      ∀ g, r1 g pkg = r2 g pkg ∧ r1 g pkg ≠ Except.error Error.recursionBound)
    (method : AccessType) (this : Premake5) (p : Project) :
    loadDependency fs env r1 method this p dep = loadDependency fs env r2 method this p dep ∧
    loadDependency fs env r1 method this p dep ≠ Except.error Error.recursionBound := by
  cases dep with
  | raw r => exact ⟨rfl, by simp [loadDependency]⟩
  | self s => exact ⟨rfl, by simp [loadDependency]⟩
  | package pd =>
    simp only [loadDependency]
    cases hl : loadPackageByName fs env pd.packageName with
    | error e =>
      refine ⟨rfl, ?_⟩
      intro he
      simp only [Except.error.injEq] at he
      subst he
      exact loadPackageByName_error fs env _ hl
    | ok pkg =>
      simp only []
      by_cases hw : this.wasPackageLoaded fs pkg.root = true
      · simp [hw]
      · simp only [hw, Bool.false_eq_true, if_false]
        obtain ⟨heq, hne⟩ := hrec pd pkg rfl hl
          { (this.makeShared pkg).1.insertSorted fs (this.makeShared pkg).2 with
            configQueue :=
              ((this.makeShared pkg).1.insertSorted fs (this.makeShared pkg).2).configQueue ++
                [Dependency.package { pd with package := some (this.makeShared pkg).2 }] }
        rw [← heq]
        refine ⟨rfl, ?_⟩
        split
        · rename_i e he
          intro hbad
          simp only [Except.error.injEq] at hbad
          subst hbad
          exact hne he
        · split
          · rename_i e he
            intro hbad
            simp only [Except.error.injEq] at hbad
            subst hbad
            exact mergeRemoteProjects_error _ _ _ _ _ he
          · simp

theorem loadAccess_dependencies
    (step : Premake5 → Project → Dependency → Except Error (Premake5 × Project × Dependency))
    (hstep : ∀ this p dep t q d, step this p dep = Except.ok (t, q, d) →
      q.dependencies = p.dependencies)
    (deps : List Dependency) (this : Premake5) (p : Project) (t : Premake5) (q : Project)
    (ds : List Dependency) (hrun : loadAccess step this p deps = Except.ok (t, q, ds)) :
    q.dependencies = p.dependencies := by
  induction deps generalizing this p ds with
  | nil =>
    simp only [loadAccess, Except.ok.injEq, Prod.mk.injEq] at hrun
    rw [← hrun.2.1]
  | cons dep rest ih =>
    simp only [loadAccess] at hrun
    cases hs : step this p dep with
    | error e => rw [hs] at hrun; cases hrun
    | ok r =>
      obtain ⟨t1, q1, d1⟩ := r
      rw [hs] at hrun
      simp only [] at hrun
      cases hr : loadAccess step t1 q1 rest with
      | error e => rw [hr] at hrun; cases hrun
      | ok r2 =>
        obtain ⟨t2, q2, d2⟩ := r2
        rw [hr] at hrun
        simp only [Except.ok.injEq, Prod.mk.injEq] at hrun
        obtain ⟨ht, hq, _⟩ := hrun
        subst ht
        subst hq
        exact (ih _ _ _ hr).trans (hstep _ _ _ _ _ _ hs)

theorem loadAccess_congr
    (s1 s2 : Premake5 → Project → Dependency → Except Error (Premake5 × Project × Dependency))
    (deps : List Dependency)
    (hstep : ∀ dep ∈ deps, ∀ this p, s1 this p dep = s2 this p dep ∧
      s1 this p dep ≠ Except.error Error.recursionBound)
    (this : Premake5) (p : Project) :
    loadAccess s1 this p deps = loadAccess s2 this p deps ∧
    loadAccess s1 this p deps ≠ Except.error Error.recursionBound := by
  induction deps generalizing this p with
  | nil => exact ⟨rfl, by simp [loadAccess]⟩
  | cons dep rest ih =>
    obtain ⟨heq, hne⟩ := hstep dep (List.mem_cons_self _ _) this p
    simp only [loadAccess]
    rw [← heq]
    cases hs : s1 this p dep with
    | error e =>
      refine ⟨rfl, ?_⟩
      intro hbad
      simp only [Except.error.injEq] at hbad
      subst hbad
      exact hne hs
    | ok r =>
      obtain ⟨t1, q1, d1⟩ := r
      simp only []
      obtain ⟨heq2, hne2⟩ := ih (fun d hd => hstep d (List.mem_cons_of_mem _ hd)) t1 q1
      rw [← heq2]
      refine ⟨rfl, ?_⟩
      cases hr : loadAccess s1 t1 q1 rest with
      | error e =>
        intro hbad
        simp only [Except.error.injEq] at hbad
        subst hbad
        exact hne2 hr
      | ok r2 => simp

theorem loadProject_congr
    (s1 s2 : AccessType → Premake5 → Project → Dependency →
      Except Error (Premake5 × Project × Dependency))
    (hdeps : ∀ method this p dep t q d, s1 method this p dep = Except.ok (t, q, d) →
      q.dependencies = p.dependencies)
    (p : Project)
    (hstep : ∀ dep ∈ p.dependencies.self.private_ ++ p.dependencies.self.public_ ++
        p.dependencies.self.interface_,
      ∀ method this q, s1 method this q dep = s2 method this q dep ∧
        s1 method this q dep ≠ Except.error Error.recursionBound)
    (this : Premake5) :
    loadProject s1 this p = loadProject s2 this p ∧
    loadProject s1 this p ≠ Except.error Error.recursionBound := by
  simp only [loadProject]
  obtain ⟨heq1, hne1⟩ := loadAccess_congr (s1 AccessType.Private) (s2 AccessType.Private)
    p.dependencies.self.private_
    (fun d hd this q => hstep d (by simp [hd]) AccessType.Private this q) this p
  rw [← heq1]
  cases h1 : loadAccess (s1 AccessType.Private) this p p.dependencies.self.private_ with
  | error e =>
    refine ⟨rfl, ?_⟩
    intro hbad
    simp only [Except.error.injEq] at hbad
    subst hbad
    exact hne1 h1
  | ok r1 =>
    obtain ⟨t1, q1, a1⟩ := r1
    have hq1 : q1.dependencies = p.dependencies :=
      loadAccess_dependencies _ (hdeps AccessType.Private) _ _ _ _ _ _ h1
    simp only [hq1]
    obtain ⟨heq2, hne2⟩ := loadAccess_congr (s1 AccessType.Public) (s2 AccessType.Public)
      p.dependencies.self.public_
      (fun d hd this q => hstep d (by simp [hd]) AccessType.Public this q) t1
      { q1 with
        dependencies := { p.dependencies with
          self := { p.dependencies.self with private_ := a1 } } }
    rw [← heq2]
    cases h2 : loadAccess (s1 AccessType.Public) t1
        { q1 with
          dependencies := { p.dependencies with
            self := { p.dependencies.self with private_ := a1 } } }
        p.dependencies.self.public_ with
    | error e =>
      refine ⟨rfl, ?_⟩
      intro hbad
      simp only [Except.error.injEq] at hbad
      subst hbad
      exact hne2 h2
    | ok r2 =>
      obtain ⟨t2, q2, a2⟩ := r2
      have hq2 : q2.dependencies =
          { p.dependencies with self := { p.dependencies.self with private_ := a1 } } :=
        loadAccess_dependencies _ (hdeps AccessType.Public) _ _ _ _ _ _ h2
      simp only [hq2]
      obtain ⟨heq3, hne3⟩ := loadAccess_congr (s1 AccessType.Interface)
        (s2 AccessType.Interface) p.dependencies.self.interface_
        (fun d hd this q => hstep d (by simp [hd]) AccessType.Interface this q) t2
        { q2 with
          dependencies := { p.dependencies with
            self := { p.dependencies.self with private_ := a1, public_ := a2 } } }
      rw [← heq3]
      refine ⟨rfl, ?_⟩
      cases h3 : loadAccess (s1 AccessType.Interface) t2
          { q2 with
            dependencies := { p.dependencies with
              self := { p.dependencies.self with private_ := a1, public_ := a2 } } }
          p.dependencies.self.interface_ with
      | error e =>
        intro hbad
        simp only [Except.error.injEq] at hbad
        subst hbad
        exact hne3 h3
      | ok r3 => simp

theorem loadProjects_congr
    (s1 s2 : AccessType → Premake5 → Project → Dependency →
      Except Error (Premake5 × Project × Dependency))
    (hdeps : ∀ method this p dep t q d, s1 method this p dep = Except.ok (t, q, d) →
      q.dependencies = p.dependencies)
    (ps : List Project)
    (hstep : ∀ p ∈ ps, ∀ dep ∈ p.dependencies.self.private_ ++ p.dependencies.self.public_ ++
        p.dependencies.self.interface_,
      ∀ method this q, s1 method this q dep = s2 method this q dep ∧
        s1 method this q dep ≠ Except.error Error.recursionBound)
    (this : Premake5) :
    loadProjects s1 this ps = loadProjects s2 this ps ∧
    loadProjects s1 this ps ≠ Except.error Error.recursionBound := by
  induction ps generalizing this with
  | nil => exact ⟨rfl, by simp [loadProjects]⟩
  | cons p rest ih =>
    obtain ⟨heq, hne⟩ := loadProject_congr s1 s2 hdeps p (hstep p (List.mem_cons_self _ _)) this
    simp only [loadProjects]
    rw [← heq]
    cases h1 : loadProject s1 this p with
    | error e =>
      refine ⟨rfl, ?_⟩
      intro hbad
      simp only [Except.error.injEq] at hbad
      subst hbad
      exact hne h1
    | ok r =>
      obtain ⟨t1, q1⟩ := r
      simp only []
      obtain ⟨heq2, hne2⟩ := ih (fun x hx => hstep x (List.mem_cons_of_mem _ hx)) t1
      rw [← heq2]
      refine ⟨rfl, ?_⟩
      cases h2 : loadProjects s1 t1 rest with
      | error e =>
        intro hbad
        simp only [Except.error.injEq] at hbad
        subst hbad
        exact hne2 h2
      | ok r2 => simp

theorem loadDependencies_within_rank (fs : Fs) (env : Env) (G : Package → Prop)
    (rank : Package → Nat) (hacyclic : acyclicGraph fs env G rank) :
    ∀ n pkg, G pkg → rank pkg < n → ∀ m, rank pkg < m → ∀ g,
      Premake5.loadDependencies fs env n g pkg = Premake5.loadDependencies fs env m g pkg ∧
      Premake5.loadDependencies fs env n g pkg ≠ Except.error Error.recursionBound := by
  intro n
  induction n with
  | zero => intro pkg _ h; exact absurd h (Nat.not_lt_zero _)
  | succ k ih =>
    intro pkg hG hk m hm g
    cases m with
    | zero => exact absurd hm (Nat.not_lt_zero _)
    | succ j =>
      rw [Premake5.loadDependencies, Premake5.loadDependencies]
      obtain ⟨heq, hne⟩ := loadProjects_congr
        (loadDependency fs env (Premake5.loadDependencies fs env k))
        (loadDependency fs env (Premake5.loadDependencies fs env j))
        (fun method this p dep t q d hrun =>
          loadDependency_dependencies fs env _ method this p dep t q d hrun)
        pkg.projects
        (fun p hp dep hdep method this q =>
          loadDependency_congr fs env _ _ dep
            (fun pd pkg' hpd hload g' => by
              subst hpd
              obtain ⟨hG', hlt⟩ := hacyclic pkg hG p hp pd hdep pkg' hload
              exact ih pkg' hG' (by omega) j (by omega) g')
            method this q)
        g
      rw [← heq]
      refine ⟨rfl, ?_⟩
      cases h1 : loadProjects (loadDependency fs env (Premake5.loadDependencies fs env k)) g
          pkg.projects with
      | error e =>
        intro hbad
        simp only [Except.error.injEq] at hbad
        subst hbad
        exact hne h1
      | ok r => simp

/-- C24: termination on a dependency graph without cycles. When the packages reachable from
`pkg` form a graph in which every package that a dependency loads has a smaller rank (so the
rank of `pkg` bounds the depth of the graph below it), the run of `Premake5::loadDependencies`
on `pkg` ends within a recursion depth of that rank: with the depth bounded by the rank
(one call for `pkg` itself, then at most `rank pkg` nested calls) the run does not reach the
bound, and every larger bound gives the same outcome. -/
theorem loadDependencies_terminates_within_depth (fs : Fs) (env : Env) (G : Package → Prop)
    (rank : Package → Nat) (hacyclic : acyclicGraph fs env G rank) (pkg : Package)
    (hpkg : G pkg) (g : Premake5) :
    Premake5.loadDependencies fs env (rank pkg + 1) g pkg ≠
      Except.error Error.recursionBound ∧
    ∀ extra, Premake5.loadDependencies fs env (rank pkg + 1 + extra) g pkg =
      Premake5.loadDependencies fs env (rank pkg + 1) g pkg :=
  ⟨(loadDependencies_within_rank fs env G rank hacyclic (rank pkg + 1) pkg hpkg
      (Nat.lt_succ_self _) (rank pkg + 1) (Nat.lt_succ_self _) g).2,
    fun extra =>
      (loadDependencies_within_rank fs env G rank hacyclic (rank pkg + 1 + extra) pkg hpkg
        (by omega) (rank pkg + 1) (Nat.lt_succ_self _) g).1⟩

theorem sampleGraph_acyclic : acyclicGraph sampleFs sampleEnv sampleGraph sampleRank := by
  have hb : loadPackageByName sampleFs sampleEnv "b" = Except.ok sampleB := rfl
  have hc : loadPackageByName sampleFs sampleEnv "c" = Except.ok sampleC := rfl
  have hd : loadPackageByName sampleFs sampleEnv "d" = Except.ok sampleD := rfl
  intro pkg hG p hp pd hdep pkg' hload
  rcases hG with rfl | rfl | rfl | rfl
  · simp only [sampleA, samplePackage, Package.named, List.mem_singleton] at hp
    subst hp
    simp only [samplePackageDep, List.nil_append, List.append_nil, List.mem_cons,
      List.mem_singleton, List.not_mem_nil, or_false, Dependency.package.injEq] at hdep
    rcases hdep with rfl | rfl
    · rw [hb] at hload
      simp only [Except.ok.injEq] at hload
      subst hload
      exact ⟨Or.inr (Or.inl rfl), by decide⟩
    · rw [hc] at hload
      simp only [Except.ok.injEq] at hload
      subst hload
      exact ⟨Or.inr (Or.inr (Or.inl rfl)), by decide⟩
  · simp only [sampleB, samplePackage, Package.named, List.mem_singleton] at hp
    subst hp
    simp only [samplePackageDep, List.nil_append, List.append_nil, List.mem_cons,
      List.mem_singleton, List.not_mem_nil, or_false, Dependency.package.injEq] at hdep
    subst hdep
    rw [hd] at hload
    simp only [Except.ok.injEq] at hload
    subst hload
    exact ⟨Or.inr (Or.inr (Or.inr rfl)), by decide⟩
  · simp only [sampleC, samplePackage, Package.named, List.mem_singleton] at hp
    subst hp
    simp only [samplePackageDep, List.nil_append, List.append_nil, List.mem_cons,
      List.mem_singleton, List.not_mem_nil, or_false, Dependency.package.injEq] at hdep
    subst hdep
    rw [hd] at hload
    simp only [Except.ok.injEq] at hload
    subst hload
    exact ⟨Or.inr (Or.inr (Or.inr rfl)), by decide⟩
  · simp only [sampleD, samplePackage, Package.named, List.mem_singleton] at hp
    subst hp
    simp at hdep

/-- Witness of C24: the sample diamond "a" over "b" and "c" over "d" is a graph without
cycles of depth 2 below "a"; the run on "a" ends within that depth and returns. -/
theorem loadDependencies_terminates_within_depth_witness :
    acyclicGraph sampleFs sampleEnv sampleGraph sampleRank ∧ sampleGraph sampleA ∧
    sampleRank sampleA = 2 ∧
    (Premake5.loadDependencies sampleFs sampleEnv (sampleRank sampleA + 1) Premake5.empty
        sampleA ≠ Except.error Error.recursionBound ∧
      ∀ extra, Premake5.loadDependencies sampleFs sampleEnv (sampleRank sampleA + 1 + extra)
          Premake5.empty sampleA =
        Premake5.loadDependencies sampleFs sampleEnv (sampleRank sampleA + 1) Premake5.empty
          sampleA) ∧
    (Premake5.loadDependencies sampleFs sampleEnv 3 Premake5.empty sampleA).toOption.isSome =
      true ∧
    Premake5.loadDependencies sampleFs sampleEnv 2 Premake5.empty sampleA =
      Except.error Error.recursionBound :=
  ⟨sampleGraph_acyclic, Or.inl rfl, by decide,
    loadDependencies_terminates_within_depth sampleFs sampleEnv sampleGraph sampleRank
      sampleGraph_acyclic sampleA (Or.inl rfl) Premake5.empty,
    by decide, rfl⟩

/-! ### The merge of the resolver against the merger -/

/-- C22 fails on the code: the merge of the resolver is not the merger. For every consumer
and source project the resolver's merge agrees with `inheritConfigurationFrom` on the defines
and the include folders, and leaves the compiler options, the linker options and the filters
of the consumer as they were. On the sample, "app" depends publicly on the static library
"kit": after the run of the resolver "app" holds the define and the rewritten include folder
of "kit", but no compiler option, no linked library, no linker folder and no filter, all of
which `inheritConfigurationFrom` with the resolved "kit" gives it. -/
theorem resolver_merge_is_not_the_merger :
    (∀ (fs : Fs) (K : Package) (T : AccessType) (p S : Project),
      (mergeRemoteProject fs K T p S).defines =
        (p.inheritConfigurationFrom fs K S T).defines ∧
      (mergeRemoteProject fs K T p S).includeFolders =
        (p.inheritConfigurationFrom fs K S T).includeFolders ∧
      (mergeRemoteProject fs K T p S).compilerOptions = p.compilerOptions ∧
      (mergeRemoteProject fs K T p S).linkerOptions = p.linkerOptions ∧
      (mergeRemoteProject fs K T p S).premakeFilters = p.premakeFilters) ∧
    (Premake5.loadDependencies sampleFs sampleEnvKit 2 Premake5.empty
        sampleKitConsumerPkg).toOption.map
        (fun r => (r.1.loadedRoots, r.2.projects.map (fun p =>
          (p.defines.computed.public_, p.includeFolders.computed.public_,
            p.compilerOptions.computed.public_, p.linkedLibraries.computed.public_,
            p.linkerFolders.computed.public_, p.premakeFilters.keys)))) =
      some (["/w/pacc_packages/kit/cpackage.json"],
        [(["KIT_API"], ["/w/pacc_packages/kit/include"], [], [], [], [])]) ∧
    (Premake5.loadDependencies sampleFs sampleEnvKit 2 Premake5.empty
        sampleKitConsumerPkg).toOption.map (fun r => r.1.heap) = some [sampleKitPkg] ∧
    ((sampleKitConsumer.inheritConfigurationFrom sampleFs sampleKitPkg sampleKit
        AccessType.Public).defines.computed.public_,
      (sampleKitConsumer.inheritConfigurationFrom sampleFs sampleKitPkg sampleKit
        AccessType.Public).includeFolders.computed.public_,
      (sampleKitConsumer.inheritConfigurationFrom sampleFs sampleKitPkg sampleKit
        AccessType.Public).compilerOptions.computed.public_,
      (sampleKitConsumer.inheritConfigurationFrom sampleFs sampleKitPkg sampleKit
        AccessType.Public).linkedLibraries.computed.public_,
      (sampleKitConsumer.inheritConfigurationFrom sampleFs sampleKitPkg sampleKit
        AccessType.Public).linkerFolders.computed.public_,
      (sampleKitConsumer.inheritConfigurationFrom sampleFs sampleKitPkg sampleKit
        AccessType.Public).premakeFilters.keys) =
      (["KIT_API"], ["/w/pacc_packages/kit/include"], ["-fno-rtti"], ["kit"],
        ["/w/pacc_packages/kit/bin/%{cfg.platform}/%{cfg.buildcfg}"],
        ["configurations:Debug"]) := by
  refine ⟨?_, rfl, rfl, rfl⟩
  intro fs K T p S
  refine ⟨?_, ?_, rfl, rfl, rfl⟩
  · exact (Project.inheritConfigurationFrom_defines fs p K S T).symm
  · exact (computeConfiguration_includeFolders fs p.toConfiguration K S S.toConfiguration
      T).symm

/-! ### What `appendProject` writes for the project itself -/

theorem quoted_mem_appendStringsWithAccess (accesses : List VecOfStr) (acc : VecOfStr)
    (v : String) (hacc : acc ∈ accesses) (hv : v ∈ acc) :
    quoted v ∈ appendStringsWithAccess accesses := by
  simp only [appendStringsWithAccess, List.mem_flatMap]
  refine ⟨acc, hacc, ?_⟩
  have hpos : acc.length > 0 := List.length_pos_of_mem hv
  simp only [hpos, if_true, List.mem_append, appendStrings, List.mem_map]
  exact Or.inl ⟨v, hv, rfl⟩

theorem quoted_mem_appendPropWithAccess (propName : String) (values_ : VecOfStrAcc)
    (v : String) (hv : v ∈ values_.interface_) :
    quoted v ∈ appendPropWithAccess propName values_ := by
  have hpos : getNumElements values_ > 0 := by
    have := List.length_pos_of_mem hv
    simp only [getNumElements]
    omega
  simp only [appendPropWithAccess, hpos, if_true, List.mem_append]
  exact Or.inl (Or.inr (quoted_mem_appendStringsWithAccess _ values_.interface_ v
    (by simp [getAccesses]) hv))

theorem appendPropWithAccess_head (propName : String) (values_ : VecOfStrAcc)
    (v : String) (hv : v ∈ values_.interface_) :
    (appendPropWithAccess propName values_).head? = some (propName ++ " (\x7b\n") := by
  have hpos : getNumElements values_ > 0 := by
    have := List.length_pos_of_mem hv
    simp only [getNumElements]
    omega
  simp [appendPropWithAccess, hpos]

theorem appendProject_self_blocks (type : String) (p : Project) :
    ∃ pre, appendProject type p =
      pre ++ appendPropWithAccess "defines" p.defines.self ++
        appendPropWithAccess "links" p.linkedLibraries.self ++
        appendPropWithAccess "includedirs" p.includeFolders.self ++
        appendPropWithAccess "libdirs" p.linkerFolders.self :=
  ⟨["\n", "project(\"" ++ p.name ++ "\")\n",
      "kind(\"" ++ mapToPremake5Kind type ++ "\")\n"] ++
    (if p.language ≠ "" then appendPremake5Lang p.language
      else ["language(\"C++\")\n", "cppdialect(\"C++17\")\n"]) ++
    appendPropWithAccess "defines" p.defines.computed ++
    appendPropWithAccess "links" p.linkedLibraries.computed ++
    appendPropWithAccess "includedirs" p.includeFolders.computed ++
    appendPropWithAccess "libdirs" p.linkerFolders.computed ++
    appendPropWithAccessVec "files" p.files, rfl⟩

/-- C23 fails on the code: the project `sampleInterfaceOnly` has one entry in all its lists,
the define "USERS_ONLY" of its own interface tier, and `appendProject` writes it among the
defines of the project itself. -/
theorem own_interface_define_is_written :
    appendProject "static lib" sampleInterfaceOnly =
      ["\n", "project(\"lib\")\n", "kind(\"StaticLib\")\n", "language(\"C++\")\n",
        "cppdialect(\"C++17\")\n", "defines (\x7b\n", "\"USERS_ONLY\",\n", "\n",
        "\x7d)\n"] ∧
    sampleInterfaceOnly.defines.self.private_ = [] ∧
    sampleInterfaceOnly.defines.self.public_ = [] ∧
    sampleInterfaceOnly.defines.computed = AccessSplitVec.empty := by
  decide

/-- C23, amended: a project's own interface entries are used for the project itself. For
every project and each of the settings defines, links, includedirs and libdirs, every value
of the interface tier of the declared list of that setting is written by `appendProject`
under that setting, as a quoted line of the block that the setting opens. -/
theorem own_interface_entries_are_written (type : String) (p : Project) (setting v : String)
    (hv : v ∈ selfInterfaceOf p setting) :
    writtenUnder (appendProject type p) setting v := by
  obtain ⟨pre, hout⟩ := appendProject_self_blocks type p
  unfold selfInterfaceOf at hv
  by_cases h1 : setting = "defines"
  · subst h1
    simp only [if_true] at hv
    exact ⟨appendPropWithAccess "defines" p.defines.self,
      ⟨pre, appendPropWithAccess "links" p.linkedLibraries.self ++
        appendPropWithAccess "includedirs" p.includeFolders.self ++
        appendPropWithAccess "libdirs" p.linkerFolders.self,
        by simp only [hout, List.append_assoc, List.append_nil]⟩,
      appendPropWithAccess_head _ _ v hv, quoted_mem_appendPropWithAccess _ _ v hv⟩
  · by_cases h2 : setting = "links"
    · subst h2
      simp only [h1, if_false, if_true] at hv
      exact ⟨appendPropWithAccess "links" p.linkedLibraries.self,
        ⟨pre ++ appendPropWithAccess "defines" p.defines.self,
          appendPropWithAccess "includedirs" p.includeFolders.self ++
          appendPropWithAccess "libdirs" p.linkerFolders.self,
          by simp only [hout, List.append_assoc, List.append_nil]⟩,
        appendPropWithAccess_head _ _ v hv, quoted_mem_appendPropWithAccess _ _ v hv⟩
    · by_cases h3 : setting = "includedirs"
      · subst h3
        simp only [h1, h2, if_false, if_true] at hv
        exact ⟨appendPropWithAccess "includedirs" p.includeFolders.self,
          ⟨pre ++ appendPropWithAccess "defines" p.defines.self ++
            appendPropWithAccess "links" p.linkedLibraries.self,
            appendPropWithAccess "libdirs" p.linkerFolders.self,
            by simp only [hout, List.append_assoc, List.append_nil]⟩,
          appendPropWithAccess_head _ _ v hv, quoted_mem_appendPropWithAccess _ _ v hv⟩
      · by_cases h4 : setting = "libdirs"
        · subst h4
          simp only [h1, h2, h3, if_false, if_true] at hv
          exact ⟨appendPropWithAccess "libdirs" p.linkerFolders.self,
            ⟨pre ++ appendPropWithAccess "defines" p.defines.self ++
              appendPropWithAccess "links" p.linkedLibraries.self ++
              appendPropWithAccess "includedirs" p.includeFolders.self, [],
              by simp only [hout, List.append_assoc, List.append_nil]⟩,
            appendPropWithAccess_head _ _ v hv, quoted_mem_appendPropWithAccess _ _ v hv⟩
        · simp [h1, h2, h3, h4] at hv

/-- Witness of C23: the interface define of `sampleInterfaceOnly`. -/
theorem own_interface_entries_are_written_witness :
    "USERS_ONLY" ∈ selfInterfaceOf sampleInterfaceOnly "defines" ∧
    writtenUnder (appendProject "static lib" sampleInterfaceOnly) "defines" "USERS_ONLY" :=
  ⟨by decide,
    own_interface_entries_are_written "static lib" sampleInterfaceOnly "defines" "USERS_ONLY"
      (by decide)⟩

end Pacc
